import Mathlib

/-! # HTTP cache proxy: a shallow embedding and its checked properties

The C++ sources (`LRUCache.hpp`, `Parser.hpp`, `Response.hpp`, `Request.hpp`,
`Proxy.cpp`) are translated function by function into Lean definitions.
`std::string` and `std::vector<char>` are lists of characters, a
`std::unordered_map` is an association list with at most one pair per key, a
`std::list` is a list whose head is `front()`.  Socket input and output is made
explicit: what `recv`, `send` and `connect` return is read from a script, what
is written is appended to a trace.
-/

namespace HttpCacheProxy

/-- Both `std::string` and `std::vector<char>`. -/
abbrev Str := List Char

/-! ## std::unordered_map as an association list -/

/-- The value stored under `k`, as `m.find(k)` finds it. -/
def mapFind {ν : Type} (m : List (Str × ν)) (k : Str) : Option ν :=
  match m with
  | [] => none
  | p :: rest => if p.1 = k then some p.2 else mapFind rest k

/-- The call `m.erase(k)`. -/
def mapErase {ν : Type} (m : List (Str × ν)) (k : Str) : List (Str × ν) :=
  m.filter (fun p => decide (p.1 ≠ k))

/-- The call `m.insert(std::make_pair(k, v))`: an existing key keeps its old value. -/
def mapInsert {ν : Type} (m : List (Str × ν)) (k : Str) (v : ν) : List (Str × ν) :=
  match mapFind m k with
  | some _ => m
  | none => m ++ [(k, v)]

/-- The statement `m[k] = v`: the value under `k` is replaced, or the pair is added. -/
def mapAssign {ν : Type} (m : List (Str × ν)) (k : Str) (v : ν) : List (Str × ν) :=
  match m with
  | [] => [(k, v)]
  | p :: rest => if p.1 = k then (k, v) :: rest else p :: mapAssign rest k v

/-! ## Response.hpp -/

/-- The class `Response`. -/
structure Response where
  status_code : Int
  first_line : Str
  url : Str
  header : Str
  content : List (List Char)
  kv : List (Str × Str)
  no_store : Bool
  no_cache : Bool
  has_expiration : Bool
  cur_time : Int
  expiration_time : Int
  last_modified : Int
  etag : Str
deriving DecidableEq, Repr

/-- The constructor `Response(_url, buffer, h)`; `now` is what `time(NULL)` returns. -/
def Response.new (_url : Str) (buffer : List (List Char)) (h : Str) (now : Int) : Response :=
  { status_code := -1, first_line := [], url := _url, header := h, content := buffer, kv := [],
    no_store := false, no_cache := false, has_expiration := false, cur_time := now,
    expiration_time := 0, last_modified := 0, etag := [] }

/-! ## LRUCache.hpp -/

/-- The class `LRUCache`: `cache` is the recency list (front first), `kv` the map. -/
structure LRUCache where
  sz : Int
  capacity : Int
  cache : List Str
  kv : List (Str × Response)
deriving DecidableEq, Repr

namespace LRUCache

/-- The constructor `LRUCache(_capacity)`. -/
def new (_capacity : Int) : LRUCache :=
  { sz := 0, capacity := _capacity, cache := [], kv := [] }

/-- The method `existsUrl`. -/
def existsUrl (s : LRUCache) (url : Str) : Bool :=
  (mapFind s.kv url).isSome

/-- The method `remove`: `kv.erase(url); cache.remove(url);` (`sz` is not touched). -/
def remove (s : LRUCache) (url : Str) : LRUCache :=
  { s with kv := mapErase s.kv url, cache := s.cache.filter (fun x => decide (x ≠ url)) }

/-- The method `get`.  `none` is the thrown `ProxyException` (the cache is then unchanged);
otherwise the stored response and the cache with `url` moved to the back of the list. -/
def get (s : LRUCache) (url : Str) : Option (Response × LRUCache) :=
  match mapFind s.kv url with
  | none => none
  | some ret =>
      some (ret, { s with cache := s.cache.filter (fun x => decide (x ≠ url)) ++ [url] })

/-- The method `put`.  `none` is the eviction branch, which C++ leaves undefined: the inner
`url` is bound as a reference to `cache.front()` (there is no such element when the list is
empty), `cache.pop_front()` destroys that element, and `kv.erase(url)` then reads the
destroyed string. -/
def put (s : LRUCache) (url : Str) (response : Response) : Option LRUCache :=
  if s.existsUrl url then
    some { s with
      cache := s.cache.filter (fun x => decide (x ≠ url)) ++ [url],
      kv := mapAssign s.kv url response }
  else if s.sz = s.capacity then
    none
  else
    some { s with
      sz := s.sz + 1,
      cache := s.cache ++ [url],
      kv := mapInsert s.kv url response }

/-- The element that the eviction branch of `put(url, _)` takes off the recency list with
`cache.front()` and `cache.pop_front()`, before `kv.erase` reads it: `none` when `put` does
not enter that branch or the list is empty. -/
def evicted (s : LRUCache) (url : Str) : Option Str :=
  if s.existsUrl url then none
  else if s.sz = s.capacity then s.cache.head? else none

end LRUCache

/-! ## Sequences of cache operations -/

/-- One call on the cache. -/
inductive CacheOp where
  | put (url : Str) (response : Response)
  | get (url : Str)
  | remove (url : Str)
deriving DecidableEq, Repr

/-- The cache after one call; a `get` that throws leaves the cache as it was. -/
def LRUCache.step (s : LRUCache) : CacheOp → Option LRUCache
  | .put url response => s.put url response
  | .get url =>
      match s.get url with
      | some (_, s') => some s'
      | none => some s
  | .remove url => some (s.remove url)

/-- The cache after a sequence of calls (`none` once a call is undefined). -/
def LRUCache.run (s : LRUCache) : List CacheOp → Option LRUCache
  | [] => some s
  | op :: ops =>
      match s.step op with
      | some s' => s'.run ops
      | none => none

/-- The keys of the map of the cache. -/
def LRUCache.keys (s : LRUCache) : List Str :=
  s.kv.map Prod.fst

/-- The map and the recency list agree: no URL twice in the list, the keys of the map are
the URLs of the list, and the counter `sz` lies between their number and the capacity. -/
def LRUCache.Consistent (s : LRUCache) : Prop :=
  s.cache.Nodup ∧ s.keys.Perm s.cache ∧ (s.cache.length : Int) ≤ s.sz ∧ s.sz ≤ s.capacity

/-! ## std::string helpers -/

/-- The result of `s.find(pat)` when the search starts at a suffix whose first character
has index `i` (`none` is `npos`). -/
def strFindFrom (pat : Str) : Str → Nat → Option Nat
  | [], i => if pat = [] then some i else none
  | c :: t, i => if pat.isPrefixOf (c :: t) then some i else strFindFrom pat t (i + 1)

/-- The call `s.find(pat)`. -/
def strFind (s pat : Str) : Option Nat :=
  strFindFrom pat s 0

/-- The call `s.find_first_of(set)`: the first index whose character is one of `set`. -/
def findFirstOf (s set : Str) : Option Nat :=
  match s with
  | [] => none
  | c :: t =>
      if c ∈ set then some 0
      else
        match findFirstOf t set with
        | some i => some (i + 1)
        | none => none

/-- The call `s.find_last_of(ch)`: the last index that holds `ch`. -/
def findLastOf (s : Str) (ch : Char) : Option Nat :=
  match s with
  | [] => none
  | c :: t =>
      match findLastOf t ch with
      | some i => some (i + 1)
      | none => if c = ch then some 0 else none

/-- A `size_t` search result stored in an `int`: `npos` becomes `-1`. -/
def toInt : Option Nat → Int
  | some i => (i : Int)
  | none => -1

/-- An `int` passed where a `size_t` is expected (64 bits). -/
def sizeT (i : Int) : Nat :=
  (i % 2 ^ 64).toNat

/-- A value reduced to an `unsigned` (32 bits). -/
def u32 (i : Int) : Nat :=
  (i % 2 ^ 32).toNat

/-- A search result stored in an `unsigned`: `npos` becomes `2^32 - 1`. -/
def toUnsigned : Option Nat → Nat
  | some i => i % 2 ^ 32
  | none => 2 ^ 32 - 1

/-- The call `s.substr(pos, n)`; `none` is the thrown `std::out_of_range`. -/
def substr (s : Str) (pos n : Nat) : Option Str :=
  if pos > s.length then none else some ((s.drop pos).take n)

/-- The call `s.substr(pos)`; `none` is the thrown `std::out_of_range`. -/
def substrFrom (s : Str) (pos : Nat) : Option Str :=
  if pos > s.length then none else some (s.drop pos)

/-- The function `isdigit`. -/
def isdigit (c : Char) : Bool :=
  decide (48 ≤ c.toNat ∧ c.toNat ≤ 57)

/-- The function `isspace` of the C locale. -/
def isspace (c : Char) : Bool :=
  decide (c.toNat = 32 ∨ (9 ≤ c.toNat ∧ c.toNat ≤ 13))

/-- The number written by a list of digits, read after the value `acc`. -/
def digitsValue : Str → Nat → Nat
  | [], acc => acc
  | c :: t, acc => digitsValue t (acc * 10 + (c.toNat - 48))

/-- The call `std::stoi(s)`: leading white space, an optional sign, then decimal digits;
`none` is the thrown exception (`std::invalid_argument` when no digit follows,
`std::out_of_range` when the value does not fit an `int`). -/
def stoi (s : Str) : Option Int :=
  let s1 := s.dropWhile isspace
  let neg : Bool := match s1 with
    | c :: _ => decide (c = '-')
    | [] => false
  let s2 : Str := match s1 with
    | c :: t => if c = '-' ∨ c = '+' then t else s1
    | [] => s1
  let ds := s2.takeWhile isdigit
  if ds = [] then none
  else
    let v : Int := if neg then -((digitsValue ds 0 : Nat) : Int) else ((digitsValue ds 0 : Nat) : Int)
    if v < -(2 : Int) ^ 31 ∨ v > (2 : Int) ^ 31 - 1 then none else some v

/-! ## Request.hpp -/

/-- The class `Request`. -/
structure Request where
  request_time : Str
  first_line : Str
  httpAction : Str
  url : Str
  hostname : Str
  port : Str
  content : Str
deriving DecidableEq, Repr

/-- The constructor `Request(cur_time, buffer, len)`; `received` is `buffer[0 .. len)`. -/
def Request.new (cur_time : Str) (received : Str) : Request :=
  { request_time := cur_time, first_line := [], httpAction := [], url := [], hostname := [],
    port := [], content := received }

/-- The default constructor `Request()`. -/
def Request.empty : Request :=
  Request.new [] []

/-! ## Parser.hpp -/

namespace Parser

/-- The helper `pushClear(temp, data)`: the pair is the new `(temp, data)`. -/
def pushClear (temp data : Str) : Str × Str :=
  if temp ≠ [] then ([], temp) else (temp, data)

/-- The loop of `extractAddrPort` that looks for the third slash: the value of `idx` when
the loop ends, started at index `idx` with `slash` slashes counted so far. -/
def thirdSlash : Str → Nat → Nat → Nat
  | [], _, idx => idx
  | c :: t, slash, idx =>
      if slash + (if c = '/' then 1 else 0) = 3 then idx
      else thirdSlash t (slash + (if c = '/' then 1 else 0)) (idx + 1)

/-- The method `extractAddrPort(url, hostname, port)`: the triple is the new
`(url, hostname, port)`.  Neither `substr` call can throw: the position is 7 in a string that
starts with `http://`, or 0. -/
def extractAddrPort (url : Str) : Str × Str × Str :=
  if strFind url "http://".toList = some 0 then
    let idx : Int := (thirdSlash url 0 0 : Nat)
    (url, (url.drop 7).take (sizeT (idx - 7)), "80".toList)
  else
    let idx : Int := toInt (findLastOf url ':')
    (url.take (sizeT idx), url.take (sizeT idx), "443".toList)

/-- The loop of `parseRequest` over `request.content`; `suc` is `extractAddrPort_suc`. -/
def parseRequestLoop : Str → Request → Bool → Str → Request
  | [], request, _, _ => request
  | c :: rest, request, suc, temp =>
      if c = '\r' then request
      else
        let request1 := { request with first_line := request.first_line ++ [c] }
        if suc = false ∧ c = ' ' then
          if request1.httpAction = [] then
            parseRequestLoop rest
              { request1 with httpAction := (pushClear temp request1.httpAction).2 } suc
              (pushClear temp request1.httpAction).1
          else
            let url1 := (pushClear temp request1.url).2
            parseRequestLoop rest
              { request1 with
                url := (extractAddrPort url1).1,
                hostname := (extractAddrPort url1).2.1,
                port := (extractAddrPort url1).2.2 } true
              (pushClear temp request1.url).1
        else
          parseRequestLoop rest request1 suc (temp ++ [c])

/-- The method `parseRequest`. -/
def parseRequest (request : Request) : Request :=
  parseRequestLoop request.content request false []

/-- The characters of `header` before its first carriage return. -/
def untilCR : Str → Str
  | [] => []
  | c :: t => if c = '\r' then [] else c :: untilCR t

/-- The method `extractFirstLine(Response &)`; `none` is an exception thrown by `substr`
or by `std::stoi`. -/
def extractFirstLine (response : Response) : Option Response :=
  let first_line := response.first_line ++ untilCR response.header
  let idx1 : Int := toInt (findFirstOf first_line [' '])
  let idx2 : Int := toInt (findLastOf first_line ' ')
  match substr first_line (sizeT idx1) (sizeT (idx2 - idx1)) with
  | none => none
  | some middle =>
      match stoi middle with
      | none => none
      | some code => some { response with first_line := first_line, status_code := code }

/-- The loop of `extractKV(Response &)` over `kv_header`, with the map insertion that follows
it.  A step that the source takes with `++idx` consumes two characters here. -/
def extractKVLoop : Str → Str → Str → Str → List (Str × Str) → List (Str × Str)
  | [], key, val, temp, kv => mapInsert kv key (pushClear temp val).2
  | [c], key, val, temp, kv => mapInsert kv key (pushClear (temp ++ [c]) val).2
  | c :: d :: rest, key, val, temp, kv =>
      if c = '\r' ∧ d = '\n' then
        extractKVLoop rest [] [] (pushClear temp val).1 (mapInsert kv key (pushClear temp val).2)
      else if c = ':' ∧ d = ' ' then
        extractKVLoop rest (pushClear temp key).2 val (pushClear temp key).1 kv
      else
        extractKVLoop (d :: rest) key val (temp ++ [c]) kv

/-- The method `extractKV(Response &)`; `idx1` and `idx2` are `unsigned`, so the sums are
taken modulo `2^32`; `none` is the `std::out_of_range` thrown by `substr`. -/
def extractKV (response : Response) : Option Response :=
  let idx1 : Nat := toUnsigned (findFirstOf response.header ['\r', '\n'])
  let idx2 : Nat := toUnsigned (findFirstOf response.header ['\r', '\n', '\r', '\n'])
  match substr response.header (u32 ((idx1 : Int) + 2)) (u32 ((idx2 : Int) - idx1 - 2)) with
  | none => none
  | some kv_header => some { response with kv := extractKVLoop kv_header [] [] [] response.kv }

/-- The method `extractAttri`. -/
def extractAttri (response : Response) : Response :=
  let response1 :=
    match mapFind response.kv "Cache-Control".toList with
    | some cache_control =>
        let r1 := if (strFind cache_control "no-store".toList).isSome
          then { response with no_store := true } else response
        if (strFind cache_control "no-cache".toList).isSome
          then { r1 with no_cache := true } else r1
    | none => response
  match mapFind response1.kv "ETag".toList with
  | some etag => { response1 with etag := etag }
  | none => response1

/-- An `int` after an arithmetic step, wrapped to 32 bits in two's complement (C++ leaves
signed overflow undefined; this is what the hardware does). -/
def wrapInt (i : Int) : Int :=
  (i + 2 ^ 31) % 2 ^ 32 - 2 ^ 31

/-- The method `calcExpiration`; `none` is an exception thrown by `substr` or `std::stoi`.
The search result is stored in `int idx`, so it is wrapped to 32 bits, and `idx + 8` goes
back to a `size_t` in the call of `substr`. -/
def calcExpiration (response : Response) : Option Response :=
  match mapFind response.kv "Cache-Control".toList with
  | some cache_control =>
      let idx : Int := wrapInt (toInt (strFind cache_control "max-age".toList))
      if idx ≠ -1 then
        match substrFrom cache_control (sizeT (wrapInt (idx + 8))) with
        | none => none
        | some max_age_s =>
            match stoi max_age_s with
            | none => none
            | some fressness_time =>
                some { response with expiration_time := response.cur_time + fressness_time }
      else some { response with expiration_time := response.cur_time + 0 }
  | none => some { response with expiration_time := response.cur_time + 0 }

/-- The method `extractLastModified`; `mktimeOf text` is what `mktime` returns for the
`struct tm` that `strptime` fills from `text` (it depends on the time zone of the process). -/
def extractLastModified (mktimeOf : Str → Int) (response : Response) : Response :=
  match mapFind response.kv "Last-Modified".toList with
  | some text => { response with last_modified := mktimeOf text }
  | none => response

/-- The method `parseResponse`; `none` is an exception thrown on the way. -/
def parseResponse (mktimeOf : Str → Int) (response : Response) : Option Response :=
  match extractFirstLine response with
  | none => none
  | some r1 =>
      match extractKV r1 with
      | none => none
      | some r2 =>
          match calcExpiration (extractAttri r2) with
          | none => none
          | some r3 => some (extractLastModified mktimeOf r3)

/-- The loop of `extractContentLength` from the position of `Content-Length` on. -/
def contentLengthLoop : Str → Bool → Int → Int
  | [], _, res => res
  | c :: t, digit_found, res =>
      if digit_found ∧ isdigit c then
        contentLengthLoop t digit_found (wrapInt (res * 10 + ((c.toNat : Int) - 48)))
      else if digit_found ∧ ¬ isdigit c then res
      else if ¬ digit_found ∧ isdigit c then
        contentLengthLoop t true ((c.toNat : Int) - 48)
      else contentLengthLoop t digit_found res

/-- The method `extractContentLength`; `none` when `Content-Length` does not occur, where
the source would index the string at `-1`. -/
def extractContentLength (header : Str) : Option Int :=
  match strFind header "Content-Length".toList with
  | none => none
  | some idx => some (contentLengthLoop (header.drop idx) false 0)

/-- The method `extractFirstLine(const std::string &)`. -/
def extractFirstLineOf (header : Str) : Str :=
  header.take (sizeT (toInt (findFirstOf header ['\r'])))

end Parser

/-! ## Proxy.cpp -/

/-- The constant `BUFFER_SIZE`. -/
def BUFFER_SIZE : Nat := 65536

/-- What one connection handler sees besides its arguments: the shared cache, the scripts
from which the results of the system calls are read, and the traces of what was done.
`clock` are the successive results of `time(NULL)`; `origin` tells whether `getaddrinfo`,
`socket` and `connect` succeed; `clientIn` and `serverIn` are the successive results of
`recv` on the two sockets (`none` is `-1`, the empty string is a closed peer); `ready` are
the successive results of `select` (`none` is `-1`, otherwise which of client and origin is
readable); `sends` are the successive results of `send` (`none` is `-1`, `some k` accepts at
most `k` bytes).  `connects` lists the hosts and ports `connectServer` was called for,
`toServer` and `toClient` the bytes written to the two sockets.  Calls of the logger and of
`close` are left out. -/
structure World where
  cache : LRUCache
  clock : List Int
  origin : Bool
  clientIn : List (Option Str)
  serverIn : List (Option Str)
  ready : List (Option (Bool × Bool))
  sends : List (Option Nat)
  connects : List (Str × Str)
  toServer : Str
  toClient : Str
deriving DecidableEq, Repr

/-- How a call ends: it returns `a`, it throws, or it has no result because a script ran
out or a step is undefined. -/
inductive Res (α : Type) where
  | ok (a : α) (w : World)
  | thrown (w : World)
  | stuck
deriving DecidableEq, Repr

/-- The world in which a call ended, when it returned or threw. -/
def Res.final {α : Type} : Res α → Option World
  | .ok _ w => some w
  | .thrown w => some w
  | .stuck => none

/-- Whether a call returned (rather than threw or had no result). -/
def Res.returned {α : Type} : Res α → Bool
  | .ok _ _ => true
  | _ => false

namespace Proxy

/-- One `recv(fd, buffer, n, 0)` read from a script: the result and the rest of the script;
`none` when the script has run out or offers more than `n` bytes at once. -/
def nextRecv (script : List (Option Str)) (n : Nat) :
    Option (Option Str × List (Option Str)) :=
  match script with
  | [] => none
  | none :: rest => some (none, rest)
  | some data :: rest => if data.length ≤ n then some (some data, rest) else none

/-- A fresh `std::vector<char> buffer(BUFFER_SIZE, 0)`. -/
def newBuffer : Str :=
  List.replicate BUFFER_SIZE '\x00'

/-- The buffer after `recv` has stored `data` at its start and `buffer[len] = 0` has been
executed with `len` the number of bytes received; used where `recv` is asked for
`BUFFER_SIZE - 1` bytes, so that `len` is an index of the vector. -/
def received (buffer data : Str) : Str :=
  (data ++ buffer.drop data.length).set data.length '\x00'

/-- The statement `buffer[len] = 0` on a `std::vector<char>` of `BUFFER_SIZE` elements, as
every buffer of the proxy is: `none` when `len` is not an index of the vector, for then
`operator[]` refers to no element and the write is undefined. -/
def terminate (buffer : Str) (len : Nat) : Option Str :=
  if len < BUFFER_SIZE then some (buffer.set len '\x00') else none

/-- The result of `time(NULL)`. -/
def tick (w : World) : Option (Int × World) :=
  match w.clock with
  | [] => none
  | t :: rest => some (t, { w with clock := rest })

/-- The method `acceptRequest`; the formatted time of the request only feeds the log. -/
def acceptRequest (w : World) : Res Request :=
  match nextRecv w.clientIn BUFFER_SIZE with
  | none => .stuck
  | some (none, rest) => .thrown { w with clientIn := rest }
  | some (some data, rest) =>
      match terminate (data ++ newBuffer.drop data.length) data.length with
      | none => .stuck
      | some _ => .ok (Parser.parseRequest (Request.new [] data)) { w with clientIn := rest }

/-- The method `findFirstLine`: the index of the first carriage return that is followed by
a line feed, or the index where the loop stops when there is none (`N - 1`, or 0 for an
empty vector). -/
def findFirstLine : Str → Nat
  | [] => 0
  | [_] => 0
  | c :: d :: rest => if c = '\r' ∧ d = '\n' then 0 else findFirstLine (d :: rest) + 1

/-- The method `insertSectionToContent`. -/
def insertSectionToContent (content section_ : Str) : Str :=
  content.take (findFirstLine content) ++ section_ ++ content.drop (findFirstLine content)

/-- Whether some window of three characters of the list reads `304`. -/
def has304 : Str → Bool
  | [] => false
  | a :: rest =>
      (match rest with
       | b :: c :: _ => decide (a = '3' ∧ b = '0' ∧ c = '4')
       | _ => false) || has304 rest

/-- The method `checkStatusCode`: the loop looks at the windows that lie inside
`header[0 .. idx]`, `idx` the index of the first line end. -/
def checkStatusCode (header : Str) : Bool :=
  match strFind header "\r\n".toList with
  | none => false
  | some idx => has304 (header.take (idx + 1))

/-- The loop `while(sent_length < N) { len = send(fd, data + sent_length, N - sent_length, 0);
... sent_length += len; }` of `sendRequest`, `resendCheckStatus` and `respondCached`:
whether it ended without error, the bytes written, and the rest of the script of `send`
results; `none` when the script runs out. -/
def sendAll (content : Str) : List (Option Nat) → Nat → Option (Bool × Str × List (Option Nat))
  | sends, sent_length =>
      if sent_length < content.length then
        match sends with
        | [] => none
        | none :: rest => some (false, [], rest)
        | some k :: rest =>
            match sendAll content rest (sent_length + min k (content.length - sent_length)) with
            | none => none
            | some (suc, out, rest1) =>
                some (suc,
                  (content.drop sent_length).take (min k (content.length - sent_length)) ++ out,
                  rest1)
      else some (true, [], sends)

/-- The loop of `respondClient`: every `send` is asked for `received_length` bytes from
`buffer + sent_length`.  The result is read as for `sendAll`. -/
def respondClientLoop (buffer : Str) (received_length : Nat) :
    List (Option Nat) → Nat → Option (Bool × Str × List (Option Nat))
  | sends, sent_length =>
      if sent_length < received_length then
        match sends with
        | [] => none
        | none :: rest => some (false, [], rest)
        | some k :: rest =>
            match respondClientLoop buffer received_length rest
                (sent_length + min k received_length) with
            | none => none
            | some (suc, out, rest1) =>
                some (suc, (buffer.drop sent_length).take (min k received_length) ++ out, rest1)
      else some (true, [], sends)

/-- The method `respondClient`. -/
def respondClient (buffer : Str) (received_length : Nat) (w : World) : Res Bool :=
  match respondClientLoop buffer received_length w.sends 0 with
  | none => .stuck
  | some (suc, out, rest) => .ok suc { w with sends := rest, toClient := w.toClient ++ out }

/-- A send loop on the origin socket that throws when `send` fails. -/
def sendServer (content : Str) (w : World) : Res Unit :=
  match sendAll content w.sends 0 with
  | none => .stuck
  | some (true, out, rest) => .ok () { w with sends := rest, toServer := w.toServer ++ out }
  | some (false, out, rest) => .thrown { w with sends := rest, toServer := w.toServer ++ out }

/-- The loop of `respondCached` over the segments of the cached response. -/
def sendSegments : List Str → World → Res Unit
  | [], w => .ok () w
  | seg :: segs, w =>
      match sendAll seg w.sends 0 with
      | none => .stuck
      | some (true, out, rest) =>
          sendSegments segs { w with sends := rest, toClient := w.toClient ++ out }
      | some (false, out, rest) =>
          .thrown { w with sends := rest, toClient := w.toClient ++ out }

/-- The method `respondCached`. -/
def respondCached (url : Str) (w : World) : Res Unit :=
  match w.cache.get url with
  | none => .thrown w
  | some (response, cache1) => sendSegments response.content { w with cache := cache1 }

/-- The method `connectServer`. -/
def connectServer (request : Request) (w : World) : Res Unit :=
  if w.origin then .ok () { w with connects := w.connects ++ [(request.hostname, request.port)] }
  else .thrown { w with connects := w.connects ++ [(request.hostname, request.port)] }

/-- The method `sendRequest`. -/
def sendRequest (request : Request) (w : World) : Res Unit :=
  sendServer request.content w

/-- The method `getResponseHeader`: the number of bytes received and the buffer. -/
def getResponseHeader (buffer : Str) (w : World) : Res (Nat × Str) :=
  match nextRecv w.serverIn BUFFER_SIZE with
  | none => .stuck
  | some (none, rest) => .thrown { w with serverIn := rest }
  | some (some data, rest) =>
      match terminate (data ++ buffer.drop data.length) data.length with
      | none => .stuck
      | some buffer1 => .ok (data.length, buffer1) { w with serverIn := rest }

/-- The loop of `getResponse` for a response with `Content-Length`: the segments. -/
def contentLengthBody (content_length : Int) :
    Nat → Int → Str → List Str → World → Res (List Str)
  | fuel, received_length, buffer, segment, w =>
      if received_length < content_length then
        match fuel with
        | 0 => .stuck
        | fuel1 + 1 =>
            match nextRecv w.serverIn (BUFFER_SIZE - 1) with
            | none => .stuck
            | some (none, rest) => .thrown { w with serverIn := rest }
            | some (some data, rest) =>
                match respondClient (received buffer data) data.length
                    { w with serverIn := rest } with
                | .ok true w1 =>
                    contentLengthBody content_length fuel1 (received_length + data.length)
                      (received buffer data) (segment ++ [data]) w1
                | .ok false w1 => .thrown w1
                | .thrown w1 => .thrown w1
                | .stuck => .stuck
      else .ok segment w

/-- The loop of `getResponse` for a chunked response: the segments. -/
def chunkedBody : Nat → Str → List Str → World → Res (List Str)
  | 0, _, _, _ => .stuck
  | fuel1 + 1, buffer, segment, w =>
      match nextRecv w.serverIn (BUFFER_SIZE - 1) with
      | none => .stuck
      | some (none, rest) => .thrown { w with serverIn := rest }
      | some (some data, rest) =>
          match respondClient (received buffer data) data.length { w with serverIn := rest } with
          | .ok true w1 =>
              if (received buffer data).head? = some '0' then .ok (segment ++ [data]) w1
              else chunkedBody fuel1 (received buffer data) (segment ++ [data]) w1
          | .ok false w1 => .thrown w1
          | .thrown w1 => .thrown w1
          | .stuck => .stuck

/-- The loop of `getResponse` for a response that ends when the origin closes: the
segments. -/
def untilCloseBody : Nat → Str → List Str → World → Res (List Str)
  | 0, _, _, _ => .stuck
  | fuel1 + 1, buffer, segment, w =>
      match nextRecv w.serverIn (BUFFER_SIZE - 1) with
      | none => .stuck
      | some (none, rest) => .thrown { w with serverIn := rest }
      | some (some data, rest) =>
          if data.length = 0 then .ok segment { w with serverIn := rest }
          else
            match respondClient (data ++ buffer.drop data.length) data.length
                { w with serverIn := rest } with
            | .ok true w1 =>
                untilCloseBody fuel1 (data ++ buffer.drop data.length) (segment ++ [data]) w1
            | .ok false w1 => .thrown w1
            | .thrown w1 => .thrown w1
            | .stuck => .stuck

/-- The first part of `getResponse` (content part), lines 481 to 564: the body is received
and relayed according to the framing that `header` announces; the result is `segment`. -/
def receiveBody (header : Str) (segment : List Str) (len : Nat) (w : World) :
    Res (List Str) :=
  if (strFind header "Content-Length".toList).isSome then
    match Parser.extractContentLength header with
    | none => .stuck
    | some content_length =>
        contentLengthBody content_length (w.serverIn.length + 1) (len : Int) newBuffer segment w
  else if (strFind header "chunked".toList).isSome then
    chunkedBody (w.serverIn.length + 1) newBuffer segment w
  else
    untilCloseBody (w.serverIn.length + 1) newBuffer segment w

/-- The second part of `getResponse` (content part), lines 565 to 578: the response is built
and parsed, and stored when it may be. -/
def storeResponse (mktimeOf : Str → Int) (url header : Str) (segment : List Str)
    (httpAction : Str) (w : World) : Res Unit :=
  match tick w with
  | none => .stuck
  | some (now, w1) =>
      match Parser.parseResponse mktimeOf (Response.new url segment header now) with
      | none => .thrown w1
      | some response =>
          if response.no_store = false ∧ httpAction = "GET".toList then
            match w1.cache.put url response with
            | none => .stuck
            | some cache1 => .ok () { w1 with cache := cache1 }
          else .ok () w1

/-- The method `getResponse(client_id, client_fd, server_fd, url, header, segment, len,
httpAction)`, the content part. -/
def getResponseContent (mktimeOf : Str → Int) (url header : Str) (segment : List Str)
    (len : Nat) (httpAction : Str) (w : World) : Res Unit :=
  match receiveBody header segment len w with
  | .ok segment1 w1 => storeResponse mktimeOf url header segment1 httpAction w1
  | .thrown w1 => .thrown w1
  | .stuck => .stuck

/-- The method `getResponse(client_id, client_fd, server_fd, request)`, the header part. -/
def getResponse (mktimeOf : Str → Int) (request : Request) (w : World) : Res Unit :=
  match getResponseHeader newBuffer w with
  | .ok (len, buffer) w1 =>
      match respondClient buffer len w1 with
      | .ok true w2 =>
          getResponseContent mktimeOf request.url (buffer.take (len + 1)) [buffer.take len] len
            request.httpAction w2
      | .ok false w2 => .thrown w2
      | .thrown w2 => .thrown w2
      | .stuck => .stuck
  | .thrown w1 => .thrown w1
  | .stuck => .stuck

/-- The method `resendCheckStatus`. -/
def resendCheckStatus (mktimeOf : Str → Int) (content_to_send url : Str) (w : World) :
    Res Unit :=
  match sendServer content_to_send w with
  | .ok _ w1 =>
      match nextRecv w1.serverIn BUFFER_SIZE with
      | none => .stuck
      | some (none, rest) => .thrown { w1 with serverIn := rest }
      | some (some data, rest) =>
          match terminate (data ++ newBuffer.drop data.length) data.length with
          | none => .stuck
          | some buffer =>
              if checkStatusCode data then respondCached url { w1 with serverIn := rest }
              else
                match respondClient buffer data.length { w1 with serverIn := rest } with
                | .ok true w2 =>
                    getResponseContent mktimeOf url data [data] data.length "GET".toList w2
                | .ok false w2 => .thrown w2
                | .thrown w2 => .thrown w2
                | .stuck => .stuck
  | .thrown w1 => .thrown w1
  | .stuck => .stuck

/-- A call that returns nothing, followed by `return true`. -/
def thenTrue : Res Unit → Res Bool
  | .ok _ w => .ok true w
  | .thrown w => .thrown w
  | .stuck => .stuck

/-- The method `checkCaching`. -/
def checkCaching (mktimeOf : Str → Int) (request : Request) (w : World) : Res Bool :=
  if w.cache.existsUrl request.url = false then .ok false w
  else
    match w.cache.get request.url with
    | none => .thrown w
    | some (response, cache1) =>
        match tick { w with cache := cache1 } with
        | none => .stuck
        | some (cur_time, w1) =>
            if cur_time ≤ response.expiration_time ∧ response.no_cache = false then
              thenTrue (respondCached request.url w1)
            else if response.etag ≠ [] then
              thenTrue (resendCheckStatus mktimeOf
                (insertSectionToContent request.content
                  ("\r\nIf-None-Match: ".toList ++ response.etag))
                request.url w1)
            else if response.last_modified ≠ 0 then
              thenTrue (resendCheckStatus mktimeOf
                (insertSectionToContent request.content
                  ("\r\nIf-Modified-Since: ".toList ++
                    (mapFind response.kv "Last-Modified".toList).getD []))
                request.url w1)
            else .ok false w1

/-- The method `handleGetPost`. -/
def handleGetPost (mktimeOf : Str → Int) (request : Request) (w : World) : Res Unit :=
  match sendRequest request w with
  | .ok _ w1 => getResponse mktimeOf request w1
  | .thrown w1 => .thrown w1
  | .stuck => .stuck

/-- One `send(fd, data, n, 0)` whose result is only compared with `-1`: the bytes written
and the rest of the script; `none` when the script has run out. -/
def sendOnce (data : Str) (sends : List (Option Nat)) : Option (Option Str × List (Option Nat)) :=
  match sends with
  | [] => none
  | none :: rest => some (none, rest)
  | some k :: rest => some (some (data.take k), rest)

/-- One pass of the `for` loop of `handleConnect` for the socket `i` (`false` the client,
`true` the origin) when it is readable: whether the connection has ended. -/
def relayOnce (fromServer : Bool) (w : World) : Res Bool :=
  match nextRecv (if fromServer then w.serverIn else w.clientIn) (BUFFER_SIZE - 1) with
  | none => .stuck
  | some (none, rest) =>
      .thrown (if fromServer then { w with serverIn := rest } else { w with clientIn := rest })
  | some (some data, rest) =>
      if data.length = 0 then
        .ok true (if fromServer then { w with serverIn := rest } else { w with clientIn := rest })
      else
        match sendOnce data w.sends with
        | none => .stuck
        | some (none, rest1) =>
            .thrown (if fromServer then { w with serverIn := rest, sends := rest1 }
              else { w with clientIn := rest, sends := rest1 })
        | some (some out, rest1) =>
            .ok false (if fromServer
              then { w with serverIn := rest, sends := rest1, toClient := w.toClient ++ out }
              else { w with clientIn := rest, sends := rest1, toServer := w.toServer ++ out })

/-- The `while` loop of `handleConnect`. -/
def tunnel : Nat → World → Res Unit
  | 0, _ => .stuck
  | fuel1 + 1, w =>
      match w.ready with
      | [] => .stuck
      | none :: rest => .thrown { w with ready := rest }
      | some (clientReady, serverReady) :: rest =>
          match (if clientReady then relayOnce false { w with ready := rest }
                 else .ok false { w with ready := rest }) with
          | .ok true w1 => .ok () w1
          | .ok false w1 =>
              match (if serverReady then relayOnce true w1 else .ok false w1) with
              | .ok true w2 => .ok () w2
              | .ok false w2 => tunnel fuel1 w2
              | .thrown w2 => .thrown w2
              | .stuck => .stuck
          | .thrown w1 => .thrown w1
          | .stuck => .stuck

/-- The method `handleConnect`: the reply `200 OK` with its terminating zero, then the
tunnel. -/
def handleConnect (w : World) : Res Unit :=
  match sendOnce ("200 OK".toList ++ ['\x00']) w.sends with
  | none => .stuck
  | some (none, rest) => .thrown { w with sends := rest }
  | some (some out, rest) =>
      tunnel (w.ready.length + 1) { w with sends := rest, toClient := w.toClient ++ out }

/-- The method `handleRequest`; `thrown` is the path through the outer `catch`. -/
def handleRequest (mktimeOf : Str → Int) (w : World) : Res Unit :=
  match acceptRequest w with
  | .ok request w1 =>
      match connectServer request w1 with
      | .ok _ w2 =>
          if request.httpAction = "CONNECT".toList then handleConnect w2
          else if request.httpAction = "GET".toList then
            match checkCaching mktimeOf request w2 with
            | .ok true w3 => .ok () w3
            | .ok false w3 => handleGetPost mktimeOf request w3
            | .thrown w3 => .thrown w3
            | .stuck => .stuck
          else if request.httpAction = "POST".toList then handleGetPost mktimeOf request w2
          else .thrown w2
      | .thrown w2 => .thrown w2
      | .stuck => .stuck
  | .thrown w1 => .thrown w1
  | .stuck => .stuck

end Proxy

/-! ## Notions used in the statements -/

/-- The byte sequence contains a line end (carriage return, line feed). -/
def HasLineEnd (content : Str) : Prop :=
  ∃ pre suf : Str, content = pre ++ '\r' :: '\n' :: suf

/-- No line end begins inside `line`, also when a carriage return follows `line`: in
`line ++ "\r\n" ++ rest` the line end after `line` is the first one. -/
def NoLineEnd (line : Str) : Prop :=
  ∀ pre suf : Str, line ++ ['\r'] ≠ pre ++ '\r' :: '\n' :: suf

/-- Every `send` of the script succeeds and accepts at least `m` bytes. -/
def SendsAccept (sends : List (Option Nat)) (m : Nat) : Prop :=
  ∀ e ∈ sends, ∃ k : Nat, e = some k ∧ m ≤ k

/-! ## Sample data -/

/-- A sample URL. -/
def urlA : Str := "http://o/a".toList

/-- A second sample URL. -/
def urlB : Str := "http://o/b".toList

/-- A third sample URL. -/
def urlC : Str := "http://o/c".toList

/-- A sample response, as the constructor leaves it. -/
def sampleResponse : Response := Response.new urlA [] [] 0

/-- A world in which nothing has happened and nothing is scripted; the cache is the empty
cache of the proxy (`CACHE_SIZE` is 500). -/
def idleWorld : World :=
  { cache := LRUCache.new 500, clock := [], origin := true, clientIn := [], serverIn := [],
    ready := [], sends := [], connects := [], toServer := [], toClient := [] }

/-- A stand-in for `strptime` and `mktime`: every date is read as time 0. -/
def mktimeZero : Str → Int :=
  fun _ => 0

/-- A GET request for `http://o/a`. -/
def requestA : Request :=
  Parser.parseRequest (Request.new [] "GET http://o/a HTTP/1.1\r\nHost: o\r\n\r\n".toList)

/-- A header block of 39 bytes that announces a body of 30 bytes. -/
def headerLength30 : Str :=
  "HTTP/1.1 200 OK\r\nContent-Length: 30\r\n\r\n".toList

/-- A body of 30 bytes. -/
def body30 : Str :=
  "0123456789abcdefghijABCDEFGHIJ".toList

/-- The bytes of a GET request for `http://o/a`. -/
def requestBytesA : Str :=
  "GET http://o/a HTTP/1.1\r\nHost: o\r\n\r\n".toList

/-- The first read of the response of scenario S1: header block and body `abc`. -/
def replyS1 : Str :=
  "HTTP/1.1 200 OK\r\nCache-Control: max-age=3600\r\nContent-Length: 3\r\n\r\nabc".toList

/-- The response of scenario S1 as `parseResponse` leaves it when it arrives at time 1000:
fresh until 4600. -/
def freshResponse : Response :=
  { status_code := 200, first_line := "HTTP/1.1 200 OK".toList, url := urlA,
    header := replyS1 ++ ['\x00'], content := [replyS1],
    kv := [("Cache-Control".toList, "max-age=3600".toList), ("Content-Length".toList, "3".toList),
      ([], [])],
    no_store := false, no_cache := false, has_expiration := false, cur_time := 1000,
    expiration_time := 4600, last_modified := 0, etag := [] }

/-- A stored response that expired at time 1000 and has neither an entity tag nor a
modification time. -/
def staleResponse : Response :=
  { freshResponse with expiration_time := 1000 }

/-- A stored response that expired at time 1000 and has the entity tag `"v1"`. -/
def staleEtagResponse : Response :=
  { freshResponse with expiration_time := 1000, etag := "\"v1\"".toList }

/-- The cache of the proxy when it holds `r` under `http://o/a` and nothing else. -/
def cacheOf (r : Response) : LRUCache :=
  { sz := 1, capacity := 500, cache := [urlA], kv := [(urlA, r)] }

/-- A reply whose status is 304. -/
def reply304 : Str :=
  "HTTP/1.1 304 Not Modified\r\n\r\n".toList

/-- At time 1010 a client asks for `http://o/a`, which is cached and fresh; the origin can
be reached. -/
def worldFresh : World :=
  { idleWorld with
    cache := cacheOf freshResponse, clock := [1010], clientIn := [some requestBytesA],
    sends := [some 65536] }

/-- The same, but the origin cannot be resolved or connected to. -/
def worldFreshNoOrigin : World :=
  { worldFresh with origin := false }

/-- At time 2000 a client asks for `http://o/a`, which is cached, expired and without
validators; the origin answers 304 and closes. -/
def world304Plain : World :=
  { idleWorld with
    cache := cacheOf staleResponse, clock := [2000, 2001], clientIn := [some requestBytesA],
    serverIn := [some reply304, some []], sends := [some 65536, some 65536] }

/-- At time 2000 a client asks for `http://o/a`, which is cached, expired and has an entity
tag; the origin answers the conditional request with 304. -/
def world304Revalidate : World :=
  { idleWorld with
    cache := cacheOf staleEtagResponse, clock := [2000], clientIn := [some requestBytesA],
    serverIn := [some reply304], sends := [some 65536, some 65536] }

/-- At time 1000 a client asks for `http://o/a`, which is not cached; the origin answers
with the response of scenario S1. -/
def worldMiss : World :=
  { idleWorld with
    clock := [1000], clientIn := [some requestBytesA], serverIn := [some replyS1],
    sends := [some 65536, some 65536] }

/-! ## Header blocks -/

/-- No line end (carriage return, line feed) and no colon-space begins inside the text. -/
def noSep : Str → Bool
  | [] => true
  | [_] => true
  | c :: d :: rest =>
      !(decide (c = '\r' ∧ d = '\n') || decide (c = ':' ∧ d = ' ')) && noSep (d :: rest)

/-- No colon-space begins inside the text. -/
def noColonSpace : Str → Bool
  | [] => true
  | [_] => true
  | c :: d :: rest => !(decide (c = ':' ∧ d = ' ')) && noColonSpace (d :: rest)

/-- The text of header lines `name: value`, each ended by a line end. -/
def renderLines : List (Str × Str) → Str
  | [] => []
  | l :: rest => l.1 ++ ':' :: ' ' :: l.2 ++ '\r' :: '\n' :: renderLines rest

/-- A header block: the status line, the header lines, the empty line, and whatever
follows it in the string handed to the parser (`getResponse` passes the whole first read and
the terminating zero). -/
def headerBlock (statusLine : Str) (lines : List (Str × Str)) (tail : Str) : Str :=
  statusLine ++ '\r' :: '\n' :: (renderLines lines ++ '\r' :: '\n' :: tail)

/-- A status line `VERSION SP CODE SP REASON` with the decimal status `code`. -/
def StatusLine (statusLine : Str) (code : Nat) : Prop :=
  ∃ version digits reason : Str,
    statusLine = version ++ ' ' :: digits ++ ' ' :: reason ∧
    (∀ c ∈ version, c ≠ ' ') ∧ digits ≠ [] ∧ (∀ c ∈ digits, isdigit c = true) ∧
    digitsValue digits 0 = code ∧ code < 2 ^ 31 ∧
    (∀ c ∈ statusLine, c ≠ '\r' ∧ c ≠ '\n')

/-- A header block as the parser expects it: a status line with a decimal code, header
lines whose names and values contain neither a line end nor a colon-space, a tail without
colon-space, and fewer than `2^31` characters in all (every index fits an `int`). -/
structure CleanBlock (statusLine : Str) (code : Nat) (lines : List (Str × Str))
    (tail : Str) : Prop where
  status : StatusLine statusLine code
  names : ∀ l ∈ lines, noSep l.1 = true
  values : ∀ l ∈ lines, noSep l.2 = true
  rest : noColonSpace tail = true
  short : (headerBlock statusLine lines tail).length < 2 ^ 31

/-- The map after the header lines have been inserted in order. -/
def insertLines (kv : List (Str × Str)) (lines : List (Str × Str)) : List (Str × Str) :=
  lines.foldl (fun m l => mapInsert m l.1 l.2) kv

/-- The map that `extractKV` builds from a clean header block: the lines in order, then the
pair of empty name and empty value that the empty line leaves. -/
def blockMap (lines : List (Str × Str)) : List (Str × Str) :=
  mapInsert (insertLines [] lines) [] []

/-- The response after the first two steps of `parseResponse` on a clean header block: the
status line and its code are stored and the header map is built. -/
def parsedHead (url : Str) (segment : List Str) (statusLine : Str) (code : Nat)
    (lines : List (Str × Str)) (tail : Str) (now : Int) : Response :=
  { Response.new url segment (headerBlock statusLine lines tail) now with
    first_line := statusLine, status_code := (code : Int), kv := blockMap lines }

/-- The text `pat` occurs in `s`. -/
def Contains (s pat : Str) : Prop :=
  ∃ a b : Str, s = a ++ pat ++ b

/-! ## Sample header blocks -/

/-- A status line with code 200. -/
def statusOk : Str := "HTTP/1.1 200 OK".toList

/-- The response object that `parseResponse` is given for the header text `h` of a reply to
`http://o/a` that arrives at time 1000. -/
def arrived (h : Str) : Response :=
  Response.new urlA [] h 1000

/-- A header block with one `Cache-Control` line that carries `max-age=60`. -/
def headerMaxAge60 : Str :=
  "HTTP/1.1 200 OK\r\nCache-Control: public, max-age=60\r\nETag: v1\r\n\r\n".toList

/-- A header block with two `Cache-Control` lines; the second carries `max-age=60`. -/
def headerMaxAgeSecond : Str :=
  "HTTP/1.1 200 OK\r\nCache-Control: public\r\nCache-Control: max-age=60\r\n\r\n".toList

/-- A header block with two `Cache-Control` lines; the second carries `no-store` and
`no-cache`. -/
def headerNoStoreSecond : Str :=
  "HTTP/1.1 200 OK\r\nCache-Control: public\r\nCache-Control: no-store, no-cache\r\n\r\n".toList

/-- A header block with one `Cache-Control` line that carries `no-store`. -/
def headerNoStore : Str :=
  "HTTP/1.1 200 OK\r\nCache-Control: no-store\r\n\r\n".toList

/-- A header block with two `ETag` lines. -/
def headerTwoETags : Str :=
  "HTTP/1.1 200 OK\r\nETag: v1\r\nETag: v2\r\n\r\n".toList

/-- A header block whose `X-Note` value contains a colon followed by a space. -/
def headerColonInValue : Str :=
  "HTTP/1.1 200 OK\r\nX-Note: retry: later\r\n\r\n".toList

/-- A header block whose `max-age` is negative. -/
def headerNegativeMaxAge : Str :=
  "HTTP/1.1 200 OK\r\nCache-Control: max-age=-5\r\n\r\n".toList

/-- A header block whose `max-age` is followed by no integer. -/
def headerBadMaxAge : Str :=
  "HTTP/1.1 200 OK\r\nCache-Control: max-age=abc\r\n\r\n".toList

/-- A header block without a `Cache-Control` line. -/
def headerPlain : Str :=
  "HTTP/1.1 200 OK\r\nServer: s\r\n\r\n".toList

/-- The header lines of `headerMaxAge60`. -/
def linesMaxAge60 : List (Str × Str) :=
  [("Cache-Control".toList, "public, max-age=60".toList), ("ETag".toList, "v1".toList)]

/-- The header lines of `headerPlain`. -/
def linesPlain : List (Str × Str) :=
  [("Server".toList, "s".toList)]

/-- The header lines of `headerNoStore`. -/
def linesNoStore : List (Str × Str) :=
  [("Cache-Control".toList, "no-store".toList)]

/-- The header lines of `headerTwoETags`. -/
def linesTwoETags : List (Str × Str) :=
  [("ETag".toList, "v1".toList), ("ETag".toList, "v2".toList)]

/-- The header lines of `headerBadMaxAge`. -/
def linesBadMaxAge : List (Str × Str) :=
  [("Cache-Control".toList, "max-age=abc".toList)]

/-- The response that `parseResponse` returns for `headerNoStore` at time 1000. -/
def arrivedNoStore : Response :=
  { status_code := 200, first_line := statusOk, url := urlA, header := headerNoStore,
    content := [], kv := [("Cache-Control".toList, "no-store".toList), ([], [])],
    no_store := true, no_cache := false, has_expiration := false, cur_time := 1000,
    expiration_time := 1000, last_modified := 0, etag := [] }

/-- The response that `parseResponse` returns for `headerNegativeMaxAge` at time 1000. -/
def arrivedNegative : Response :=
  { status_code := 200, first_line := statusOk, url := urlA, header := headerNegativeMaxAge,
    content := [], kv := [("Cache-Control".toList, "max-age=-5".toList), ([], [])],
    no_store := false, no_cache := false, has_expiration := false, cur_time := 1000,
    expiration_time := 995, last_modified := 0, etag := [] }

/-! ## A read that fills the buffer -/

/-- What a `recv` stores when it returns `BUFFER_SIZE`: that many bytes `a`. -/
def fullRead : Str :=
  List.replicate BUFFER_SIZE 'a'

/-- A world whose client has `BUFFER_SIZE` bytes ready for the first `recv`. -/
def worldFullRequest : World :=
  { idleWorld with clientIn := [some fullRead] }

/-- A world whose origin has `BUFFER_SIZE` bytes ready for the first `recv`, and whose
`send` takes all it is offered. -/
def worldFullReply : World :=
  { idleWorld with serverIn := [some fullRead], sends := [some BUFFER_SIZE] }

/-! ## Full caches -/

/-- A sample URL of twenty characters. -/
def pageA : Str := "http://example.com/a".toList

/-- A second sample URL of twenty characters. -/
def pageB : Str := "http://example.com/b".toList

/-- A third sample URL of twenty characters. -/
def pageC : Str := "http://example.com/c".toList

theorem mapFind_isSome_iff {ν : Type} (m : List (Str × ν)) (k : Str) :
    (mapFind m k).isSome = true ↔ k ∈ m.map Prod.fst := by
  induction m with
  | nil => simp only [mapFind, Option.isSome_none, List.map_nil, List.not_mem_nil]; exact ⟨fun h => (by cases h), fun h => h.elim⟩
  | cons p rest ih =>
    simp only [mapFind, List.map_cons, List.mem_cons]
    by_cases h : p.1 = k
    · rw [if_pos h]
      exact ⟨fun _ => Or.inl h.symm, fun _ => rfl⟩
    · rw [if_neg h, ih]
      exact ⟨fun hh => Or.inr hh, fun hh => hh.elim (fun e => absurd e.symm h) id⟩

theorem mapFind_eq_none_iff {ν : Type} (m : List (Str × ν)) (k : Str) :
    mapFind m k = none ↔ k ∉ m.map Prod.fst := by
  rw [← mapFind_isSome_iff]
  cases mapFind m k with
  | none => exact ⟨fun _ h => (by cases h), fun _ => rfl⟩
  | some v => exact ⟨fun h => (by cases h), fun h => absurd rfl h⟩

theorem map_fst_mapErase {ν : Type} (m : List (Str × ν)) (k : Str) :
    (mapErase m k).map Prod.fst = (m.map Prod.fst).filter (fun x => decide (x ≠ k)) := by
  induction m with
  | nil => rfl
  | cons p rest ih =>
    unfold mapErase at ih ⊢
    rw [List.map_cons, List.filter_cons, List.filter_cons]
    by_cases h : p.1 = k
    · have hd : decide (p.1 ≠ k) = false := decide_eq_false (not_not.2 h)
      rw [if_neg (by rw [hd]; exact Bool.false_ne_true), if_neg (by rw [hd]; exact Bool.false_ne_true)]
      exact ih
    · have hd : decide (p.1 ≠ k) = true := decide_eq_true h
      rw [if_pos hd, if_pos hd, List.map_cons, ih]

theorem map_fst_mapInsert {ν : Type} (m : List (Str × ν)) (k : Str) (v : ν)
    (h : k ∉ m.map Prod.fst) : (mapInsert m k v).map Prod.fst = m.map Prod.fst ++ [k] := by
  have h0 := (mapFind_eq_none_iff m k).2 h
  unfold mapInsert
  rw [h0, List.map_append]
  rfl

theorem map_fst_mapAssign {ν : Type} (m : List (Str × ν)) (k : Str) (v : ν)
    (h : k ∈ m.map Prod.fst) : (mapAssign m k v).map Prod.fst = m.map Prod.fst := by
  induction m with
  | nil => exact absurd h (List.not_mem_nil k)
  | cons p rest ih =>
    unfold mapAssign
    by_cases hp : p.1 = k
    · rw [if_pos hp, List.map_cons, List.map_cons, hp]
    · have hk : k ∈ rest.map Prod.fst := by
        rw [List.map_cons, List.mem_cons] at h
        rcases h with h | h
        · exact absurd h.symm hp
        · exact h
      rw [if_neg hp, List.map_cons, List.map_cons, ih hk]

theorem mapFind_mapAssign {ν : Type} (m : List (Str × ν)) (k : Str) (v : ν) :
    mapFind (mapAssign m k v) k = some v := by
  induction m with
  | nil => unfold mapAssign mapFind; rw [if_pos rfl]
  | cons p rest ih =>
    unfold mapAssign
    by_cases hp : p.1 = k
    · rw [if_pos hp]; unfold mapFind; rw [if_pos rfl]
    · rw [if_neg hp]; unfold mapFind; rw [if_neg hp]; exact ih

theorem mapFind_append_of_none {ν : Type} (m : List (Str × ν)) (k : Str) (v : ν)
    (h : mapFind m k = none) : mapFind (m ++ [(k, v)]) k = some v := by
  induction m with
  | nil => rw [List.nil_append]; unfold mapFind; rw [if_pos rfl]
  | cons p rest ih =>
    unfold mapFind at h
    by_cases hp : p.1 = k
    · rw [if_pos hp] at h; cases h
    · rw [if_neg hp] at h
      rw [List.cons_append]; unfold mapFind; rw [if_neg hp]; exact ih h

theorem mapFind_mapInsert {ν : Type} (m : List (Str × ν)) (k : Str) (v : ν)
    (h : mapFind m k = none) : mapFind (mapInsert m k v) k = some v := by
  unfold mapInsert
  rw [h]
  exact mapFind_append_of_none m k v h

theorem mapFind_mapErase_of_none {ν : Type} (m : List (Str × ν)) (k j : Str)
    (h : mapFind m k = none) : mapFind (mapErase m j) k = none := by
  rw [mapFind_eq_none_iff] at h ⊢
  rw [map_fst_mapErase]
  intro hc
  exact h (List.mem_of_mem_filter hc)

theorem mapFind_cons {ν : Type} (p : Str × ν) (rest : List (Str × ν)) (k : Str) :
    mapFind (p :: rest) k = if p.1 = k then some p.2 else mapFind rest k := by
  rw [mapFind]

theorem mapFind_append_singleton {ν : Type} (m : List (Str × ν)) (k name : Str) (v : ν) :
    mapFind (m ++ [(k, v)]) name =
      (match mapFind m name with
       | some x => some x
       | none => if k = name then some v else none) := by
  induction m with
  | nil =>
    rw [List.nil_append]
    unfold mapFind
    simp only
    by_cases h : k = name
    · rw [if_pos h, if_pos h]
    · rw [if_neg h, if_neg h]
      rfl
  | cons p rest ih =>
    rw [List.cons_append]
    unfold mapFind
    by_cases hp : p.1 = name
    · rw [if_pos hp, if_pos hp]
    · rw [if_neg hp, if_neg hp]
      exact ih

/-! ### Lists without repetition -/

theorem filter_ne_cons_eq (a : Str) (l : List Str) :
    (a :: l).filter (fun x => decide (x ≠ a)) = l.filter (fun x => decide (x ≠ a)) := by
  rw [List.filter_cons]
  have hd : decide (a ≠ a) = false := decide_eq_false (not_not.2 rfl)
  rw [if_neg (by rw [hd]; exact Bool.false_ne_true)]

theorem filter_ne_cons_ne (a u : Str) (l : List Str) (h : a ≠ u) :
    (a :: l).filter (fun x => decide (x ≠ u)) = a :: l.filter (fun x => decide (x ≠ u)) := by
  rw [List.filter_cons]
  have hd : decide (a ≠ u) = true := decide_eq_true h
  rw [if_pos hd]

theorem filter_ne_eq_self (l : List Str) (u : Str) (h : u ∉ l) :
    l.filter (fun x => decide (x ≠ u)) = l := by
  rw [List.filter_eq_self]
  intro a ha
  exact decide_eq_true (fun e => h (e ▸ ha))

theorem not_mem_filter_ne (l : List Str) (u : Str) :
    u ∉ l.filter (fun x => decide (x ≠ u)) := by
  intro h
  have := (List.mem_filter.1 h).2
  exact (of_decide_eq_true this) rfl

theorem filter_ne_append_perm (l : List Str) (u : Str) (hn : l.Nodup) (hu : u ∈ l) :
    (l.filter (fun x => decide (x ≠ u)) ++ [u]).Perm l := by
  induction l with
  | nil => exact absurd hu (List.not_mem_nil u)
  | cons a l ih =>
    rw [List.nodup_cons] at hn
    by_cases hau : a = u
    · subst hau
      rw [filter_ne_cons_eq, filter_ne_eq_self l a hn.1]
      exact (List.perm_append_singleton a l)
    · have hul : u ∈ l := by
        rcases List.mem_cons.1 hu with h | h
        · exact absurd h.symm hau
        · exact h
      rw [filter_ne_cons_ne a u l hau, List.cons_append]
      exact List.Perm.cons a (ih hn.2 hul)

/-! ## The cache operations -/

theorem existsUrl_iff (s : LRUCache) (u : Str) : s.existsUrl u = true ↔ u ∈ s.keys :=
  mapFind_isSome_iff s.kv u

theorem existsUrl_false_iff (s : LRUCache) (u : Str) : s.existsUrl u = false ↔ u ∉ s.keys := by
  rw [← existsUrl_iff]
  cases s.existsUrl u with
  | false => exact ⟨fun _ h => (by cases h), fun _ => rfl⟩
  | true => exact ⟨fun h => (by cases h), fun h => absurd rfl h⟩

theorem put_of_exists (s : LRUCache) (u : Str) (r : Response) (h : s.existsUrl u = true) :
    s.put u r = some { s with
      cache := s.cache.filter (fun x => decide (x ≠ u)) ++ [u],
      kv := mapAssign s.kv u r } := by
  unfold LRUCache.put
  rw [if_pos h]

theorem put_of_full (s : LRUCache) (u : Str) (r : Response) (h : s.existsUrl u = false)
    (hsz : s.sz = s.capacity) : s.put u r = none := by
  unfold LRUCache.put
  rw [if_neg (by rw [h]; exact Bool.false_ne_true), if_pos hsz]

theorem put_of_room (s : LRUCache) (u : Str) (r : Response) (h : s.existsUrl u = false)
    (hsz : s.sz ≠ s.capacity) :
    s.put u r = some { s with
      sz := s.sz + 1,
      cache := s.cache ++ [u],
      kv := mapInsert s.kv u r } := by
  unfold LRUCache.put
  rw [if_neg (by rw [h]; exact Bool.false_ne_true), if_neg hsz]

theorem keys_insert (s : LRUCache) (u : Str) (r : Response) (h : s.existsUrl u = false) :
    (mapInsert s.kv u r).map Prod.fst = s.keys ++ [u] :=
  map_fst_mapInsert _ u r ((existsUrl_false_iff s u).1 h)

theorem keys_assign (s : LRUCache) (u : Str) (r : Response) (h : s.existsUrl u = true) :
    (mapAssign s.kv u r).map Prod.fst = s.keys :=
  map_fst_mapAssign _ u r ((existsUrl_iff s u).1 h)

theorem get_of_absent (s : LRUCache) (u : Str) (hex : s.existsUrl u = false) :
    s.get u = none := by
  unfold LRUCache.existsUrl at hex
  unfold LRUCache.get
  cases hf : mapFind s.kv u with
  | none => rfl
  | some ret => rw [hf] at hex; cases hex

theorem nodup_append_singleton (l : List Str) (u : Str) (hn : l.Nodup) (hu : u ∉ l) :
    (l ++ [u]).Nodup := by
  rw [List.nodup_append]
  refine ⟨hn, List.nodup_singleton u, ?_⟩
  intro a ha hb
  rw [List.mem_singleton] at hb
  exact hu (hb ▸ ha)

/-- A defined `put` keeps the map and the recency list in agreement. -/
theorem put_consistent (s s' : LRUCache) (u : Str) (r : Response) (h : s.Consistent)
    (hs : s.put u r = some s') : s'.Consistent ∧ s'.capacity = s.capacity := by
  obtain ⟨hnd, hkeys, hlen, hcap⟩ := h
  cases hex : s.existsUrl u with
  | true =>
    have hu : u ∈ s.cache := hkeys.mem_iff.1 ((existsUrl_iff s u).1 hex)
    rw [put_of_exists s u r hex] at hs
    cases hs
    have hp := filter_ne_append_perm s.cache u hnd hu
    refine ⟨⟨hp.nodup_iff.2 hnd, ?_, ?_, hcap⟩, rfl⟩
    · show ((mapAssign s.kv u r).map Prod.fst).Perm
        (s.cache.filter (fun x => decide (x ≠ u)) ++ [u])
      rw [keys_assign s u r hex]
      exact hkeys.trans hp.symm
    · show ((s.cache.filter (fun x => decide (x ≠ u)) ++ [u]).length : Int) ≤ s.sz
      rw [hp.length_eq]
      exact hlen
  | false =>
    have hu : u ∉ s.cache := fun hc => (existsUrl_false_iff s u).1 hex (hkeys.mem_iff.2 hc)
    by_cases hfull : s.sz = s.capacity
    · rw [put_of_full s u r hex hfull] at hs
      cases hs
    · rw [put_of_room s u r hex hfull] at hs
      cases hs
      refine ⟨⟨nodup_append_singleton s.cache u hnd hu, ?_, ?_, ?_⟩, rfl⟩
      · show ((mapInsert s.kv u r).map Prod.fst).Perm (s.cache ++ [u])
        rw [keys_insert s u r hex]
        exact hkeys.append_right [u]
      · show ((s.cache ++ [u]).length : Int) ≤ s.sz + 1
        simp only [List.length_append, List.length_cons, List.length_nil]
        push_cast
        omega
      · show s.sz + 1 ≤ s.capacity
        omega

/-- Every defined call keeps the map and the recency list in agreement. -/
theorem step_consistent (s s' : LRUCache) (op : CacheOp) (h : s.Consistent)
    (hs : s.step op = some s') : s'.Consistent ∧ s'.capacity = s.capacity := by
  cases op with
  | put u r => exact put_consistent s s' u r h hs
  | get u =>
    obtain ⟨hnd, hkeys, hlen, hcap⟩ := h
    have hs1 : (match s.get u with | some (_, s1) => some s1 | none => some s) = some s' := hs
    unfold LRUCache.get at hs1
    cases hf : mapFind s.kv u with
    | none =>
      rw [hf] at hs1
      cases hs1
      exact ⟨⟨hnd, hkeys, hlen, hcap⟩, rfl⟩
    | some ret =>
      rw [hf] at hs1
      cases hs1
      have hex : s.existsUrl u = true := by unfold LRUCache.existsUrl; rw [hf]; rfl
      have hu : u ∈ s.cache := hkeys.mem_iff.1 ((existsUrl_iff s u).1 hex)
      have hp := filter_ne_append_perm s.cache u hnd hu
      refine ⟨⟨hp.nodup_iff.2 hnd, hkeys.trans hp.symm, ?_, hcap⟩, rfl⟩
      show ((s.cache.filter (fun x => decide (x ≠ u)) ++ [u]).length : Int) ≤ s.sz
      rw [hp.length_eq]
      exact hlen
  | remove u =>
    obtain ⟨hnd, hkeys, hlen, hcap⟩ := h
    have hs1 : some (s.remove u) = some s' := hs
    cases hs1
    refine ⟨⟨hnd.sublist (List.filter_sublist _), ?_, ?_, hcap⟩, rfl⟩
    · show ((mapErase s.kv u).map Prod.fst).Perm (s.cache.filter (fun x => decide (x ≠ u)))
      rw [map_fst_mapErase]
      exact hkeys.filter _
    · show ((s.cache.filter (fun x => decide (x ≠ u))).length : Int) ≤ s.sz
      have := List.length_filter_le (fun x => decide (x ≠ u)) s.cache
      omega

/-- Every defined sequence of calls keeps the map and the recency list in agreement. -/
theorem run_consistent (ops : List CacheOp) :
    ∀ (s s' : LRUCache), s.Consistent → s.run ops = some s' →
      s'.Consistent ∧ s'.capacity = s.capacity := by
  induction ops with
  | nil =>
    intro s s' h hs
    have : some s = some s' := hs
    cases this
    exact ⟨h, rfl⟩
  | cons op ops ih =>
    intro s s' h hs
    have hs1 : (match s.step op with | some s1 => s1.run ops | none => none) = some s' := hs
    cases hstep : s.step op with
    | none => rw [hstep] at hs1; cases hs1
    | some s1 =>
      rw [hstep] at hs1
      obtain ⟨h1, hc1⟩ := step_consistent s s1 op h hstep
      obtain ⟨h2, hc2⟩ := ih s1 s' h1 hs1
      exact ⟨h2, hc2.trans hc1⟩

theorem new_consistent (c : Nat) : (LRUCache.new (c : Int)).Consistent :=
  ⟨List.nodup_nil, List.Perm.refl _, le_refl _, Int.ofNat_nonneg c⟩

theorem length_kv_le (s : LRUCache) (h : s.Consistent) : (s.kv.length : Int) ≤ s.capacity := by
  obtain ⟨_, hkeys, hlen, hcap⟩ := h
  have h1 : s.kv.length = s.cache.length := by
    rw [← hkeys.length_eq]
    exact (List.length_map _ _).symm
  omega

/-- After a defined `put`, the URL is present and `get` returns the response that was put. -/
theorem put_then_get (s s' : LRUCache) (u : Str) (r : Response) (hs : s.put u r = some s') :
    s'.existsUrl u = true ∧ ∃ s'', s'.get u = some (r, s'') := by
  have hfind : mapFind s'.kv u = some r := by
    cases hex : s.existsUrl u with
    | true =>
      rw [put_of_exists s u r hex] at hs
      cases hs
      exact mapFind_mapAssign s.kv u r
    | false =>
      have hnone : mapFind s.kv u = none := by
        unfold LRUCache.existsUrl at hex
        cases hf : mapFind s.kv u with
        | none => rfl
        | some v => rw [hf] at hex; cases hex
      by_cases hfull : s.sz = s.capacity
      · rw [put_of_full s u r hex hfull] at hs
        cases hs
      · rw [put_of_room s u r hex hfull] at hs
        cases hs
        exact mapFind_mapInsert _ u r hnone
  refine ⟨?_, ?_⟩
  · unfold LRUCache.existsUrl
    rw [hfind]
    rfl
  · unfold LRUCache.get
    rw [hfind]
    exact ⟨_, rfl⟩

/-! ## A cache filled by puts -/

/-- A `put` is defined when its URL is present or the counter is not at the capacity. -/
theorem put_defined (s : LRUCache) (u : Str) (r : Response)
    (h : s.existsUrl u = true ∨ s.sz ≠ s.capacity) : ∃ s', s.put u r = some s' := by
  cases hex : s.existsUrl u with
  | true => exact ⟨_, put_of_exists s u r hex⟩
  | false =>
    rcases h with h | h
    · rw [hex] at h; cases h
    · exact ⟨_, put_of_room s u r hex h⟩

/-- C1 fails on the code: with capacity 2, after `put(A)`, `put(B)` and `get(A)` the cache is
full and B is the least recently touched URL.  `put(C)` for the absent URL C enters the
eviction branch and takes B off the recency list, but the reference `url` it then hands to
`kv.erase` refers to the list element that `pop_front()` destroyed: the call is undefined,
so nothing makes the cache hold the two most recently touched URLs A and C. -/
theorem eviction_reads_destroyed_element :
    (LRUCache.new 2).run
        [.put pageA sampleResponse, .put pageB sampleResponse, .get pageA] =
        some { sz := 2, capacity := 2, cache := [pageB, pageA],
               kv := [(pageA, sampleResponse), (pageB, sampleResponse)] } ∧
      LRUCache.existsUrl
          { sz := 2, capacity := 2, cache := [pageB, pageA],
            kv := [(pageA, sampleResponse), (pageB, sampleResponse)] } pageC = false ∧
      LRUCache.evicted
          { sz := 2, capacity := 2, cache := [pageB, pageA],
            kv := [(pageA, sampleResponse), (pageB, sampleResponse)] } pageC = some pageB ∧
      LRUCache.put
          { sz := 2, capacity := 2, cache := [pageB, pageA],
            kv := [(pageA, sampleResponse), (pageB, sampleResponse)] }
          pageC sampleResponse = none ∧
      (LRUCache.new 2).run
        [.put pageA sampleResponse, .put pageB sampleResponse, .get pageA,
          .put pageC sampleResponse] = none := by
  decide

/-- C2, at the failing input: a cache of capacity 1 after `put(A)` and `remove(A)` has an
empty map and an empty recency list but still `sz = capacity`, so `put(B)` takes the eviction
branch and calls `front()` on the empty list: the call is undefined and B is not stored. -/
theorem put_after_remove_is_undefined :
    (LRUCache.new 1).run [.put urlA sampleResponse, .remove urlA] =
        some { sz := 1, capacity := 1, cache := [], kv := [] } ∧
      LRUCache.put { sz := 1, capacity := 1, cache := [], kv := [] } urlB sampleResponse =
        none := by
  decide

/-- C3 fails on the code: with capacity 2, after `put(A)` and `put(B)` the map holds two
entries, as many as the capacity.  `put(C)` for the absent URL C enters the eviction branch,
whose `kv.erase(url)` reads the list element that `pop_front()` destroyed: the call is
undefined, so nothing bounds the number of entries once a `put` evicts. -/
theorem map_bound_lost_at_eviction :
    (LRUCache.new 2).run [.put pageA sampleResponse, .put pageB sampleResponse] =
        some { sz := 2, capacity := 2, cache := [pageA, pageB],
               kv := [(pageA, sampleResponse), (pageB, sampleResponse)] } ∧
      ([(pageA, sampleResponse), (pageB, sampleResponse)] : List (Str × Response)).length =
        2 ∧
      LRUCache.evicted
          { sz := 2, capacity := 2, cache := [pageA, pageB],
            kv := [(pageA, sampleResponse), (pageB, sampleResponse)] } pageC = some pageA ∧
      (LRUCache.new 2).run
        [.put pageA sampleResponse, .put pageB sampleResponse,
          .put pageC sampleResponse] = none := by
  decide

/-! ## C10: the conditional header is inserted after the start line -/

theorem noLineEnd_nil : NoLineEnd [] := by
  intro pre suf h
  have := congrArg List.length h
  simp only [List.nil_append, List.length_cons, List.length_nil, List.length_append] at this
  omega

theorem noLineEnd_tail (c : Char) (line : Str) (h : NoLineEnd (c :: line)) : NoLineEnd line := by
  intro pre suf e
  apply h (c :: pre) suf
  rw [List.cons_append, List.cons_append, e]

theorem findFirstLine_at_line_end (line rest : Str) (h : NoLineEnd line) :
    Proxy.findFirstLine (line ++ '\r' :: '\n' :: rest) = line.length := by
  induction line with
  | nil =>
    show Proxy.findFirstLine ('\r' :: '\n' :: rest) = 0
    unfold Proxy.findFirstLine
    rw [if_pos ⟨rfl, rfl⟩]
  | cons c line ih =>
    cases line with
    | nil =>
      show Proxy.findFirstLine (c :: '\r' :: '\n' :: rest) = 1
      unfold Proxy.findFirstLine
      rw [if_neg (fun hh => absurd hh.2 (by decide))]
      have := ih noLineEnd_nil
      rw [List.nil_append] at this
      rw [this]
      rfl
    | cons d l =>
      show Proxy.findFirstLine (c :: d :: (l ++ '\r' :: '\n' :: rest)) = (d :: l).length + 1
      unfold Proxy.findFirstLine
      have hne : ¬ (c = '\r' ∧ d = '\n') := by
        intro hh
        apply h [] (l ++ ['\r'])
        rw [hh.1, hh.2]
        rfl
      rw [if_neg hne]
      have := ih (noLineEnd_tail c (d :: l) h)
      rw [List.cons_append] at this
      rw [this]

theorem first_line_end_exists (content : Str) (h : HasLineEnd content) :
    ∃ line rest : Str, content = line ++ '\r' :: '\n' :: rest ∧ NoLineEnd line := by
  induction content with
  | nil =>
    obtain ⟨pre, suf, e⟩ := h
    cases pre <;> cases e
  | cons c tl ih =>
    by_cases hstart : ∃ rest, c :: tl = '\r' :: '\n' :: rest
    · obtain ⟨rest, e⟩ := hstart
      exact ⟨[], rest, e, noLineEnd_nil⟩
    · obtain ⟨pre, suf, e⟩ := h
      cases pre with
      | nil => exact absurd ⟨suf, e⟩ hstart
      | cons p pre' =>
        rw [List.cons_append] at e
        have hc : c = p := (List.cons.inj e).1
        have htl : tl = pre' ++ '\r' :: '\n' :: suf := (List.cons.inj e).2
        obtain ⟨line', rest, e', hno⟩ := ih ⟨pre', suf, htl⟩
        refine ⟨c :: line', rest, by rw [e']; rfl, ?_⟩
        intro pre2 suf2 e2
        cases pre2 with
        | nil =>
          rw [List.cons_append, List.nil_append] at e2
          have h1 : c = '\r' := (List.cons.inj e2).1
          have h2 : line' ++ ['\r'] = '\n' :: suf2 := (List.cons.inj e2).2
          cases line' with
          | nil =>
            rw [List.nil_append] at h2
            exact absurd (List.cons.inj h2).1 (by decide)
          | cons x l =>
            rw [List.cons_append] at h2
            have hx : x = '\n' := (List.cons.inj h2).1
            apply hstart
            refine ⟨l ++ '\r' :: '\n' :: rest, ?_⟩
            rw [e', h1, hx]
            rfl
        | cons q pre2' =>
          rw [List.cons_append, List.cons_append] at e2
          exact hno pre2' suf2 (List.cons.inj e2).2

/-- C10: for every request that contains a line end and every section `S`,
`insertSectionToContent` returns the bytes before the first line end (the start line), then
`S`, then the original bytes from that line end on; the result is longer by exactly `|S|`,
and cutting `S` out of it gives the request back. -/
theorem insertSection_after_start_line (content section_ : Str) (h : HasLineEnd content) :
    ∃ line rest : Str,
      content = line ++ '\r' :: '\n' :: rest ∧ NoLineEnd line ∧
      Proxy.insertSectionToContent content section_ =
        line ++ section_ ++ '\r' :: '\n' :: rest ∧
      (Proxy.insertSectionToContent content section_).length =
        content.length + section_.length ∧
      (Proxy.insertSectionToContent content section_).take line.length ++
        (Proxy.insertSectionToContent content section_).drop (line.length + section_.length) =
        content := by
  obtain ⟨line, rest, e, hno⟩ := first_line_end_exists content h
  have hidx := findFirstLine_at_line_end line rest hno
  have hres : Proxy.insertSectionToContent content section_ =
      line ++ section_ ++ '\r' :: '\n' :: rest := by
    unfold Proxy.insertSectionToContent
    rw [e, hidx, List.take_left, List.drop_left]
  refine ⟨line, rest, e, hno, hres, ?_, ?_⟩
  · rw [hres, e]
    simp only [List.length_append, List.length_cons]
    omega
  · rw [hres, e, List.append_assoc, List.take_left, ← List.length_append, ← List.append_assoc,
      List.drop_left]

/-- Witness of C10: a GET request and an `If-None-Match` section. -/
theorem insertSection_after_start_line_witness :
    ∃ line rest : Str,
      "GET http://o/b HTTP/1.1\r\nHost: o\r\n\r\n".toList = line ++ '\r' :: '\n' :: rest ∧
      NoLineEnd line ∧
      Proxy.insertSectionToContent "GET http://o/b HTTP/1.1\r\nHost: o\r\n\r\n".toList
          "\r\nIf-None-Match: \"v1\"".toList =
        line ++ "\r\nIf-None-Match: \"v1\"".toList ++ '\r' :: '\n' :: rest ∧
      (Proxy.insertSectionToContent "GET http://o/b HTTP/1.1\r\nHost: o\r\n\r\n".toList
          "\r\nIf-None-Match: \"v1\"".toList).length =
        "GET http://o/b HTTP/1.1\r\nHost: o\r\n\r\n".toList.length +
          "\r\nIf-None-Match: \"v1\"".toList.length ∧
      (Proxy.insertSectionToContent "GET http://o/b HTTP/1.1\r\nHost: o\r\n\r\n".toList
          "\r\nIf-None-Match: \"v1\"".toList).take line.length ++
        (Proxy.insertSectionToContent "GET http://o/b HTTP/1.1\r\nHost: o\r\n\r\n".toList
          "\r\nIf-None-Match: \"v1\"".toList).drop
            (line.length + "\r\nIf-None-Match: \"v1\"".toList.length) =
        "GET http://o/b HTTP/1.1\r\nHost: o\r\n\r\n".toList :=
  insertSection_after_start_line "GET http://o/b HTTP/1.1\r\nHost: o\r\n\r\n".toList
    "\r\nIf-None-Match: \"v1\"".toList
    ⟨"GET http://o/b HTTP/1.1".toList, "Host: o\r\n\r\n".toList, by decide⟩

/-! ## C8 and C9: reading the body and relaying it -/

/-- C8, at the failing input: the first read is a header block of 39 bytes that announces
`Content-Length: 30` and carries no body byte; the body of 30 bytes is ready to be read.
`getResponse` starts its count at 39, the length of the first read, finds `39 < 30` false,
and returns without a further `recv`: the body is still unread and the client has been sent
the header block only. -/
theorem getResponse_stops_before_body :
    (Proxy.getResponse mktimeZero requestA
        { idleWorld with clock := [1000], serverIn := [some headerLength30, some body30],
                         sends := [some 65536, some 65536] }).returned = true ∧
      (Proxy.getResponse mktimeZero requestA
        { idleWorld with clock := [1000], serverIn := [some headerLength30, some body30],
                         sends := [some 65536, some 65536] }).final.map
          (fun w => (w.serverIn, w.toClient)) =
        some ([some body30], headerLength30) ∧
      Parser.extractContentLength (headerLength30 ++ ['\x00']) = some 30 := by
  decide

/-- C9, at the failing input: the buffer holds `abcdefgh`, `received_length` is 4, the first
`send` takes 2 bytes and the second takes the 4 it is offered.  The second call is asked for
`received_length` bytes from offset 2, so the client is sent `abcdef`: the bytes at index 4
and 5 lie past the length. -/
theorem respondClient_sends_past_length :
    Proxy.respondClient "abcdefgh".toList 4 { idleWorld with sends := [some 2, some 4] } =
      .ok true { idleWorld with sends := [], toClient := "abcdef".toList } := by
  decide

/-! ## Sending -/

theorem sendAll_nil (sends : List (Option Nat)) :
    Proxy.sendAll [] sends 0 = some (true, [], sends) := by
  unfold Proxy.sendAll
  rw [if_neg (show ¬ 0 < ([] : Str).length from Nat.lt_irrefl 0)]

theorem sendAll_done (content : Str) (sends : List (Option Nat)) :
    Proxy.sendAll content sends content.length = some (true, [], sends) := by
  unfold Proxy.sendAll
  rw [if_neg (Nat.lt_irrefl _)]

theorem sendAll_complete (content : Str) (k : Nat) (rest : List (Option Nat))
    (hk : content.length ≤ k) (hne : content ≠ []) :
    Proxy.sendAll content (some k :: rest) 0 = some (true, content, rest) := by
  have hpos : 0 < content.length := List.length_pos.2 hne
  unfold Proxy.sendAll
  rw [if_pos hpos]
  have hmin : min k (content.length - 0) = content.length := by
    rw [Nat.sub_zero]; exact Nat.min_eq_right hk
  simp only [hmin, Nat.zero_add, sendAll_done, List.drop_zero, List.take_length,
    List.append_nil]

/-- When every `send` takes all it is offered, the loop of `respondCached` returns, has
written the segments in order to the client, and has touched nothing else but the script of
`send` results. -/
theorem sendSegments_complete (m : Nat) (segs : List Str) :
    ∀ w : World, SendsAccept w.sends m → (∀ seg ∈ segs, seg.length ≤ m) →
      segs.length ≤ w.sends.length →
      ∃ rest, Proxy.sendSegments segs w =
        .ok () { w with sends := rest, toClient := w.toClient ++ segs.flatten } := by
  induction segs with
  | nil =>
    intro w _ _ _
    refine ⟨w.sends, ?_⟩
    show Res.ok () w = _
    simp only [List.flatten_nil, List.append_nil]
  | cons seg segs ih =>
    intro w hacc hlen hcount
    by_cases hne : seg = []
    · subst hne
      have hcount' : segs.length ≤ w.sends.length := by
        simp only [List.length_cons] at hcount; omega
      obtain ⟨rest, hrest⟩ := ih { w with sends := w.sends, toClient := w.toClient ++ [] } hacc
        (fun s hs => hlen s (List.mem_cons_of_mem _ hs)) hcount'
      refine ⟨rest, ?_⟩
      unfold Proxy.sendSegments
      rw [sendAll_nil]
      simp only
      rw [hrest]
      simp only [List.append_nil, List.flatten_cons, List.nil_append]
    · cases hs : w.sends with
      | nil => rw [hs] at hcount; simp only [List.length_cons, List.length_nil] at hcount; omega
      | cons e sends' =>
        obtain ⟨k, hk, hmk⟩ := hacc e (by rw [hs]; exact List.mem_cons_self _ _)
        subst hk
        have hsegk : seg.length ≤ k := le_trans (hlen seg (List.mem_cons_self _ _)) hmk
        have hacc' : SendsAccept sends' m :=
          fun e he => hacc e (by rw [hs]; exact List.mem_cons_of_mem _ he)
        have hcount' : segs.length ≤ sends'.length := by
          rw [hs] at hcount
          simp only [List.length_cons] at hcount; omega
        obtain ⟨rest, hrest⟩ := ih { w with sends := sends', toClient := w.toClient ++ seg } hacc'
          (fun s hs => hlen s (List.mem_cons_of_mem _ hs)) hcount'
        refine ⟨rest, ?_⟩
        unfold Proxy.sendSegments
        rw [hs, sendAll_complete seg k sends' hsegk hne]
        simp only
        rw [hrest]
        simp only [List.flatten_cons, List.append_assoc]

/-- Whatever the `send` results, the loop of `respondCached` leaves the cache and everything
on the origin side as they were. -/
theorem sendSegments_final (segs : List Str) :
    ∀ (w w' : World), (Proxy.sendSegments segs w).final = some w' →
      w'.cache = w.cache ∧ w'.toServer = w.toServer ∧ w'.serverIn = w.serverIn ∧
        w'.connects = w.connects := by
  induction segs with
  | nil =>
    intro w w' h
    have : some w = some w' := h
    cases this
    exact ⟨rfl, rfl, rfl, rfl⟩
  | cons seg segs ih =>
    intro w w' h
    unfold Proxy.sendSegments at h
    cases hs : Proxy.sendAll seg w.sends 0 with
    | none => rw [hs] at h; cases h
    | some res =>
      obtain ⟨suc, out, rest⟩ := res
      rw [hs] at h
      cases suc with
      | true =>
        have h' : (Proxy.sendSegments segs
            { w with sends := rest, toClient := w.toClient ++ out }).final = some w' := h
        exact ih { w with sends := rest, toClient := w.toClient ++ out } w' h'
      | false =>
        have : some { w with sends := rest, toClient := w.toClient ++ out } = some w' := h
        cases this
        exact ⟨rfl, rfl, rfl, rfl⟩

/-! ## Serving from the cache -/

theorem get_eq_some (s s1 : LRUCache) (u : Str) (r : Response) (h : s.get u = some (r, s1)) :
    mapFind s.kv u = some r ∧
      s1 = { s with cache := s.cache.filter (fun x => decide (x ≠ u)) ++ [u] } := by
  unfold LRUCache.get at h
  cases hf : mapFind s.kv u with
  | none => rw [hf] at h; cases h
  | some ret =>
    rw [hf] at h
    cases h
    exact ⟨rfl, rfl⟩

theorem get_of_find (s : LRUCache) (u : Str) (r : Response) (h : mapFind s.kv u = some r) :
    s.get u = some (r, { s with cache := s.cache.filter (fun x => decide (x ≠ u)) ++ [u] }) := by
  unfold LRUCache.get
  rw [h]

theorem existsUrl_of_get (s s1 : LRUCache) (u : Str) (r : Response)
    (h : s.get u = some (r, s1)) : s.existsUrl u = true := by
  unfold LRUCache.existsUrl
  rw [(get_eq_some s s1 u r h).1]
  rfl

/-- Whatever the `send` results, `respondCached` leaves the map of the cache and everything
on the origin side as they were. -/
theorem respondCached_final (url : Str) (w w' : World)
    (h : (Proxy.respondCached url w).final = some w') :
    w'.cache.kv = w.cache.kv ∧ w'.toServer = w.toServer ∧ w'.serverIn = w.serverIn ∧
      w'.connects = w.connects := by
  unfold Proxy.respondCached at h
  cases hg : w.cache.get url with
  | none =>
    rw [hg] at h
    have : some w = some w' := h
    cases this
    exact ⟨rfl, rfl, rfl, rfl⟩
  | some res =>
    obtain ⟨response, cache1⟩ := res
    rw [hg] at h
    have h' : (Proxy.sendSegments response.content { w with cache := cache1 }).final = some w' := h
    obtain ⟨h1, h2, h3, h4⟩ := sendSegments_final response.content { w with cache := cache1 } w' h'
    refine ⟨?_, h2, h3, h4⟩
    rw [h1]
    show cache1.kv = w.cache.kv
    rw [(get_eq_some _ _ _ _ hg).2]

/-- When the URL is cached and every `send` takes all it is offered, `respondCached` returns
and has written the segments of the cached response to the client. -/
theorem respondCached_complete (url : Str) (w : World) (response : Response)
    (cache1 : LRUCache) (m : Nat) (hg : w.cache.get url = some (response, cache1))
    (hacc : SendsAccept w.sends m) (hlen : ∀ seg ∈ response.content, seg.length ≤ m)
    (hcount : response.content.length ≤ w.sends.length) :
    ∃ rest, Proxy.respondCached url w =
      .ok () { w with cache := cache1, sends := rest,
                      toClient := w.toClient ++ response.content.flatten } := by
  obtain ⟨rest, hrest⟩ := sendSegments_complete m response.content { w with cache := cache1 }
    hacc hlen hcount
  refine ⟨rest, ?_⟩
  unfold Proxy.respondCached
  rw [hg]
  exact hrest

theorem tick_eq_some (w w1 : World) (t : Int) (h : Proxy.tick w = some (t, w1)) :
    ∃ rest, w.clock = t :: rest ∧ w1 = { w with clock := rest } := by
  unfold Proxy.tick at h
  cases hc : w.clock with
  | nil => rw [hc] at h; cases h
  | cons t' rest =>
    rw [hc] at h
    cases h
    exact ⟨rest, rfl, rfl⟩

/-- The body of `checkCaching` for a URL that is cached. -/
theorem checkCaching_cached (mktimeOf : Str → Int) (request : Request) (w w1 : World)
    (response : Response) (cache1 : LRUCache) (cur_time : Int)
    (hget : w.cache.get request.url = some (response, cache1))
    (htick : Proxy.tick { w with cache := cache1 } = some (cur_time, w1)) :
    Proxy.checkCaching mktimeOf request w =
      (if cur_time ≤ response.expiration_time ∧ response.no_cache = false then
        Proxy.thenTrue (Proxy.respondCached request.url w1)
      else if response.etag ≠ [] then
        Proxy.thenTrue (Proxy.resendCheckStatus mktimeOf
          (Proxy.insertSectionToContent request.content
            ("\r\nIf-None-Match: ".toList ++ response.etag))
          request.url w1)
      else if response.last_modified ≠ 0 then
        Proxy.thenTrue (Proxy.resendCheckStatus mktimeOf
          (Proxy.insertSectionToContent request.content
            ("\r\nIf-Modified-Since: ".toList ++
              (mapFind response.kv "Last-Modified".toList).getD []))
          request.url w1)
      else .ok false w1) := by
  have hex : ¬ (w.cache.existsUrl request.url = false) := by
    rw [existsUrl_of_get _ _ _ _ hget]
    exact Bool.noConfusion
  unfold Proxy.checkCaching
  rw [if_neg hex, hget]
  simp only
  rw [htick]

/-- On a fresh hit with `send` calls that take all they are offered, `checkCaching` returns
`true` and has written the cached segments to the client. -/
theorem checkCaching_fresh_complete (mktimeOf : Str → Int) (request : Request) (w w1 : World)
    (response : Response) (cache1 : LRUCache) (cur_time : Int) (m : Nat)
    (hget : w.cache.get request.url = some (response, cache1))
    (htick : Proxy.tick { w with cache := cache1 } = some (cur_time, w1))
    (hfresh : cur_time ≤ response.expiration_time ∧ response.no_cache = false)
    (hacc : SendsAccept w.sends m) (hlen : ∀ seg ∈ response.content, seg.length ≤ m)
    (hcount : response.content.length ≤ w.sends.length) :
    ∃ w', Proxy.checkCaching mktimeOf request w = .ok true w' ∧
      w'.toClient = w.toClient ++ response.content.flatten ∧ w'.connects = w.connects := by
  have heq : Proxy.checkCaching mktimeOf request w =
      Proxy.thenTrue (Proxy.respondCached request.url w1) := by
    rw [checkCaching_cached mktimeOf request w w1 response cache1 cur_time hget htick,
      if_pos hfresh]
  obtain ⟨rest, hclock, hw1⟩ := tick_eq_some _ _ _ htick
  have hfind := (get_eq_some _ _ _ _ hget).1
  have hkv : cache1.kv = w.cache.kv := by rw [(get_eq_some _ _ _ _ hget).2]
  have hget1 : cache1.get request.url = some (response,
      { cache1 with cache := cache1.cache.filter (fun x => decide (x ≠ request.url)) ++
          [request.url] }) :=
    get_of_find cache1 request.url response (by rw [hkv]; exact hfind)
  obtain ⟨rest', hres⟩ := respondCached_complete request.url
    { w with cache := cache1, clock := rest } response _ m hget1 hacc hlen hcount
  have hres' : Proxy.respondCached request.url w1 = .ok ()
      { w with
        cache := { cache1 with
          cache := cache1.cache.filter (fun x => decide (x ≠ request.url)) ++ [request.url] },
        clock := rest, sends := rest',
        toClient := w.toClient ++ response.content.flatten } := by
    rw [hw1]
    exact hres
  refine ⟨{ w with
        cache := { cache1 with
          cache := cache1.cache.filter (fun x => decide (x ≠ request.url)) ++ [request.url] },
        clock := rest, sends := rest',
        toClient := w.toClient ++ response.content.flatten }, ?_, rfl, rfl⟩
  rw [heq, hres']
  rfl

/-! ## C7: the decision of checkCaching -/

/-- C7: `checkCaching` decides in this order.  A URL that is not cached is a miss (`false`
is returned, nothing is done).  For a cached response, read at the time `cur_time`: when
`cur_time ≤ expiration_time` and `no_cache` is false the cached segments are served by
`respondCached` and `true` is returned (and when every `send` takes what it is offered, the
client has been written exactly the segments); otherwise, when `etag` is not empty, the
request with the line `If-None-Match: <etag>` inserted is handed to `resendCheckStatus`;
otherwise, when `last_modified` is not zero, the request with the line
`If-Modified-Since: <stored Last-Modified value>` inserted is handed to `resendCheckStatus`;
otherwise it is a miss (`false` is returned). -/
theorem checkCaching_decision (mktimeOf : Str → Int) (request : Request) (w : World) :
    (w.cache.existsUrl request.url = false →
      Proxy.checkCaching mktimeOf request w = .ok false w) ∧
    (∀ (response : Response) (cache1 : LRUCache) (cur_time : Int) (w1 : World),
      w.cache.get request.url = some (response, cache1) →
      Proxy.tick { w with cache := cache1 } = some (cur_time, w1) →
      ((cur_time ≤ response.expiration_time ∧ response.no_cache = false →
          Proxy.checkCaching mktimeOf request w =
            Proxy.thenTrue (Proxy.respondCached request.url w1) ∧
          ∀ m : Nat, SendsAccept w.sends m → (∀ seg ∈ response.content, seg.length ≤ m) →
            response.content.length ≤ w.sends.length →
            ∃ w', Proxy.checkCaching mktimeOf request w = .ok true w' ∧
              w'.toClient = w.toClient ++ response.content.flatten) ∧
       (¬ (cur_time ≤ response.expiration_time ∧ response.no_cache = false) →
          response.etag ≠ [] →
          Proxy.checkCaching mktimeOf request w =
            Proxy.thenTrue (Proxy.resendCheckStatus mktimeOf
              (Proxy.insertSectionToContent request.content
                ("\r\nIf-None-Match: ".toList ++ response.etag))
              request.url w1)) ∧
       (¬ (cur_time ≤ response.expiration_time ∧ response.no_cache = false) →
          response.etag = [] → response.last_modified ≠ 0 →
          Proxy.checkCaching mktimeOf request w =
            Proxy.thenTrue (Proxy.resendCheckStatus mktimeOf
              (Proxy.insertSectionToContent request.content
                ("\r\nIf-Modified-Since: ".toList ++
                  (mapFind response.kv "Last-Modified".toList).getD []))
              request.url w1)) ∧
       (¬ (cur_time ≤ response.expiration_time ∧ response.no_cache = false) →
          response.etag = [] → response.last_modified = 0 →
          Proxy.checkCaching mktimeOf request w = .ok false w1))) := by
  refine ⟨?_, ?_⟩
  · intro h
    unfold Proxy.checkCaching
    rw [if_pos h]
  · intro response cache1 cur_time w1 hget htick
    have hunf := checkCaching_cached mktimeOf request w w1 response cache1 cur_time hget htick
    refine ⟨?_, ?_, ?_, ?_⟩
    · intro hfresh
      refine ⟨by rw [hunf, if_pos hfresh], ?_⟩
      intro m hacc hlen hcount
      obtain ⟨w', h1, h2, _⟩ := checkCaching_fresh_complete mktimeOf request w w1 response
        cache1 cur_time m hget htick hfresh hacc hlen hcount
      exact ⟨w', h1, h2⟩
    · intro hstale hetag
      rw [hunf, if_neg hstale, if_pos hetag]
    · intro hstale hetag hmod
      rw [hunf, if_neg hstale, if_neg (not_not.2 hetag), if_pos hmod]
    · intro hstale hetag hmod
      rw [hunf, if_neg hstale, if_neg (not_not.2 hetag), if_neg (not_not.2 hmod)]

/-! ## Receiving the body -/

theorem respondClient_final (buffer : Str) (n : Nat) (w w' : World)
    (h : (Proxy.respondClient buffer n w).final = some w') :
    w'.cache = w.cache ∧ w'.clock = w.clock ∧ w'.serverIn = w.serverIn := by
  unfold Proxy.respondClient at h
  cases hl : Proxy.respondClientLoop buffer n w.sends 0 with
  | none => rw [hl] at h; cases h
  | some res =>
    obtain ⟨suc, out, rest⟩ := res
    rw [hl] at h
    have : some { w with sends := rest, toClient := w.toClient ++ out } = some w' := h
    cases this
    exact ⟨rfl, rfl, rfl⟩

theorem respondClient_cases (buffer : Str) (n : Nat) (w : World) :
    Proxy.respondClient buffer n w = .stuck ∨
      ∃ suc w', Proxy.respondClient buffer n w = .ok suc w' ∧ w'.cache = w.cache := by
  unfold Proxy.respondClient
  cases hl : Proxy.respondClientLoop buffer n w.sends 0 with
  | none => exact Or.inl rfl
  | some res =>
    obtain ⟨suc, out, rest⟩ := res
    exact Or.inr ⟨suc, _, rfl, rfl⟩

theorem nextRecv_cases (script : List (Option Str)) (n : Nat) :
    Proxy.nextRecv script n = none ∨ (∃ rest, Proxy.nextRecv script n = some (none, rest)) ∨
      ∃ data rest, Proxy.nextRecv script n = some (some data, rest) := by
  cases h : Proxy.nextRecv script n with
  | none => exact Or.inl rfl
  | some res =>
    obtain ⟨d, rest⟩ := res
    cases d with
    | none => exact Or.inr (Or.inl ⟨rest, rfl⟩)
    | some data => exact Or.inr (Or.inr ⟨data, rest, rfl⟩)

theorem contentLengthBody_cache (content_length : Int) (fuel : Nat) :
    ∀ (received_length : Int) (buffer : Str) (segment : List Str) (w w' : World),
      (Proxy.contentLengthBody content_length fuel received_length buffer segment w).final =
        some w' → w'.cache = w.cache := by
  induction fuel with
  | zero =>
    intro rl buffer segment w w' h
    unfold Proxy.contentLengthBody at h
    by_cases hc : rl < content_length
    · rw [if_pos hc] at h; cases h
    · rw [if_neg hc] at h
      have : some w = some w' := h
      cases this
      rfl
  | succ fuel ih =>
    intro rl buffer segment w w' h
    unfold Proxy.contentLengthBody at h
    by_cases hc : rl < content_length
    · rw [if_pos hc] at h
      simp only at h
      rcases nextRecv_cases w.serverIn (BUFFER_SIZE - 1) with hn | ⟨rest, hn⟩ | ⟨data, rest, hn⟩
      · rw [hn] at h; cases h
      · rw [hn] at h
        have : some { w with serverIn := rest } = some w' := h
        cases this
        rfl
      · rw [hn] at h
        simp only at h
        rcases respondClient_cases (Proxy.received buffer data) data.length
            { w with serverIn := rest } with hr | ⟨suc, w1, hr, hcache⟩
        · rw [hr] at h; cases h
        · rw [hr] at h
          cases suc with
          | true =>
            have := ih _ _ _ w1 w' h
            rw [this, hcache]
          | false =>
            have : some w1 = some w' := h
            cases this
            exact hcache
    · rw [if_neg hc] at h
      have : some w = some w' := h
      cases this
      rfl

theorem chunkedBody_cache (fuel : Nat) :
    ∀ (buffer : Str) (segment : List Str) (w w' : World),
      (Proxy.chunkedBody fuel buffer segment w).final = some w' → w'.cache = w.cache := by
  induction fuel with
  | zero =>
    intro buffer segment w w' h
    cases h
  | succ fuel ih =>
    intro buffer segment w w' h
    unfold Proxy.chunkedBody at h
    rcases nextRecv_cases w.serverIn (BUFFER_SIZE - 1) with hn | ⟨rest, hn⟩ | ⟨data, rest, hn⟩
    · rw [hn] at h; cases h
    · rw [hn] at h
      have : some { w with serverIn := rest } = some w' := h
      cases this
      rfl
    · rw [hn] at h
      simp only at h
      rcases respondClient_cases (Proxy.received buffer data) data.length
          { w with serverIn := rest } with hr | ⟨suc, w1, hr, hcache⟩
      · rw [hr] at h; cases h
      · rw [hr] at h
        cases suc with
        | true =>
          simp only at h
          by_cases hz : (Proxy.received buffer data).head? = some '0'
          · rw [if_pos hz] at h
            have : some w1 = some w' := h
            cases this
            exact hcache
          · rw [if_neg hz] at h
            have := ih _ _ w1 w' h
            rw [this, hcache]
        | false =>
          have : some w1 = some w' := h
          cases this
          exact hcache

theorem untilCloseBody_cache (fuel : Nat) :
    ∀ (buffer : Str) (segment : List Str) (w w' : World),
      (Proxy.untilCloseBody fuel buffer segment w).final = some w' → w'.cache = w.cache := by
  induction fuel with
  | zero =>
    intro buffer segment w w' h
    cases h
  | succ fuel ih =>
    intro buffer segment w w' h
    unfold Proxy.untilCloseBody at h
    rcases nextRecv_cases w.serverIn (BUFFER_SIZE - 1) with hn | ⟨rest, hn⟩ | ⟨data, rest, hn⟩
    · rw [hn] at h; cases h
    · rw [hn] at h
      have : some { w with serverIn := rest } = some w' := h
      cases this
      rfl
    · rw [hn] at h
      simp only at h
      by_cases hz : data.length = 0
      · rw [if_pos hz] at h
        have : some { w with serverIn := rest } = some w' := h
        cases this
        rfl
      · rw [if_neg hz] at h
        rcases respondClient_cases (data ++ buffer.drop data.length) data.length
            { w with serverIn := rest } with hr | ⟨suc, w1, hr, hcache⟩
        · rw [hr] at h; cases h
        · rw [hr] at h
          cases suc with
          | true =>
            have := ih _ _ w1 w' h
            rw [this, hcache]
          | false =>
            have : some w1 = some w' := h
            cases this
            exact hcache

/-- Receiving and relaying the body does not touch the cache. -/
theorem receiveBody_cache (header : Str) (segment : List Str) (len : Nat) (w w' : World)
    (h : (Proxy.receiveBody header segment len w).final = some w') : w'.cache = w.cache := by
  unfold Proxy.receiveBody at h
  by_cases h1 : (strFind header "Content-Length".toList).isSome = true
  · rw [if_pos h1] at h
    cases hc : Parser.extractContentLength header with
    | none => rw [hc] at h; cases h
    | some cl =>
      rw [hc] at h
      exact contentLengthBody_cache cl _ _ _ _ w w' h
  · rw [if_neg h1] at h
    by_cases h2 : (strFind header "chunked".toList).isSome = true
    · rw [if_pos h2] at h
      exact chunkedBody_cache _ _ _ w w' h
    · rw [if_neg h2] at h
      exact untilCloseBody_cache _ _ _ w w' h

/-! ## C5: which responses are stored -/

/-- What `getResponse` does once the body has been received (`receiveBody` returned the
segments `segment1`), the clock has been read and the response has been parsed to
`response`: when the method is `GET` and `no_store` is false it hands the response to
`cache.put` under the URL, and in every other case it returns with the cache unchanged. -/
theorem getResponseContent_store (mktimeOf : Str → Int) (url header : Str)
    (segment segment1 : List Str) (len : Nat) (httpAction : Str) (w w1 w2 : World) (now : Int)
    (response : Response)
    (hrecv : Proxy.receiveBody header segment len w = .ok segment1 w1)
    (htick : Proxy.tick w1 = some (now, w2))
    (hparse : Parser.parseResponse mktimeOf (Response.new url segment1 header now) =
      some response) :
    Proxy.getResponseContent mktimeOf url header segment len httpAction w =
        (if response.no_store = false ∧ httpAction = "GET".toList then
          match w.cache.put url response with
          | none => .stuck
          | some cache1 => .ok () { w2 with cache := cache1 }
        else .ok () w2) ∧
      w2.cache = w.cache := by
  have hcache1 : w1.cache = w.cache :=
    receiveBody_cache header segment len w w1 (by rw [hrecv]; rfl)
  obtain ⟨rest, _, hw2⟩ := tick_eq_some _ _ _ htick
  have hcache2 : w2.cache = w.cache := by rw [hw2]; exact hcache1
  refine ⟨?_, hcache2⟩
  unfold Proxy.getResponseContent
  rw [hrecv]
  simp only
  unfold Proxy.storeResponse
  rw [htick]
  simp only
  rw [hparse]
  simp only
  rw [hw2]
  show (if response.no_store = false ∧ httpAction = "GET".toList then
      match w1.cache.put url response with
      | none => Res.stuck
      | some cache1 => Res.ok () { { w1 with clock := rest } with cache := cache1 }
    else Res.ok () { w1 with clock := rest }) = _
  rw [hcache1]

/-- Where `put` is defined (the URL is cached already, or the counter of the cache is not at
its capacity), a GET response without `no_store` is stored: the call returns, the URL is
present and `get` returns the response. -/
theorem getResponseContent_stores (mktimeOf : Str → Int) (url header : Str)
    (segment segment1 : List Str) (len : Nat) (w w1 w2 : World) (now : Int)
    (response : Response)
    (hrecv : Proxy.receiveBody header segment len w = .ok segment1 w1)
    (htick : Proxy.tick w1 = some (now, w2))
    (hparse : Parser.parseResponse mktimeOf (Response.new url segment1 header now) =
      some response)
    (hno : response.no_store = false)
    (hdef : w.cache.existsUrl url = true ∨ w.cache.sz ≠ w.cache.capacity) :
    ∃ cache1, w.cache.put url response = some cache1 ∧
      Proxy.getResponseContent mktimeOf url header segment len "GET".toList w =
        .ok () { w2 with cache := cache1 } ∧
      cache1.existsUrl url = true ∧ ∃ cache2, cache1.get url = some (response, cache2) := by
  obtain ⟨cache1, hput⟩ := put_defined w.cache url response hdef
  obtain ⟨hex, hget⟩ := put_then_get w.cache cache1 url response hput
  refine ⟨cache1, hput, ?_, hex, hget⟩
  rw [(getResponseContent_store mktimeOf url header segment segment1 len "GET".toList w w1 w2
    now response hrecv htick hparse).1, if_pos ⟨hno, rfl⟩, hput]

theorem acceptRequest_ok (w w1 : World) (request : Request)
    (h : Proxy.acceptRequest w = .ok request w1) :
    ∃ rest, w1 = { w with clientIn := rest } := by
  unfold Proxy.acceptRequest at h
  rcases nextRecv_cases w.clientIn BUFFER_SIZE with hn | ⟨rest, hn⟩ | ⟨data, rest, hn⟩
  · rw [hn] at h; cases h
  · rw [hn] at h; cases h
  · rw [hn] at h
    simp only at h
    cases ht : Proxy.terminate (data ++ Proxy.newBuffer.drop data.length) data.length with
    | none => rw [ht] at h; cases h
    | some b =>
      rw [ht] at h
      cases h
      exact ⟨rest, rfl⟩

/-- When the origin cannot be reached, `handleRequest` ends in its `catch` block right after
`connectServer`. -/
theorem handleRequest_connect_fails (mktimeOf : Str → Int) (w w1 : World) (request : Request)
    (hacc : Proxy.acceptRequest w = .ok request w1) (horigin : w.origin = false) :
    Proxy.handleRequest mktimeOf w =
      .thrown { w1 with connects := w1.connects ++ [(request.hostname, request.port)] } := by
  obtain ⟨rest, hw1⟩ := acceptRequest_ok w w1 request hacc
  have ho : w1.origin = false := by rw [hw1]; exact horigin
  unfold Proxy.handleRequest
  rw [hacc]
  simp only
  unfold Proxy.connectServer
  rw [if_neg (by rw [ho]; exact Bool.false_ne_true)]

/-- For a GET, `handleRequest` connects to the origin and then asks `checkCaching`. -/
theorem handleRequest_get (mktimeOf : Str → Int) (w w1 : World) (request : Request)
    (hacc : Proxy.acceptRequest w = .ok request w1) (horigin : w.origin = true)
    (hget : request.httpAction = "GET".toList) :
    Proxy.handleRequest mktimeOf w =
      (match Proxy.checkCaching mktimeOf request
          { w1 with connects := w1.connects ++ [(request.hostname, request.port)] } with
        | .ok true w3 => .ok () w3
        | .ok false w3 => Proxy.handleGetPost mktimeOf request w3
        | .thrown w3 => .thrown w3
        | .stuck => .stuck) := by
  obtain ⟨rest, hw1⟩ := acceptRequest_ok w w1 request hacc
  have ho : w1.origin = true := by rw [hw1]; exact horigin
  have hnc : ¬ (request.httpAction = "CONNECT".toList) := by
    rw [hget]; decide
  unfold Proxy.handleRequest
  rw [hacc]
  simp only
  unfold Proxy.connectServer
  rw [if_pos ho]
  simp only
  rw [if_neg hnc, if_pos hget]

theorem final_after_thenTrue (r : Res Unit) (f : World → Res Unit) :
    (match Proxy.thenTrue r with
      | .ok true w3 => Res.ok () w3
      | .ok false w3 => f w3
      | .thrown w3 => .thrown w3
      | .stuck => .stuck) = r := by
  cases r with
  | ok a w => cases a; rfl
  | thrown w => rfl
  | stuck => rfl

theorem sendServer_cases (content : Str) (w : World) :
    Proxy.sendServer content w = .stuck ∨
      (∃ w1, Proxy.sendServer content w = .ok () w1 ∧ w1.cache = w.cache ∧
        w1.serverIn = w.serverIn) ∨
      (∃ w1, Proxy.sendServer content w = .thrown w1 ∧ w1.cache = w.cache) := by
  unfold Proxy.sendServer
  cases hs : Proxy.sendAll content w.sends 0 with
  | none => exact Or.inl rfl
  | some res =>
    obtain ⟨suc, out, rest⟩ := res
    cases suc with
    | true => exact Or.inr (Or.inl ⟨_, rfl, rfl, rfl⟩)
    | false => exact Or.inr (Or.inr ⟨_, rfl, rfl⟩)

/-- When the first read of the reply carries 304 in its status line, `resendCheckStatus`
leaves the map of the cache as it was, however the call ends. -/
theorem resendCheckStatus_304 (mktimeOf : Str → Int) (content url : Str) (w w' : World)
    (data : Str) (rest : List (Option Str)) (hreply : w.serverIn = some data :: rest)
    (hlen : data.length ≤ BUFFER_SIZE) (h304 : Proxy.checkStatusCode data = true)
    (h : (Proxy.resendCheckStatus mktimeOf content url w).final = some w') :
    w'.cache.kv = w.cache.kv := by
  unfold Proxy.resendCheckStatus at h
  rcases sendServer_cases content w with hs | ⟨w1, hs, hc, hin⟩ | ⟨w1, hs, hc⟩
  · rw [hs] at h; cases h
  · rw [hs] at h
    simp only at h
    have hn : Proxy.nextRecv w1.serverIn BUFFER_SIZE = some (some data, rest) := by
      rw [hin, hreply]
      show (if data.length ≤ BUFFER_SIZE then some (some data, rest) else none) = _
      rw [if_pos hlen]
    rw [hn] at h
    simp only at h
    cases ht : Proxy.terminate (data ++ Proxy.newBuffer.drop data.length) data.length with
    | none => rw [ht] at h; cases h
    | some b =>
      rw [ht] at h
      simp only at h
      rw [if_pos h304] at h
      have := (respondCached_final url _ w' h).1
      rw [this]
      show w1.cache.kv = w.cache.kv
      rw [hc]
  · rw [hs] at h
    have : some w1 = some w' := h
    cases this
    rw [hc]

/-! ## C4: a fresh hit and the origin -/

/-- C4, as the code has it: `handleRequest` calls `connectServer` before it looks at the
cache.  When the origin cannot be reached the handler fails there: nothing has been written
to the client and the cache is as it was, also when the URL is a fresh hit.  When the origin
can be reached and the GET is a fresh hit (cached, `cur_time ≤ expiration_time`, `no_cache`
false), the connect has been made, and from then on nothing is written to or read from the
origin however the call ends; when every `send` takes all it is offered, the handler returns
and the client has been written the cached segments. -/
theorem fresh_hit_served_after_connect (mktimeOf : Str → Int) (w w1 : World)
    (request : Request) (hacc : Proxy.acceptRequest w = .ok request w1) :
    (w.origin = false →
      ∃ w', Proxy.handleRequest mktimeOf w = .thrown w' ∧ w'.toClient = w.toClient ∧
        w'.cache = w.cache ∧
        w'.connects = w.connects ++ [(request.hostname, request.port)]) ∧
    (w.origin = true → request.httpAction = "GET".toList →
      ∀ (response : Response) (cache1 : LRUCache) (cur_time : Int) (clockRest : List Int),
        w.cache.get request.url = some (response, cache1) →
        w.clock = cur_time :: clockRest →
        cur_time ≤ response.expiration_time → response.no_cache = false →
        (∀ w', (Proxy.handleRequest mktimeOf w).final = some w' →
          w'.connects = w.connects ++ [(request.hostname, request.port)] ∧
            w'.toServer = w.toServer ∧ w'.serverIn = w.serverIn) ∧
        (∀ m : Nat, SendsAccept w.sends m → (∀ seg ∈ response.content, seg.length ≤ m) →
          response.content.length ≤ w.sends.length →
          ∃ w', Proxy.handleRequest mktimeOf w = .ok () w' ∧
            w'.toClient = w.toClient ++ response.content.flatten ∧
            w'.connects = w.connects ++ [(request.hostname, request.port)])) := by
  obtain ⟨rest, hw1⟩ := acceptRequest_ok w w1 request hacc
  refine ⟨?_, ?_⟩
  · intro horigin
    refine ⟨_, handleRequest_connect_fails mktimeOf w w1 request hacc horigin, ?_, ?_, ?_⟩
    · rw [hw1]
    · rw [hw1]
    · rw [hw1]
  · intro horigin hget response cache1 cur_time clockRest hcached hclock hle hnc
    have hreq := handleRequest_get mktimeOf w w1 request hacc horigin hget
    subst hw1
    have htick : Proxy.tick
        { w with
          clientIn := rest, cache := cache1,
          connects := w.connects ++ [(request.hostname, request.port)] } =
        some (cur_time,
          { w with
            clientIn := rest, cache := cache1, clock := clockRest,
            connects := w.connects ++ [(request.hostname, request.port)] }) := by
      unfold Proxy.tick
      simp only [hclock]
    have hcc := checkCaching_cached mktimeOf request
      { w with clientIn := rest, connects := w.connects ++ [(request.hostname, request.port)] }
      _ response cache1 cur_time hcached htick
    rw [if_pos ⟨hle, hnc⟩] at hcc
    refine ⟨?_, ?_⟩
    · intro w' hfinal
      rw [hreq, hcc, final_after_thenTrue] at hfinal
      obtain ⟨_, h2, h3, h4⟩ := respondCached_final request.url _ w' hfinal
      exact ⟨h4, h2, h3⟩
    · intro m hacc' hlen hcount
      obtain ⟨w', h1, h2, h3⟩ := checkCaching_fresh_complete mktimeOf request
        { w with clientIn := rest, connects := w.connects ++ [(request.hostname, request.port)] }
        _ response cache1 cur_time m hcached htick ⟨hle, hnc⟩ hacc' hlen hcount
      refine ⟨w', ?_, h2, h3⟩
      rw [hreq, h1]

/-- C4 as stated fails: `http://o/a` is cached and fresh at time 1010, yet with an origin
that cannot be reached the handler ends in its `catch` block and the client is written
nothing; with an origin that can be reached the handler has connected to `o:80` although it
serves the request from the cache. -/
theorem fresh_hit_still_connects :
    worldFresh.cache.get urlA = some (freshResponse, cacheOf freshResponse) ∧
      (1010 : Int) ≤ freshResponse.expiration_time ∧ freshResponse.no_cache = false ∧
      (Proxy.handleRequest mktimeZero worldFreshNoOrigin).returned = false ∧
      (Proxy.handleRequest mktimeZero worldFreshNoOrigin).final.map (fun w => w.toClient) =
        some [] ∧
      (Proxy.handleRequest mktimeZero worldFresh).returned = true ∧
      (Proxy.handleRequest mktimeZero worldFresh).final.map
          (fun w => (w.connects, w.toClient)) =
        some ([("o".toList, "80".toList)], replyS1) := by
  decide

/-- Witness of C4 as the code has it: the fresh hit of `worldFresh`, served after the
connect. -/
theorem fresh_hit_served_after_connect_witness :
    ∃ w', Proxy.handleRequest mktimeZero worldFresh = .ok () w' ∧
      w'.toClient = worldFresh.toClient ++ freshResponse.content.flatten ∧
      w'.connects = worldFresh.connects ++ [("o".toList, "80".toList)] :=
  ((fresh_hit_served_after_connect mktimeZero worldFresh
      { worldFresh with clientIn := [] } requestA (by decide)).2 (by decide) (by decide)
    freshResponse (cacheOf freshResponse) 1010 [] (by decide) (by decide) (by decide)
    (by decide)).2 65536
    (fun e he => ⟨65536, List.mem_singleton.1 he, le_refl _⟩) (by decide) (by decide)

/-! ## C6: a 304 and the cached entry -/

/-- C6 as stated fails: `http://o/a` is cached, expired and has no validator, so the GET is
fetched from the origin without a condition; the origin answers 304, and the handler parses
that answer and stores it under the URL: the entry with status 200 is replaced by one with
status 304. -/
theorem plain_fetch_304_replaces_entry :
    mapFind world304Plain.cache.kv urlA = some staleResponse ∧
      staleResponse.status_code = 200 ∧
      (Proxy.handleRequest mktimeZero world304Plain).returned = true ∧
      (Proxy.handleRequest mktimeZero world304Plain).final.map
          (fun w => (mapFind w.cache.kv urlA).map (fun r => (r.status_code, r.content))) =
        some (some (304, [reply304])) := by
  decide

/-- C6, as the code has it: when a GET finds its URL cached but not fresh, the entry has an
entity tag or a modification time (so the handler revalidates), and the first read of the
origin's reply carries 304 in its status line, then however the handler ends the map of the
cache is as it was; in particular the URL is still mapped to the same response. -/
theorem revalidation_304_keeps_entry (mktimeOf : Str → Int) (w w1 : World) (request : Request)
    (response : Response) (cache1 : LRUCache) (cur_time : Int) (clockRest : List Int)
    (data : Str) (rest : List (Option Str))
    (hacc : Proxy.acceptRequest w = .ok request w1) (horigin : w.origin = true)
    (hget : request.httpAction = "GET".toList)
    (hcached : w.cache.get request.url = some (response, cache1))
    (hclock : w.clock = cur_time :: clockRest)
    (hstale : ¬ (cur_time ≤ response.expiration_time ∧ response.no_cache = false))
    (hval : response.etag ≠ [] ∨ response.last_modified ≠ 0)
    (hreply : w.serverIn = some data :: rest) (hlen : data.length ≤ BUFFER_SIZE)
    (h304 : Proxy.checkStatusCode data = true) :
    ∀ w', (Proxy.handleRequest mktimeOf w).final = some w' →
      w'.cache.kv = w.cache.kv ∧ mapFind w'.cache.kv request.url = some response := by
  intro w' hfinal
  obtain ⟨crest, hw1⟩ := acceptRequest_ok w w1 request hacc
  have hreq := handleRequest_get mktimeOf w w1 request hacc horigin hget
  subst hw1
  have htick : Proxy.tick
      { w with
        clientIn := crest, cache := cache1,
        connects := w.connects ++ [(request.hostname, request.port)] } =
      some (cur_time,
        { w with
          clientIn := crest, cache := cache1, clock := clockRest,
          connects := w.connects ++ [(request.hostname, request.port)] }) := by
    unfold Proxy.tick
    simp only [hclock]
  have hcc := checkCaching_cached mktimeOf request
    { w with clientIn := crest, connects := w.connects ++ [(request.hostname, request.port)] }
    _ response cache1 cur_time hcached htick
  rw [if_neg hstale] at hcc
  have hkv1 : cache1.kv = w.cache.kv := by rw [(get_eq_some _ _ _ _ hcached).2]
  have hkv : w'.cache.kv = w.cache.kv := by
    by_cases hetag : response.etag ≠ []
    · rw [if_pos hetag] at hcc
      rw [hreq, hcc, final_after_thenTrue] at hfinal
      have := resendCheckStatus_304 mktimeOf _ request.url
        { w with
          clientIn := crest, cache := cache1, clock := clockRest,
          connects := w.connects ++ [(request.hostname, request.port)] }
        w' data rest hreply hlen h304 hfinal
      rw [this]
      exact hkv1
    · have hmod : response.last_modified ≠ 0 := hval.resolve_left hetag
      rw [if_neg hetag, if_pos hmod] at hcc
      rw [hreq, hcc, final_after_thenTrue] at hfinal
      have := resendCheckStatus_304 mktimeOf _ request.url
        { w with
          clientIn := crest, cache := cache1, clock := clockRest,
          connects := w.connects ++ [(request.hostname, request.port)] }
        w' data rest hreply hlen h304 hfinal
      rw [this]
      exact hkv1
  refine ⟨hkv, ?_⟩
  rw [hkv]
  exact (get_eq_some _ _ _ _ hcached).1

/-- Witness of C6 as the code has it: the revalidation of `world304Revalidate`. -/
theorem revalidation_304_keeps_entry_witness :
    ∃ w', (Proxy.handleRequest mktimeZero world304Revalidate).final = some w' ∧
      w'.cache.kv = world304Revalidate.cache.kv ∧
      mapFind w'.cache.kv urlA = some staleEtagResponse :=
  match h : (Proxy.handleRequest mktimeZero world304Revalidate).final with
  | some w' =>
      ⟨w', rfl,
        revalidation_304_keeps_entry mktimeZero world304Revalidate
          { world304Revalidate with clientIn := [] } requestA staleEtagResponse
          (cacheOf staleEtagResponse) 2000 [] reply304 [] (by decide) (by decide) (by decide)
          (by decide) (by decide) (by decide) (by decide) (by decide) (by decide) (by decide)
          w' h⟩
  | none => absurd h (by decide)

/-- Witness of C7: the fresh hit of `worldFresh`, seen by `checkCaching` after the connect. -/
theorem checkCaching_decision_witness :
    ∃ w', Proxy.checkCaching mktimeZero requestA { worldFresh with clientIn := [] } =
        .ok true w' ∧
      w'.toClient = worldFresh.toClient ++ freshResponse.content.flatten :=
  (((checkCaching_decision mktimeZero requestA { worldFresh with clientIn := [] }).2
      freshResponse (cacheOf freshResponse) 1010
      { worldFresh with clientIn := [], clock := [] } (by decide) (by decide)).1
    ⟨by decide, by decide⟩).2 65536
    (fun e he => ⟨65536, List.mem_singleton.1 he, le_refl _⟩) (by decide) (by decide)

/-! ## The request line -/

theorem parseRequestLoop_cons (c : Char) (rest : Str) (request : Request) (suc : Bool)
    (temp : Str) :
    Parser.parseRequestLoop (c :: rest) request suc temp =
      (if c = '\r' then request
      else
        if suc = false ∧ c = ' ' then
          if request.httpAction = [] then
            Parser.parseRequestLoop rest
              { request with
                first_line := request.first_line ++ [c],
                httpAction := (Parser.pushClear temp request.httpAction).2 } suc
              (Parser.pushClear temp request.httpAction).1
          else
            Parser.parseRequestLoop rest
              { request with
                first_line := request.first_line ++ [c],
                url := (Parser.extractAddrPort (Parser.pushClear temp request.url).2).1,
                hostname := (Parser.extractAddrPort (Parser.pushClear temp request.url).2).2.1,
                port := (Parser.extractAddrPort (Parser.pushClear temp request.url).2).2.2 }
              true (Parser.pushClear temp request.url).1
        else
          Parser.parseRequestLoop rest
            { request with first_line := request.first_line ++ [c] } suc (temp ++ [c])) := by
  rw [Parser.parseRequestLoop]

theorem parseRequestLoop_plain (s : Str) :
    ∀ (rest : Str) (request : Request) (suc : Bool) (temp : Str),
      (∀ c ∈ s, c ≠ '\r') → (suc = true ∨ ∀ c ∈ s, c ≠ ' ') →
      Parser.parseRequestLoop (s ++ rest) request suc temp =
        Parser.parseRequestLoop rest
          { request with first_line := request.first_line ++ s } suc (temp ++ s) := by
  induction s with
  | nil =>
    intro rest request suc temp _ _
    simp only [List.nil_append, List.append_nil]
  | cons c s ih =>
    intro rest request suc temp hcr hsp
    have hc : c ≠ '\r' := hcr c (List.mem_cons_self _ _)
    have hns : ¬ (suc = false ∧ c = ' ') := by
      rintro ⟨h1, h2⟩
      rcases hsp with h | h
      · rw [h] at h1; cases h1
      · exact h c (List.mem_cons_self _ _) h2
    rw [List.cons_append, parseRequestLoop_cons, if_neg hc, if_neg hns]
    rw [ih rest _ suc (temp ++ [c]) (fun x hx => hcr x (List.mem_cons_of_mem _ hx))
      (hsp.imp id (fun h x hx => h x (List.mem_cons_of_mem _ hx)))]
    simp only [List.append_assoc, List.singleton_append]

theorem parseRequestLoop_stop (rest : Str) (request : Request) (suc : Bool) (temp : Str)
    (h : rest = [] ∨ ∃ r, rest = '\r' :: r) :
    Parser.parseRequestLoop rest request suc temp = request := by
  rcases h with h | ⟨r, h⟩
  · subst h
    rfl
  · subst h
    rw [parseRequestLoop_cons, if_pos rfl]

/-- A request line `METHOD SP TARGET SP VERSION` is read as method `METHOD` and the target is
handed to `extractAddrPort`. -/
theorem parseRequest_line (t method target version rest : Str)
    (hm : method ≠ []) (hm1 : ∀ c ∈ method, c ≠ ' ' ∧ c ≠ '\r')
    (ht1 : ∀ c ∈ target, c ≠ ' ' ∧ c ≠ '\r') (hv1 : ∀ c ∈ version, c ≠ '\r')
    (hrest : rest = [] ∨ ∃ r, rest = '\r' :: r) :
    Parser.parseRequest
        (Request.new t (method ++ ' ' :: target ++ ' ' :: version ++ rest)) =
      { request_time := t,
        first_line := method ++ ' ' :: target ++ ' ' :: version,
        httpAction := method,
        url := (Parser.extractAddrPort target).1,
        hostname := (Parser.extractAddrPort target).2.1,
        port := (Parser.extractAddrPort target).2.2,
        content := method ++ ' ' :: target ++ ' ' :: version ++ rest } := by
  unfold Parser.parseRequest
  show Parser.parseRequestLoop (method ++ ' ' :: target ++ ' ' :: version ++ rest) _ false [] = _
  have e1 : method ++ ' ' :: target ++ ' ' :: version ++ rest =
      method ++ (' ' :: (target ++ (' ' :: (version ++ rest)))) := by
    simp only [List.append_assoc, List.cons_append]
  rw [e1, parseRequestLoop_plain method _ _ false [] (fun c hc => (hm1 c hc).2)
    (Or.inr (fun c hc => (hm1 c hc).1))]
  rw [parseRequestLoop_cons, if_neg (by decide), if_pos ⟨rfl, rfl⟩]
  have hpc1 : Parser.pushClear ([] ++ method) [] = ([], method) := by
    unfold Parser.pushClear
    rw [List.nil_append, if_pos hm]
  rw [if_pos (by rfl)]
  simp only [Request.new, hpc1]
  rw [parseRequestLoop_plain target _ _ false [] (fun c hc => (ht1 c hc).2)
    (Or.inr (fun c hc => (ht1 c hc).1))]
  rw [parseRequestLoop_cons, if_neg (by decide), if_pos ⟨rfl, rfl⟩, if_neg hm]
  have hpc2 : (Parser.pushClear ([] ++ target) []).2 = target := by
    unfold Parser.pushClear
    rw [List.nil_append]
    by_cases htn : target = []
    · rw [if_neg (not_not.2 htn), htn]
    · rw [if_pos htn]
  simp only [hpc2]
  rw [parseRequestLoop_plain version _ _ true _ hv1 (Or.inl rfl),
    parseRequestLoop_stop rest _ _ _ hrest]
  simp only [List.nil_append, List.append_assoc, List.cons_append, List.singleton_append]

theorem findLastOf_none (s : Str) (ch : Char) (h : ch ∉ s) : findLastOf s ch = none := by
  induction s with
  | nil => rfl
  | cons c t ih =>
    have hc : ¬ c = ch := fun e => h (e ▸ List.mem_cons_self _ _)
    have ht : ch ∉ t := fun hm => h (List.mem_cons_of_mem _ hm)
    unfold findLastOf
    rw [ih ht]
    simp only
    rw [if_neg hc]

theorem findLastOf_last (host p : Str) (ch : Char) (h : ch ∉ p) :
    findLastOf (host ++ ch :: p) ch = some host.length := by
  induction host with
  | nil =>
    rw [List.nil_append]
    unfold findLastOf
    rw [findLastOf_none p ch h]
    simp only
    rfl
  | cons a host ih =>
    rw [List.cons_append]
    unfold findLastOf
    rw [ih]
    rfl

theorem strFindFrom_ge (pat : Str) (s : Str) :
    ∀ (i j : Nat), strFindFrom pat s i = some j → i ≤ j := by
  induction s with
  | nil =>
    intro i j h
    unfold strFindFrom at h
    by_cases hp : pat = []
    · rw [if_pos hp] at h
      cases h
      exact le_refl _
    · rw [if_neg hp] at h
      cases h
  | cons c t ih =>
    intro i j h
    unfold strFindFrom at h
    by_cases hp : pat.isPrefixOf (c :: t) = true
    · rw [if_pos hp] at h
      cases h
      exact le_refl _
    · rw [if_neg hp] at h
      exact Nat.le_of_succ_le (ih _ _ h)

theorem strFind_ne_zero (s pat : Str) (h : pat.isPrefixOf s = false) (hp : pat ≠ []) :
    strFind s pat ≠ some 0 := by
  unfold strFind
  cases s with
  | nil =>
    unfold strFindFrom
    rw [if_neg hp]
    exact fun e => Option.noConfusion e
  | cons c t =>
    unfold strFindFrom
    rw [if_neg (by rw [h]; exact Bool.false_ne_true)]
    intro e
    have := strFindFrom_ge pat t 1 0 e
    omega

theorem strFind_zero (s pat : Str) (h : pat.isPrefixOf s = true) : strFind s pat = some 0 := by
  unfold strFind
  cases s with
  | nil =>
    cases pat with
    | nil => rfl
    | cons a as => cases h
  | cons c t =>
    unfold strFindFrom
    rw [if_pos h]

theorem sizeT_ofNat (n : Nat) (h : n < 2 ^ 64) : sizeT (n : Int) = n := by
  unfold sizeT
  have : ((n : Int) % 2 ^ 64) = (n : Int) := Int.emod_eq_of_lt (Int.ofNat_nonneg n) (by exact_mod_cast h)
  rw [this]
  rfl

theorem sizeT_neg_one : sizeT (-1) = 2 ^ 64 - 1 := by
  decide

/-- What `extractAddrPort` does with a target that does not start with `http://`. -/
theorem extractAddrPort_authority (target : Str)
    (hnot : "http://".toList.isPrefixOf target = false) (hlen : target.length < 2 ^ 64) :
    (Parser.extractAddrPort target).2.2 = "443".toList ∧
      (Parser.extractAddrPort target).1 = (Parser.extractAddrPort target).2.1 ∧
      (∀ host p : Str, target = host ++ ':' :: p → ':' ∉ p →
        (Parser.extractAddrPort target).2.1 = host) ∧
      (':' ∉ target → (Parser.extractAddrPort target).2.1 = target) := by
  have hne := strFind_ne_zero target "http://".toList hnot (by decide)
  unfold Parser.extractAddrPort
  rw [if_neg hne]
  refine ⟨rfl, rfl, ?_, ?_⟩
  · intro host p e hp
    show target.take (sizeT (toInt (findLastOf target ':'))) = host
    rw [e, findLastOf_last host p ':' hp]
    show (host ++ ':' :: p).take (sizeT (host.length : Int)) = host
    have hl : host.length < 2 ^ 64 := by
      rw [e] at hlen
      simp only [List.length_append, List.length_cons] at hlen
      omega
    rw [sizeT_ofNat _ hl, List.take_left]
  · intro hno
    show target.take (sizeT (toInt (findLastOf target ':'))) = target
    rw [findLastOf_none target ':' hno]
    show target.take (sizeT (-1)) = target
    rw [sizeT_neg_one]
    exact List.take_of_length_le (by omega)

theorem thirdSlash_authority (authority path : Str) (i : Nat)
    (ha : ∀ c ∈ authority, c ≠ '/') (hp : path = [] ∨ ∃ p, path = '/' :: p) :
    Parser.thirdSlash (authority ++ path) 2 i = i + authority.length := by
  induction authority generalizing i with
  | nil =>
    rw [List.nil_append]
    rcases hp with h | ⟨p, h⟩
    · subst h; rfl
    · subst h
      unfold Parser.thirdSlash
      rw [if_pos (by rw [if_pos rfl])]
      rfl
  | cons c a ih =>
    have hc : c ≠ '/' := ha c (List.mem_cons_self _ _)
    rw [List.cons_append]
    unfold Parser.thirdSlash
    rw [if_neg hc, if_neg (by decide)]
    rw [ih (i + 1) (fun x hx => ha x (List.mem_cons_of_mem _ hx))]
    simp only [List.length_cons]
    omega

/-- What `extractAddrPort` does with a target `http://AUTHORITY` or `http://AUTHORITY/...`. -/
theorem extractAddrPort_absolute (authority path : Str)
    (ha : ∀ c ∈ authority, c ≠ '/') (hp : path = [] ∨ ∃ p, path = '/' :: p)
    (hlen : authority.length < 2 ^ 64) :
    Parser.extractAddrPort ("http://".toList ++ authority ++ path) =
      ("http://".toList ++ authority ++ path, authority, "80".toList) := by
  have hpre : strFind ("http://".toList ++ authority ++ path) "http://".toList = some 0 :=
    strFind_zero _ _ (by rw [List.append_assoc]; exact List.isPrefixOf_iff_prefix.2 (List.prefix_append _ _))
  have hthird : Parser.thirdSlash ("http://".toList ++ authority ++ path) 0 0 =
      7 + authority.length := by
    rw [List.append_assoc]
    show Parser.thirdSlash (authority ++ path) 2 7 = 7 + authority.length
    exact thirdSlash_authority authority path 7 ha hp
  unfold Parser.extractAddrPort
  rw [if_pos hpre, hthird]
  have h7 : (((7 + authority.length : Nat) : Int) - 7) = (authority.length : Int) := by
    push_cast; omega
  simp only [h7, sizeT_ofNat _ hlen]
  rw [List.append_assoc]
  show ("http://".toList ++ (authority ++ path), List.take authority.length (authority ++ path),
    "80".toList) = _
  rw [List.take_left]

/-! ## C11 and C12: host and port of the request target -/

/-- C11 as stated fails: for `CONNECT o:8443 HTTP/1.1` the parsed host is `o`, the text
before the last colon, but the parsed port is `443`, not the text `8443` after the colon. -/
theorem authority_port_is_not_read :
    (Parser.parseRequest (Request.new [] "CONNECT o:8443 HTTP/1.1\r\n\r\n".toList)).hostname =
        "o".toList ∧
      (Parser.parseRequest (Request.new [] "CONNECT o:8443 HTTP/1.1\r\n\r\n".toList)).port =
        "443".toList ∧
      "443".toList ≠ "8443".toList := by
  decide

/-- C11, as the code has it: for every request line `METHOD SP TARGET SP VERSION` whose
TARGET does not start with `http://`, the parsed method is METHOD, the parsed host is the
text before the last colon of TARGET, or the whole TARGET when it has no colon, and the
parsed port is `443` in every case. -/
theorem authority_target_host_and_port_443 (t method target version rest : Str)
    (hm : method ≠ []) (hm1 : ∀ c ∈ method, c ≠ ' ' ∧ c ≠ '\r')
    (ht1 : ∀ c ∈ target, c ≠ ' ' ∧ c ≠ '\r') (hv1 : ∀ c ∈ version, c ≠ '\r')
    (hrest : rest = [] ∨ ∃ r, rest = '\r' :: r)
    (hnot : "http://".toList.isPrefixOf target = false) (hlen : target.length < 2 ^ 64) :
    (Parser.parseRequest
        (Request.new t (method ++ ' ' :: target ++ ' ' :: version ++ rest))).httpAction =
        method ∧
      (Parser.parseRequest
        (Request.new t (method ++ ' ' :: target ++ ' ' :: version ++ rest))).port =
        "443".toList ∧
      (∀ host p : Str, target = host ++ ':' :: p → ':' ∉ p →
        (Parser.parseRequest
          (Request.new t (method ++ ' ' :: target ++ ' ' :: version ++ rest))).hostname =
          host) ∧
      (':' ∉ target →
        (Parser.parseRequest
          (Request.new t (method ++ ' ' :: target ++ ' ' :: version ++ rest))).hostname =
          target) := by
  rw [parseRequest_line t method target version rest hm hm1 ht1 hv1 hrest]
  obtain ⟨h1, _, h3, h4⟩ := extractAddrPort_authority target hnot hlen
  exact ⟨rfl, h1, h3, h4⟩

/-- Witness of C11 as the code has it: `CONNECT www.example.com:443 HTTP/1.1`. -/
theorem authority_target_host_and_port_443_witness :
    (Parser.parseRequest (Request.new []
        ("CONNECT".toList ++ ' ' :: "www.example.com:443".toList ++ ' ' :: "HTTP/1.1".toList ++
          "\r\nHost: www.example.com:443\r\n\r\n".toList))).port = "443".toList ∧
      (Parser.parseRequest (Request.new []
        ("CONNECT".toList ++ ' ' :: "www.example.com:443".toList ++ ' ' :: "HTTP/1.1".toList ++
          "\r\nHost: www.example.com:443\r\n\r\n".toList))).hostname =
        "www.example.com".toList :=
  have h := authority_target_host_and_port_443 [] "CONNECT".toList
    "www.example.com:443".toList "HTTP/1.1".toList
    "\r\nHost: www.example.com:443\r\n\r\n".toList (by decide) (by decide) (by decide)
    (by decide) (Or.inr ⟨_, rfl⟩) (by decide) (by decide)
  ⟨h.2.1, h.2.2.1 "www.example.com".toList "443".toList (by decide) (by decide)⟩

/-- C12 as stated fails: for `GET http://o:8080/a HTTP/1.1` the parsed host is `o:8080`,
not `o`, and the parsed port is `80`, not the explicit `8080`. -/
theorem absolute_port_is_not_read :
    (Parser.parseRequest
        (Request.new [] "GET http://o:8080/a HTTP/1.1\r\n\r\n".toList)).hostname =
        "o:8080".toList ∧
      (Parser.parseRequest (Request.new [] "GET http://o:8080/a HTTP/1.1\r\n\r\n".toList)).port =
        "80".toList ∧
      "o:8080".toList ≠ "o".toList ∧ "80".toList ≠ "8080".toList := by
  decide

/-- C12, as the code has it: for every request line whose target is `http://AUTHORITY` or
`http://AUTHORITY/...`, `AUTHORITY` being the text up to the next slash, the parsed host is
the whole `AUTHORITY` (a `:port` in it included), the parsed port is `80` in every case and
the URL is the target; so the host is `host` with port 80 when the target carries no port. -/
theorem absolute_target_host_and_port_80 (t method authority path version rest : Str)
    (hm : method ≠ []) (hm1 : ∀ c ∈ method, c ≠ ' ' ∧ c ≠ '\r')
    (ha : ∀ c ∈ authority, c ≠ '/' ∧ c ≠ ' ' ∧ c ≠ '\r')
    (hp : path = [] ∨ ∃ p, path = '/' :: p) (hp1 : ∀ c ∈ path, c ≠ ' ' ∧ c ≠ '\r')
    (hv1 : ∀ c ∈ version, c ≠ '\r') (hrest : rest = [] ∨ ∃ r, rest = '\r' :: r)
    (hlen : authority.length < 2 ^ 64) :
    (Parser.parseRequest (Request.new t
        (method ++ ' ' :: ("http://".toList ++ authority ++ path) ++ ' ' :: version ++
          rest))).hostname = authority ∧
      (Parser.parseRequest (Request.new t
        (method ++ ' ' :: ("http://".toList ++ authority ++ path) ++ ' ' :: version ++
          rest))).port = "80".toList ∧
      (Parser.parseRequest (Request.new t
        (method ++ ' ' :: ("http://".toList ++ authority ++ path) ++ ' ' :: version ++
          rest))).url = "http://".toList ++ authority ++ path ∧
      (Parser.parseRequest (Request.new t
        (method ++ ' ' :: ("http://".toList ++ authority ++ path) ++ ' ' :: version ++
          rest))).httpAction = method := by
  have ht1 : ∀ c ∈ "http://".toList ++ authority ++ path, c ≠ ' ' ∧ c ≠ '\r' := by
    intro c hc
    rcases List.mem_append.1 hc with h | h
    · rcases List.mem_append.1 h with h | h
      · exact (by decide : ∀ x ∈ "http://".toList, x ≠ ' ' ∧ x ≠ '\r') c h
      · exact (ha c h).2
    · exact hp1 c h
  rw [parseRequest_line t method _ version rest hm hm1 ht1 hv1 hrest,
    extractAddrPort_absolute authority path (fun c hc => (ha c hc).1) hp hlen]
  exact ⟨rfl, rfl, rfl, rfl⟩

/-- Witness of C12 as the code has it: `GET http://people.duke.edu/~bmr23/ece568/ HTTP/1.1`. -/
theorem absolute_target_host_and_port_80_witness :
    (Parser.parseRequest (Request.new []
        ("GET".toList ++ ' ' :: ("http://".toList ++ "people.duke.edu".toList ++
          "/~bmr23/ece568/".toList) ++ ' ' :: "HTTP/1.1".toList ++
          "\r\nHost: people.duke.edu\r\n\r\n".toList))).hostname = "people.duke.edu".toList ∧
      (Parser.parseRequest (Request.new []
        ("GET".toList ++ ' ' :: ("http://".toList ++ "people.duke.edu".toList ++
          "/~bmr23/ece568/".toList) ++ ' ' :: "HTTP/1.1".toList ++
          "\r\nHost: people.duke.edu\r\n\r\n".toList))).port = "80".toList :=
  have h := absolute_target_host_and_port_80 [] "GET".toList "people.duke.edu".toList
    "/~bmr23/ece568/".toList "HTTP/1.1".toList "\r\nHost: people.duke.edu\r\n\r\n".toList
    (by decide) (by decide) (by decide) (Or.inr ⟨_, rfl⟩) (by decide) (by decide)
    (Or.inr ⟨_, rfl⟩) (by decide)
  ⟨h.1, h.2.1⟩

/-! ## The header lines -/

theorem pushClear_empty_data (temp : Str) :
    (Parser.pushClear temp []).1 = [] ∧ (Parser.pushClear temp []).2 = temp := by
  unfold Parser.pushClear
  by_cases h : temp = []
  · rw [if_neg (not_not.2 h), h]
    exact ⟨rfl, rfl⟩
  · rw [if_pos h]
    exact ⟨rfl, rfl⟩

theorem extractKVLoop_crlf (rest key val temp : Str) (kv : List (Str × Str)) :
    Parser.extractKVLoop ('\r' :: '\n' :: rest) key val temp kv =
      Parser.extractKVLoop rest [] [] (Parser.pushClear temp val).1
        (mapInsert kv key (Parser.pushClear temp val).2) := by
  rw [Parser.extractKVLoop, if_pos ⟨rfl, rfl⟩]

theorem extractKVLoop_sep (rest key val temp : Str) (kv : List (Str × Str)) :
    Parser.extractKVLoop (':' :: ' ' :: rest) key val temp kv =
      Parser.extractKVLoop rest (Parser.pushClear temp key).2 val
        (Parser.pushClear temp key).1 kv := by
  rw [Parser.extractKVLoop, if_neg (by decide), if_pos ⟨rfl, rfl⟩]

theorem extractKVLoop_char (c d : Char) (rest key val temp : Str) (kv : List (Str × Str))
    (h1 : ¬ (c = '\r' ∧ d = '\n')) (h2 : ¬ (c = ':' ∧ d = ' ')) :
    Parser.extractKVLoop (c :: d :: rest) key val temp kv =
      Parser.extractKVLoop (d :: rest) key val (temp ++ [c]) kv := by
  rw [Parser.extractKVLoop, if_neg h1, if_neg h2]

theorem noSep_cons (c d : Char) (rest : Str) (h : noSep (c :: d :: rest) = true) :
    ¬ (c = '\r' ∧ d = '\n') ∧ ¬ (c = ':' ∧ d = ' ') ∧ noSep (d :: rest) = true := by
  unfold noSep at h
  simp only [Bool.and_eq_true, Bool.not_eq_true', Bool.or_eq_false_iff,
    decide_eq_false_iff_not] at h
  exact ⟨h.1.1, h.1.2, h.2⟩

/-- Text without separators, followed by the first character of a separator, is collected
in `temp`. -/
theorem extractKVLoop_scan (t : Str) :
    ∀ (x : Char) (rest key val temp : Str) (kv : List (Str × Str)),
      noSep t = true → x ≠ '\n' → x ≠ ' ' →
      Parser.extractKVLoop (t ++ x :: rest) key val temp kv =
        Parser.extractKVLoop (x :: rest) key val (temp ++ t) kv := by
  induction t with
  | nil =>
    intro x rest key val temp kv _ _ _
    rw [List.nil_append, List.append_nil]
  | cons a t ih =>
    intro x rest key val temp kv hns hx1 hx2
    cases t with
    | nil =>
      show Parser.extractKVLoop (a :: x :: rest) key val temp kv = _
      rw [extractKVLoop_char a x rest key val temp kv (fun h => hx1 h.2) (fun h => hx2 h.2)]
    | cons d t' =>
      obtain ⟨h1, h2, h3⟩ := noSep_cons a d t' hns
      show Parser.extractKVLoop (a :: d :: (t' ++ x :: rest)) key val temp kv = _
      rw [extractKVLoop_char a d _ key val temp kv h1 h2]
      have := ih x rest key val (temp ++ [a]) kv h3 hx1 hx2
      rw [List.cons_append] at this
      rw [this, List.append_assoc]
      rfl

/-- One header line `name: value` puts `value` under `name` unless the name is there. -/
theorem extractKVLoop_line (name value rest : Str) (kv : List (Str × Str))
    (hn : noSep name = true) (hv : noSep value = true) :
    Parser.extractKVLoop (name ++ ':' :: ' ' :: value ++ '\r' :: '\n' :: rest) [] [] [] kv =
      Parser.extractKVLoop rest [] [] [] (mapInsert kv name value) := by
  have e : name ++ ':' :: ' ' :: value ++ '\r' :: '\n' :: rest =
      name ++ ':' :: (' ' :: (value ++ '\r' :: '\n' :: rest)) := by
    simp only [List.append_assoc, List.cons_append]
  rw [e, extractKVLoop_scan name ':' _ [] [] [] kv hn (by decide) (by decide),
    extractKVLoop_sep, List.nil_append, (pushClear_empty_data name).1,
    (pushClear_empty_data name).2,
    extractKVLoop_scan value '\r' _ name [] [] kv hv (by decide) (by decide),
    extractKVLoop_crlf, List.nil_append, (pushClear_empty_data value).1,
    (pushClear_empty_data value).2]

/-- The header lines are inserted in order. -/
theorem extractKVLoop_lines (lines : List (Str × Str)) :
    ∀ (rest : Str) (kv : List (Str × Str)),
      (∀ l ∈ lines, noSep l.1 = true) → (∀ l ∈ lines, noSep l.2 = true) →
      Parser.extractKVLoop (renderLines lines ++ rest) [] [] [] kv =
        Parser.extractKVLoop rest [] [] [] (insertLines kv lines) := by
  induction lines with
  | nil =>
    intro rest kv _ _
    rfl
  | cons l lines ih =>
    intro rest kv hn hv
    have e : renderLines (l :: lines) ++ rest =
        l.1 ++ ':' :: ' ' :: l.2 ++ '\r' :: '\n' :: (renderLines lines ++ rest) := by
      show (l.1 ++ ':' :: ' ' :: l.2 ++ '\r' :: '\n' :: renderLines lines) ++ rest = _
      simp only [List.append_assoc, List.cons_append]
    rw [e, extractKVLoop_line l.1 l.2 _ kv (hn l (List.mem_cons_self _ _))
      (hv l (List.mem_cons_self _ _)),
      ih rest _ (fun x hx => hn x (List.mem_cons_of_mem _ hx))
        (fun x hx => hv x (List.mem_cons_of_mem _ hx))]
    rfl

theorem mapInsert_of_present {ν : Type} (m : List (Str × ν)) (k : Str) (v : ν)
    (h : (mapFind m k).isSome = true) : mapInsert m k v = m := by
  unfold mapInsert
  cases hf : mapFind m k with
  | none => rw [hf] at h; cases h
  | some x => rfl

theorem noColonSpace_cons (c d : Char) (rest : Str) (h : noColonSpace (c :: d :: rest) = true) :
    ¬ (c = ':' ∧ d = ' ') ∧ noColonSpace (d :: rest) = true := by
  unfold noColonSpace at h
  simp only [Bool.and_eq_true, Bool.not_eq_true', decide_eq_false_iff_not] at h
  exact h

/-- A tail without colon-space adds nothing once the empty name is in the map. -/
theorem extractKVLoop_tail (tail key val temp : Str) (kv : List (Str × Str)) :
    key = [] → noColonSpace tail = true → (mapFind kv []).isSome = true →
      Parser.extractKVLoop tail key val temp kv = kv := by
  induction tail, key, val, temp, kv using Parser.extractKVLoop.induct with
  | case1 key val temp kv =>
    intro hk _ hp
    subst hk
    rw [Parser.extractKVLoop]
    exact mapInsert_of_present kv [] _ hp
  | case2 c key val temp kv =>
    intro hk _ hp
    subst hk
    rw [Parser.extractKVLoop]
    exact mapInsert_of_present kv [] _ hp
  | case3 c d rest key val temp kv hcd ih =>
    intro hk hns hp
    subst hk
    obtain ⟨_, hrest⟩ := noColonSpace_cons c d rest hns
    have hrest' : noColonSpace rest = true := by
      cases rest with
      | nil => rfl
      | cons e r =>
        cases r with
        | nil => rfl
        | cons f r' => exact (noColonSpace_cons d e (f :: r') hrest).2
    rw [hcd.1, hcd.2, extractKVLoop_crlf, mapInsert_of_present kv [] _ hp]
    rw [mapInsert_of_present kv [] _ hp] at ih
    exact ih rfl hrest' hp
  | case4 c d rest key val temp kv _ hcd ih =>
    intro _ hns _
    exact absurd hcd (noColonSpace_cons c d rest hns).1
  | case5 c d rest key val temp kv h1 h2 ih =>
    intro hk hns hp
    rw [extractKVLoop_char c d rest key val temp kv h1 h2]
    exact ih hk (noColonSpace_cons c d rest hns).2 hp

/-! ## The status line -/

theorem untilCR_append (sl rest : Str) (h : ∀ c ∈ sl, c ≠ '\r') :
    Parser.untilCR (sl ++ '\r' :: rest) = sl := by
  induction sl with
  | nil =>
    rw [List.nil_append]
    unfold Parser.untilCR
    rw [if_pos rfl]
  | cons c sl ih =>
    rw [List.cons_append]
    unfold Parser.untilCR
    rw [if_neg (h c (List.mem_cons_self _ _)), ih (fun x hx => h x (List.mem_cons_of_mem _ hx))]

theorem findFirstOf_append (sl rest set : Str) (x : Char) (h : ∀ c ∈ sl, c ∉ set)
    (hx : x ∈ set) : findFirstOf (sl ++ x :: rest) set = some sl.length := by
  induction sl with
  | nil =>
    rw [List.nil_append]
    unfold findFirstOf
    rw [if_pos hx]
    rfl
  | cons c sl ih =>
    rw [List.cons_append]
    unfold findFirstOf
    rw [if_neg (h c (List.mem_cons_self _ _)), ih (fun y hy => h y (List.mem_cons_of_mem _ hy))]
    rfl

theorem findLastOf_lt (s : Str) (ch : Char) :
    ∀ i, findLastOf s ch = some i → i < s.length := by
  induction s with
  | nil =>
    intro i h
    cases h
  | cons c t ih =>
    intro i h
    unfold findLastOf at h
    cases hf : findLastOf t ch with
    | none =>
      rw [hf] at h
      simp only at h
      by_cases hc : c = ch
      · rw [if_pos hc] at h
        cases h
        exact Nat.succ_pos _
      · rw [if_neg hc] at h
        cases h
    | some j =>
      rw [hf] at h
      cases h
      exact Nat.succ_lt_succ (ih j hf)

theorem findLastOf_ge (a b : Str) (ch : Char) :
    ∃ j, findLastOf (a ++ ch :: b) ch = some j ∧ a.length ≤ j ∧ j ≤ a.length + b.length := by
  induction a with
  | nil =>
    rw [List.nil_append]
    unfold findLastOf
    cases hf : findLastOf b ch with
    | none =>
      refine ⟨0, ?_, le_refl _, Nat.zero_le _⟩
      simp only
      rfl
    | some i =>
      have := findLastOf_lt b ch i hf
      refine ⟨i + 1, rfl, Nat.zero_le _, ?_⟩
      simp only [List.length_nil]
      omega
  | cons c a ih =>
    obtain ⟨j, hj, h1, h2⟩ := ih
    rw [List.cons_append]
    unfold findLastOf
    rw [hj]
    refine ⟨j + 1, rfl, ?_, ?_⟩
    · simp only [List.length_cons]; omega
    · simp only [List.length_cons]; omega

theorem isdigit_not_space (c : Char) (h : isdigit c = true) : isspace c = false := by
  unfold isdigit at h
  unfold isspace
  have := of_decide_eq_true h
  exact decide_eq_false (by omega)

theorem isdigit_not_sign (c : Char) (h : isdigit c = true) : c ≠ '-' ∧ c ≠ '+' := by
  constructor
  · intro e
    subst e
    exact absurd h (by decide)
  · intro e
    subst e
    exact absurd h (by decide)

theorem takeWhile_digits (digits more : Str) (hd : ∀ c ∈ digits, isdigit c = true)
    (hm : more = [] ∨ ∃ c r, more = c :: r ∧ isdigit c = false) :
    (digits ++ more).takeWhile isdigit = digits := by
  induction digits with
  | nil =>
    rw [List.nil_append]
    rcases hm with h | ⟨c, r, h, hc⟩
    · rw [h]; rfl
    · rw [h, List.takeWhile_cons, hc]
      rfl
  | cons d ds ih =>
    rw [List.cons_append, List.takeWhile_cons, hd d (List.mem_cons_self _ _)]
    simp only [if_true]
    rw [ih (fun x hx => hd x (List.mem_cons_of_mem _ hx))]

/-- What `std::stoi` reads from digits that are followed by something else. -/
theorem stoi_digits (digits more : Str) (hne : digits ≠ [])
    (hd : ∀ c ∈ digits, isdigit c = true)
    (hm : more = [] ∨ ∃ c r, more = c :: r ∧ isdigit c = false)
    (hr : digitsValue digits 0 < 2 ^ 31) :
    stoi (digits ++ more) = some ((digitsValue digits 0 : Nat) : Int) := by
  cases digits with
  | nil => exact absurd rfl hne
  | cons d ds =>
    have hdd : isdigit d = true := hd d (List.mem_cons_self _ _)
    have hdw : (d :: ds ++ more).dropWhile isspace = d :: ds ++ more := by
      rw [List.cons_append, List.dropWhile_cons, isdigit_not_space d hdd]
      rfl
    have htw := takeWhile_digits (d :: ds) more hd hm
    have hsign : ¬ (d = '-' ∨ d = '+') :=
      fun h => h.elim (isdigit_not_sign d hdd).1 (isdigit_not_sign d hdd).2
    have hminus : decide (d = '-') = false := decide_eq_false (isdigit_not_sign d hdd).1
    have h0 : (0 : Int) ≤ ((digitsValue (d :: ds) 0 : Nat) : Int) := Int.ofNat_nonneg _
    have h1 : ((digitsValue (d :: ds) 0 : Nat) : Int) < 2 ^ 31 := by exact_mod_cast hr
    have hrange : ¬ (((digitsValue (d :: ds) 0 : Nat) : Int) < -(2 : Int) ^ 31 ∨
        ((digitsValue (d :: ds) 0 : Nat) : Int) > (2 : Int) ^ 31 - 1) := by
      omega
    unfold stoi
    simp only [hdw]
    rw [List.cons_append] at htw ⊢
    simp only [if_neg hsign, htw, hminus, Bool.false_eq_true, if_false,
      if_neg (List.cons_ne_nil d ds), if_neg hrange]

theorem stoi_space_digits (digits more : Str) (hne : digits ≠ [])
    (hd : ∀ c ∈ digits, isdigit c = true)
    (hm : more = [] ∨ ∃ c r, more = c :: r ∧ isdigit c = false)
    (hr : digitsValue digits 0 < 2 ^ 31) :
    stoi (' ' :: (digits ++ more)) = some ((digitsValue digits 0 : Nat) : Int) := by
  have h := stoi_digits digits more hne hd hm hr
  unfold stoi at h ⊢
  have : (' ' :: (digits ++ more)).dropWhile isspace = (digits ++ more).dropWhile isspace := by
    rw [List.dropWhile_cons]
    rfl
  rw [this]
  exact h

theorem sizeT_sub (j i : Nat) (h : i ≤ j) (hj : j < 2 ^ 64) :
    sizeT ((j : Int) - (i : Int)) = j - i := by
  have e : (j : Int) - (i : Int) = ((j - i : Nat) : Int) := by omega
  rw [e]
  exact sizeT_ofNat _ (by omega)

/-- The middle of a status line `VERSION SP CODE SP REASON`, from the first to the last
space, is read by `std::stoi` as the code. -/
theorem status_line_middle (version digits reason : Str) (code : Nat)
    (hv : ∀ c ∈ version, c ≠ ' ') (hne : digits ≠ []) (hd : ∀ c ∈ digits, isdigit c = true)
    (hcode : digitsValue digits 0 = code) (hr : code < 2 ^ 31)
    (hlen : (version ++ ' ' :: digits ++ ' ' :: reason).length < 2 ^ 64) :
    ∃ middle,
      substr (version ++ ' ' :: digits ++ ' ' :: reason)
        (sizeT (toInt (findFirstOf (version ++ ' ' :: digits ++ ' ' :: reason) [' '])))
        (sizeT (toInt (findLastOf (version ++ ' ' :: digits ++ ' ' :: reason) ' ') -
          toInt (findFirstOf (version ++ ' ' :: digits ++ ' ' :: reason) [' ']))) =
        some middle ∧
      stoi middle = some (code : Int) := by
  have e1 : version ++ ' ' :: digits ++ ' ' :: reason =
      version ++ ' ' :: (digits ++ ' ' :: reason) := by
    simp only [List.append_assoc, List.cons_append]
  have e2 : version ++ ' ' :: digits ++ ' ' :: reason =
      (version ++ ' ' :: digits) ++ ' ' :: reason := rfl
  have hfirst : findFirstOf (version ++ ' ' :: digits ++ ' ' :: reason) [' '] =
      some version.length := by
    rw [e1]
    exact findFirstOf_append version _ [' '] ' '
      (fun c hc hm => hv c hc (List.mem_singleton.1 hm)) (List.mem_singleton_self _)
  obtain ⟨j, hj, hj1, hj2⟩ := findLastOf_ge (version ++ ' ' :: digits) reason ' '
  rw [← e2] at hj
  have hl1 : (version ++ ' ' :: digits).length = version.length + 1 + digits.length := by
    simp only [List.length_append, List.length_cons]
    omega
  have hl2 : (version ++ ' ' :: digits ++ ' ' :: reason).length =
      version.length + 1 + digits.length + 1 + reason.length := by
    rw [e2, List.length_append, hl1]
    simp only [List.length_cons]
    omega
  rw [hl1] at hj1 hj2
  rw [hl2] at hlen
  rw [hfirst, hj]
  show ∃ middle, substr _ (sizeT (version.length : Int))
    (sizeT ((j : Int) - (version.length : Int))) = some middle ∧ _
  rw [sizeT_ofNat _ (by omega), sizeT_sub j version.length (by omega) (by omega)]
  have hpos : ¬ (version.length > (version ++ ' ' :: digits ++ ' ' :: reason).length) := by
    rw [hl2]; omega
  obtain ⟨m, hk⟩ : ∃ m, j - version.length = (' ' :: digits).length + m :=
    ⟨j - version.length - 1 - digits.length, by simp only [List.length_cons]; omega⟩
  have hdrop : (version ++ ' ' :: digits ++ ' ' :: reason).drop version.length =
      (' ' :: digits) ++ ' ' :: reason := by
    rw [e1, List.drop_left]
    rfl
  refine ⟨' ' :: (digits ++ (' ' :: reason).take m), ?_, ?_⟩
  · unfold substr
    rw [if_neg hpos, hdrop, hk, List.take_append]
    rfl
  · rw [← hcode]
    apply stoi_space_digits digits _ hne hd _ (by rw [hcode]; exact hr)
    cases m with
    | zero => exact Or.inl rfl
    | succ m => exact Or.inr ⟨' ', reason.take m, rfl, by decide⟩

/-- The first step of `parseResponse` on a header whose first line is a status line. -/
theorem extractFirstLine_status (r0 : Response) (sl rest : Str) (code : Nat)
    (hs : StatusLine sl code) (hh : r0.header = sl ++ '\r' :: rest) (hf : r0.first_line = [])
    (hlen : sl.length < 2 ^ 64) :
    Parser.extractFirstLine r0 = some { r0 with first_line := sl, status_code := (code : Int) } := by
  obtain ⟨version, digits, reason, hsl, hv, hne, hd, hcode, hr, hcr⟩ := hs
  have hu : Parser.untilCR r0.header = sl := by
    rw [hh]
    exact untilCR_append sl rest (fun c hc => (hcr c hc).1)
  obtain ⟨middle, hsub, hstoi⟩ := status_line_middle version digits reason code hv hne hd hcode hr
    (by rw [← hsl]; exact hlen)
  rw [← hsl] at hsub
  unfold Parser.extractFirstLine
  simp only [hf, hu, List.nil_append, hsub, hstoi]

/-! ## The header map of a clean header block -/

theorem mapFind_mapInsert_any {ν : Type} (m : List (Str × ν)) (k name : Str) (v : ν) :
    mapFind (mapInsert m k v) name =
      (match mapFind m name with
       | some x => some x
       | none => if k = name then some v else none) := by
  unfold mapInsert
  cases hk : mapFind m k with
  | none => exact mapFind_append_singleton m k name v
  | some y =>
    simp only
    cases hn : mapFind m name with
    | some x => rfl
    | none =>
      simp only
      have : ¬ k = name := by
        intro e
        rw [e, hn] at hk
        cases hk
      rw [if_neg this]

/-- After the header lines have been inserted, a name that was absent before is mapped to
the value of the first line that has this name. -/
theorem mapFind_insertLines (lines : List (Str × Str)) (name : Str) :
    ∀ kv : List (Str × Str), mapFind (insertLines kv lines) name =
      (match mapFind kv name with
       | some x => some x
       | none => mapFind lines name) := by
  induction lines with
  | nil =>
    intro kv
    show mapFind kv name = _
    cases mapFind kv name <;> rfl
  | cons l lines ih =>
    intro kv
    show mapFind (insertLines (mapInsert kv l.1 l.2) lines) name = _
    rw [ih, mapFind_mapInsert_any]
    cases hn : mapFind kv name with
    | some x => rfl
    | none =>
      simp only
      rw [mapFind_cons]
      by_cases h : l.1 = name
      · rw [if_pos h, if_pos h]
      · rw [if_neg h, if_neg h]

theorem mapFind_blockMap (lines : List (Str × Str)) (name : Str) (hn : name ≠ []) :
    mapFind (blockMap lines) name = mapFind lines name := by
  unfold blockMap
  rw [mapFind_mapInsert_any, mapFind_insertLines]
  have h0 : mapFind ([] : List (Str × Str)) name = none := rfl
  rw [h0]
  simp only
  cases mapFind lines name with
  | some x => rfl
  | none =>
    simp only
    rw [if_neg (fun e => hn e.symm)]

theorem blockMap_has_empty_name (lines : List (Str × Str)) :
    (mapFind (blockMap lines) []).isSome = true := by
  unfold blockMap
  rw [mapFind_mapInsert_any]
  cases mapFind (insertLines [] lines) [] with
  | some x => rfl
  | none =>
    simp only
    rfl

theorem u32_ofNat (n : Nat) (h : n < 2 ^ 32) : u32 (n : Int) = n := by
  unfold u32
  have : ((n : Int) % 2 ^ 32) = (n : Int) :=
    Int.emod_eq_of_lt (Int.ofNat_nonneg n) (by exact_mod_cast h)
  rw [this]
  rfl

theorem u32_neg_two (n : Nat) : u32 ((n : Int) - (n : Int) - 2) = 2 ^ 32 - 2 := by
  have : (n : Int) - (n : Int) - 2 = -2 := by omega
  rw [this]
  decide

/-- The second step of `parseResponse` on a clean header block. -/
theorem extractKV_block (r1 : Response) (sl : Str) (lines : List (Str × Str)) (tail : Str)
    (hh : r1.header = headerBlock sl lines tail) (hkv : r1.kv = [])
    (hsl : ∀ c ∈ sl, c ≠ '\r' ∧ c ≠ '\n')
    (hn : ∀ l ∈ lines, noSep l.1 = true) (hv : ∀ l ∈ lines, noSep l.2 = true)
    (ht : noColonSpace tail = true) (hlen : (headerBlock sl lines tail).length < 2 ^ 32) :
    Parser.extractKV r1 = some { r1 with kv := blockMap lines } := by
  have hlen' : sl.length + 2 + (renderLines lines ++ '\r' :: '\n' :: tail).length < 2 ^ 32 := by
    unfold headerBlock at hlen
    simp only [List.length_append, List.length_cons] at hlen ⊢
    omega
  have hf1 : findFirstOf r1.header ['\r', '\n'] = some sl.length := by
    rw [hh]
    exact findFirstOf_append sl _ _ '\r'
      (fun c hc hm => by
        rcases List.mem_cons.1 hm with h | h
        · exact (hsl c hc).1 h
        · exact (hsl c hc).2 (List.mem_singleton.1 h))
      (List.mem_cons_self _ _)
  have hf2 : findFirstOf r1.header ['\r', '\n', '\r', '\n'] = some sl.length := by
    rw [hh]
    exact findFirstOf_append sl _ _ '\r'
      (fun c hc hm => by
        rcases List.mem_cons.1 hm with h | h
        · exact (hsl c hc).1 h
        · rcases List.mem_cons.1 h with h | h
          · exact (hsl c hc).2 h
          · rcases List.mem_cons.1 h with h | h
            · exact (hsl c hc).1 h
            · exact (hsl c hc).2 (List.mem_singleton.1 h))
      (List.mem_cons_self _ _)
  have hu : toUnsigned (some sl.length) = sl.length := by
    show sl.length % 2 ^ 32 = sl.length
    exact Nat.mod_eq_of_lt (by omega)
  have hpos : u32 ((sl.length : Int) + 2) = sl.length + 2 := by
    have : (sl.length : Int) + 2 = ((sl.length + 2 : Nat) : Int) := by push_cast; rfl
    rw [this]
    exact u32_ofNat _ (by omega)
  have hdrop : r1.header.drop (sl.length + 2) = renderLines lines ++ '\r' :: '\n' :: tail := by
    rw [hh]
    unfold headerBlock
    have e : sl ++ '\r' :: '\n' :: (renderLines lines ++ '\r' :: '\n' :: tail) =
        (sl ++ ['\r', '\n']) ++ (renderLines lines ++ '\r' :: '\n' :: tail) := by
      simp only [List.append_assoc, List.cons_append, List.nil_append]
    rw [e]
    exact List.drop_left' (by simp only [List.length_append, List.length_cons, List.length_nil])
  have hsub : substr r1.header (sl.length + 2) (2 ^ 32 - 2) =
      some (renderLines lines ++ '\r' :: '\n' :: tail) := by
    unfold substr
    have hle : ¬ (sl.length + 2 > r1.header.length) := by
      rw [hh]
      unfold headerBlock
      simp only [List.length_append, List.length_cons]
      omega
    rw [if_neg hle, hdrop, List.take_of_length_le (by omega)]
  have hloop : Parser.extractKVLoop (renderLines lines ++ '\r' :: '\n' :: tail) [] [] [] [] =
      blockMap lines := by
    rw [extractKVLoop_lines lines _ [] hn hv, extractKVLoop_crlf,
      (pushClear_empty_data []).1, (pushClear_empty_data []).2]
    exact extractKVLoop_tail tail [] [] [] _ rfl ht (blockMap_has_empty_name lines)
  unfold Parser.extractKV
  simp only [hf1, hf2, hu, hpos, u32_neg_two, hsub, hkv, hloop]

/-! ## The steps of parseResponse -/

theorem strFindFrom_isSome_iff (pat s : Str) :
    ∀ i, (strFindFrom pat s i).isSome = true ↔ Contains s pat := by
  induction s with
  | nil =>
    intro i
    unfold strFindFrom
    by_cases hp : pat = []
    · rw [if_pos hp]
      exact ⟨fun _ => ⟨[], [], by rw [hp]; rfl⟩, fun _ => rfl⟩
    · rw [if_neg hp]
      refine ⟨fun h => (by cases h), fun h => ?_⟩
      obtain ⟨a, b, e⟩ := h
      have hl := congrArg List.length e
      simp only [List.length_nil, List.length_append] at hl
      have : pat.length = 0 := by omega
      exact absurd (List.length_eq_zero.1 this) hp
  | cons c t ih =>
    intro i
    unfold strFindFrom
    by_cases hp : pat.isPrefixOf (c :: t) = true
    · rw [if_pos hp]
      obtain ⟨b, hb⟩ := List.isPrefixOf_iff_prefix.1 hp
      exact ⟨fun _ => ⟨[], b, by rw [List.nil_append, hb]⟩, fun _ => rfl⟩
    · rw [if_neg hp, ih (i + 1)]
      constructor
      · rintro ⟨a, b, e⟩
        exact ⟨c :: a, b, by rw [e]; rfl⟩
      · rintro ⟨a, b, e⟩
        cases a with
        | nil =>
          exfalso
          apply hp
          exact List.isPrefixOf_iff_prefix.2 ⟨b, by rw [e]; rfl⟩
        | cons x a' =>
          rw [List.cons_append, List.cons_append] at e
          exact ⟨a', b, (List.cons.inj e).2⟩

/-- The search `s.find(pat)` succeeds exactly when `pat` occurs in `s`. -/
theorem strFind_isSome_iff (s pat : Str) : (strFind s pat).isSome = true ↔ Contains s pat :=
  strFindFrom_isSome_iff pat s 0

theorem strFind_eq_none_iff (s pat : Str) : strFind s pat = none ↔ ¬ Contains s pat := by
  rw [← strFind_isSome_iff]
  cases strFind s pat with
  | none => exact ⟨fun _ h => (by cases h), fun _ => rfl⟩
  | some x => exact ⟨fun h => (by cases h), fun h => absurd rfl h⟩

/-- On a clean header block the first two steps of `parseResponse` succeed. -/
theorem parseResponse_clean (mktimeOf : Str → Int) (url : Str) (segment : List Str)
    (sl : Str) (code : Nat) (lines : List (Str × Str)) (tail : Str) (now : Int)
    (hb : CleanBlock sl code lines tail) :
    Parser.parseResponse mktimeOf (Response.new url segment (headerBlock sl lines tail) now) =
      (match Parser.calcExpiration
          (Parser.extractAttri (parsedHead url segment sl code lines tail now)) with
       | none => none
       | some r3 => some (Parser.extractLastModified mktimeOf r3)) := by
  have hcr : ∀ c ∈ sl, c ≠ '\r' ∧ c ≠ '\n' := by
    obtain ⟨_, _, _, _, _, _, _, _, _, h⟩ := hb.status
    exact h
  have hshort := hb.short
  have hsl : sl.length < 2 ^ 64 := by
    unfold headerBlock at hshort
    simp only [List.length_append, List.length_cons] at hshort
    omega
  have h1 := extractFirstLine_status
    (Response.new url segment (headerBlock sl lines tail) now) sl
    ('\n' :: (renderLines lines ++ '\r' :: '\n' :: tail)) code hb.status rfl rfl hsl
  have h2 := extractKV_block
    { Response.new url segment (headerBlock sl lines tail) now with
      first_line := sl, status_code := (code : Int) }
    sl lines tail rfl rfl hcr hb.names hb.values hb.rest
    (Nat.lt_trans hb.short (by decide))
  unfold Parser.parseResponse
  rw [h1]
  simp only
  rw [h2]
  rfl

theorem extractAttri_fields (r : Response) :
    (Parser.extractAttri r).kv = r.kv ∧ (Parser.extractAttri r).cur_time = r.cur_time ∧
      (Parser.extractAttri r).status_code = r.status_code := by
  unfold Parser.extractAttri
  cases mapFind r.kv "Cache-Control".toList with
  | none =>
    simp only
    cases mapFind r.kv "ETag".toList with
    | none => exact ⟨rfl, rfl, rfl⟩
    | some e => exact ⟨rfl, rfl, rfl⟩
  | some v =>
    simp only
    by_cases h1 : (strFind v "no-store".toList).isSome = true
    · by_cases h2 : (strFind v "no-cache".toList).isSome = true
      · rw [if_pos h1, if_pos h2]
        simp only
        cases mapFind r.kv "ETag".toList with
        | none => exact ⟨rfl, rfl, rfl⟩
        | some e => exact ⟨rfl, rfl, rfl⟩
      · rw [if_pos h1, if_neg h2]
        simp only
        cases mapFind r.kv "ETag".toList with
        | none => exact ⟨rfl, rfl, rfl⟩
        | some e => exact ⟨rfl, rfl, rfl⟩
    · by_cases h2 : (strFind v "no-cache".toList).isSome = true
      · rw [if_neg h1, if_pos h2]
        simp only
        cases mapFind r.kv "ETag".toList with
        | none => exact ⟨rfl, rfl, rfl⟩
        | some e => exact ⟨rfl, rfl, rfl⟩
      · rw [if_neg h1, if_neg h2]
        cases mapFind r.kv "ETag".toList with
        | none => exact ⟨rfl, rfl, rfl⟩
        | some e => exact ⟨rfl, rfl, rfl⟩

/-- The flags after `extractAttri`, for a response whose flags were still false. -/
theorem extractAttri_flags (r : Response) (hs : r.no_store = false) (hc : r.no_cache = false) :
    ((Parser.extractAttri r).no_store = true ↔
        ∃ v, mapFind r.kv "Cache-Control".toList = some v ∧ Contains v "no-store".toList) ∧
      ((Parser.extractAttri r).no_cache = true ↔
        ∃ v, mapFind r.kv "Cache-Control".toList = some v ∧ Contains v "no-cache".toList) := by
  unfold Parser.extractAttri
  cases hcc : mapFind r.kv "Cache-Control".toList with
  | none =>
    simp only
    have hflags : ∀ r' : Response, r'.no_store = r.no_store → r'.no_cache = r.no_cache →
        (r'.no_store = true ↔ ∃ v, (none : Option Str) = some v ∧ Contains v "no-store".toList) ∧
        (r'.no_cache = true ↔ ∃ v, (none : Option Str) = some v ∧ Contains v "no-cache".toList) := by
      intro r' e1 e2
      rw [e1, e2, hs, hc]
      exact ⟨⟨fun h => (by cases h), fun ⟨_, h, _⟩ => (by cases h)⟩,
        ⟨fun h => (by cases h), fun ⟨_, h, _⟩ => (by cases h)⟩⟩
    cases mapFind r.kv "ETag".toList with
    | none => exact hflags _ rfl rfl
    | some e => exact hflags _ rfl rfl
  | some v =>
    simp only
    have hflags : ∀ r' : Response,
        r'.no_store = (if (strFind v "no-store".toList).isSome = true then true else false) →
        r'.no_cache = (if (strFind v "no-cache".toList).isSome = true then true else false) →
        (r'.no_store = true ↔ ∃ v', some v = some v' ∧ Contains v' "no-store".toList) ∧
        (r'.no_cache = true ↔ ∃ v', some v = some v' ∧ Contains v' "no-cache".toList) := by
      intro r' e1 e2
      rw [e1, e2]
      constructor
      · by_cases h1 : (strFind v "no-store".toList).isSome = true
        · rw [if_pos h1]
          exact ⟨fun _ => ⟨v, rfl, (strFind_isSome_iff _ _).1 h1⟩, fun _ => rfl⟩
        · rw [if_neg h1]
          refine ⟨fun h => (by cases h), fun ⟨v', e, hcont⟩ => ?_⟩
          cases e
          exact absurd ((strFind_isSome_iff _ _).2 hcont) h1
      · by_cases h2 : (strFind v "no-cache".toList).isSome = true
        · rw [if_pos h2]
          exact ⟨fun _ => ⟨v, rfl, (strFind_isSome_iff _ _).1 h2⟩, fun _ => rfl⟩
        · rw [if_neg h2]
          refine ⟨fun h => (by cases h), fun ⟨v', e, hcont⟩ => ?_⟩
          cases e
          exact absurd ((strFind_isSome_iff _ _).2 hcont) h2
    by_cases h1 : (strFind v "no-store".toList).isSome = true
    · by_cases h2 : (strFind v "no-cache".toList).isSome = true
      · rw [if_pos h1, if_pos h2]
        simp only
        cases mapFind r.kv "ETag".toList with
        | none => exact hflags _ (by rw [if_pos h1]) (by rw [if_pos h2])
        | some e => exact hflags _ (by rw [if_pos h1]) (by rw [if_pos h2])
      · rw [if_pos h1, if_neg h2]
        simp only
        cases mapFind r.kv "ETag".toList with
        | none => exact hflags _ (by rw [if_pos h1]) (by rw [if_neg h2]; exact hc)
        | some e => exact hflags _ (by rw [if_pos h1]) (by rw [if_neg h2]; exact hc)
    · by_cases h2 : (strFind v "no-cache".toList).isSome = true
      · rw [if_neg h1, if_pos h2]
        simp only
        cases mapFind r.kv "ETag".toList with
        | none => exact hflags _ (by rw [if_neg h1]; exact hs) (by rw [if_pos h2])
        | some e => exact hflags _ (by rw [if_neg h1]; exact hs) (by rw [if_pos h2])
      · rw [if_neg h1, if_neg h2]
        cases mapFind r.kv "ETag".toList with
        | none => exact hflags _ (by rw [if_neg h1]; exact hs) (by rw [if_neg h2]; exact hc)
        | some e => exact hflags _ (by rw [if_neg h1]; exact hs) (by rw [if_neg h2]; exact hc)

/-! ## calcExpiration -/

theorem wrapInt_ofNat (n : Nat) (h : n < 2 ^ 31) : Parser.wrapInt (n : Int) = n := by
  unfold Parser.wrapInt
  omega

theorem wrapInt_neg_one : Parser.wrapInt (-1) = -1 := by
  decide

theorem strFindFrom_le (pat : Str) (s : Str) :
    ∀ (i j : Nat), strFindFrom pat s i = some j → j ≤ i + s.length := by
  induction s with
  | nil =>
    intro i j h
    unfold strFindFrom at h
    by_cases hp : pat = []
    · rw [if_pos hp] at h
      cases h
      exact Nat.le_add_right _ _
    · rw [if_neg hp] at h
      cases h
  | cons c t ih =>
    intro i j h
    unfold strFindFrom at h
    by_cases hp : pat.isPrefixOf (c :: t) = true
    · rw [if_pos hp] at h
      cases h
      exact Nat.le_add_right _ _
    · rw [if_neg hp] at h
      have := ih (i + 1) j h
      rw [List.length_cons]
      omega

theorem strFind_le (s pat : Str) (idx : Nat) (h : strFind s pat = some idx) :
    idx ≤ s.length := by
  have := strFindFrom_le pat s 0 idx h
  omega

theorem stoi_nil : stoi [] = none := by
  decide

/-- Without a `Cache-Control` entry `calcExpiration` adds nothing to `cur_time`. -/
theorem calcExpiration_no_cache_control (r : Response)
    (h : mapFind r.kv "Cache-Control".toList = none) :
    Parser.calcExpiration r = some { r with expiration_time := r.cur_time + 0 } := by
  unfold Parser.calcExpiration
  rw [h]

/-- Without `max-age` in the `Cache-Control` value `calcExpiration` adds nothing. -/
theorem calcExpiration_no_max_age (r : Response) (v : Str)
    (h : mapFind r.kv "Cache-Control".toList = some v)
    (hm : strFind v "max-age".toList = none) :
    Parser.calcExpiration r = some { r with expiration_time := r.cur_time + 0 } := by
  unfold Parser.calcExpiration
  rw [h]
  simp only
  rw [hm]
  have : Parser.wrapInt (toInt none) = -1 := by decide
  rw [this, if_neg (fun hne => hne rfl)]

/-- With `max-age` at index `idx` of the `Cache-Control` value, `calcExpiration` hands the
text from index `idx + 8` on to `std::stoi`. -/
theorem calcExpiration_max_age (r : Response) (v : Str) (idx : Nat)
    (h : mapFind r.kv "Cache-Control".toList = some v)
    (hm : strFind v "max-age".toList = some idx)
    (hlen : v.length + 8 < 2 ^ 31) :
    Parser.calcExpiration r =
      (match stoi (v.drop (idx + 8)) with
       | none => none
       | some n => some { r with expiration_time := r.cur_time + n }) := by
  have hle := strFind_le v _ idx hm
  have hidx : Parser.wrapInt (toInt (some idx)) = (idx : Int) := by
    show Parser.wrapInt (idx : Int) = _
    exact wrapInt_ofNat idx (by omega)
  have hidx8 : sizeT (Parser.wrapInt ((idx : Int) + 8)) = idx + 8 := by
    have e : ((idx : Int) + 8) = ((idx + 8 : Nat) : Int) := by push_cast; rfl
    rw [e, wrapInt_ofNat (idx + 8) (by omega), sizeT_ofNat (idx + 8) (by omega)]
  unfold Parser.calcExpiration
  rw [h]
  simp only
  rw [hm, hidx, hidx8]
  have hne : ((idx : Int) ≠ -1) := by omega
  rw [if_pos hne]
  unfold substrFrom
  by_cases hgt : idx + 8 > v.length
  · rw [if_pos hgt]
    have : v.drop (idx + 8) = [] := List.drop_eq_nil_of_le (by omega)
    rw [this, stoi_nil]
  · rw [if_neg hgt]

theorem calcExpiration_fields (r r3 : Response) (h : Parser.calcExpiration r = some r3) :
    r3.kv = r.kv ∧ r3.cur_time = r.cur_time ∧ r3.status_code = r.status_code ∧
      r3.no_store = r.no_store ∧ r3.no_cache = r.no_cache := by
  unfold Parser.calcExpiration at h
  cases hcc : mapFind r.kv "Cache-Control".toList with
  | none =>
    rw [hcc] at h
    cases h
    exact ⟨rfl, rfl, rfl, rfl, rfl⟩
  | some v =>
    rw [hcc] at h
    simp only at h
    by_cases hne : Parser.wrapInt (toInt (strFind v "max-age".toList)) ≠ -1
    · rw [if_pos hne] at h
      cases hs : substrFrom v (sizeT (Parser.wrapInt (Parser.wrapInt (toInt (strFind v "max-age".toList)) + 8))) with
      | none => rw [hs] at h; cases h
      | some t =>
        rw [hs] at h
        simp only at h
        cases hn : stoi t with
        | none => rw [hn] at h; cases h
        | some n =>
          rw [hn] at h
          cases h
          exact ⟨rfl, rfl, rfl, rfl, rfl⟩
    · rw [if_neg hne] at h
      cases h
      exact ⟨rfl, rfl, rfl, rfl, rfl⟩

theorem extractLastModified_fields (mktimeOf : Str → Int) (r : Response) :
    (Parser.extractLastModified mktimeOf r).kv = r.kv ∧
      (Parser.extractLastModified mktimeOf r).cur_time = r.cur_time ∧
      (Parser.extractLastModified mktimeOf r).expiration_time = r.expiration_time ∧
      (Parser.extractLastModified mktimeOf r).status_code = r.status_code ∧
      (Parser.extractLastModified mktimeOf r).no_store = r.no_store ∧
      (Parser.extractLastModified mktimeOf r).no_cache = r.no_cache := by
  unfold Parser.extractLastModified
  cases mapFind r.kv "Last-Modified".toList with
  | none => exact ⟨rfl, rfl, rfl, rfl, rfl, rfl⟩
  | some t => exact ⟨rfl, rfl, rfl, rfl, rfl, rfl⟩

/-- A successful `parseResponse` ends with `calcExpiration` and `extractLastModified` on a
response that holds the final header map. -/
theorem parseResponse_some (mktimeOf : Str → Int) (r r4 : Response)
    (h : Parser.parseResponse mktimeOf r = some r4) :
    ∃ r2 r3, Parser.calcExpiration r2 = some r3 ∧
      r4 = Parser.extractLastModified mktimeOf r3 ∧ r2.kv = r4.kv ∧ r2.cur_time = r4.cur_time := by
  unfold Parser.parseResponse at h
  cases h1 : Parser.extractFirstLine r with
  | none => rw [h1] at h; cases h
  | some r1 =>
    rw [h1] at h
    simp only at h
    cases h2 : Parser.extractKV r1 with
    | none => rw [h2] at h; cases h
    | some r2 =>
      rw [h2] at h
      simp only at h
      cases h3 : Parser.calcExpiration (Parser.extractAttri r2) with
      | none => rw [h3] at h; cases h
      | some r3 =>
        rw [h3] at h
        simp only at h
        have e : r4 = Parser.extractLastModified mktimeOf r3 := (Option.some.inj h).symm
        have f3 := calcExpiration_fields _ _ h3
        have f4 := extractLastModified_fields mktimeOf r3
        refine ⟨Parser.extractAttri r2, r3, h3, e, ?_, ?_⟩
        · rw [e, f4.1, f3.1]
        · rw [e, f4.2.1, f3.2.1]

/-! ## parseResponse on clean header blocks -/

theorem mapFind_mem {ν : Type} (m : List (Str × ν)) (k : Str) (v : ν)
    (h : mapFind m k = some v) : ∃ l ∈ m, l.1 = k ∧ l.2 = v := by
  induction m with
  | nil => cases h
  | cons p rest ih =>
    rw [mapFind_cons] at h
    by_cases hp : p.1 = k
    · rw [if_pos hp] at h
      exact ⟨p, List.mem_cons_self _ _, hp, Option.some.inj h⟩
    · rw [if_neg hp] at h
      obtain ⟨l, hl, e⟩ := ih h
      exact ⟨l, List.mem_cons_of_mem _ hl, e⟩

theorem renderLines_length_ge (lines : List (Str × Str)) (l : Str × Str) (h : l ∈ lines) :
    l.2.length + 4 ≤ (renderLines lines).length := by
  induction lines with
  | nil => cases h
  | cons p rest ih =>
    unfold renderLines
    simp only [List.length_append, List.length_cons]
    rcases List.mem_cons.1 h with e | hr
    · rw [e]
      omega
    · have := ih hr
      omega

/-- A header value of a block is at least eight characters shorter than the block. -/
theorem value_fits (sl : Str) (lines : List (Str × Str)) (tail k v : Str)
    (h : mapFind lines k = some v) (hs : (headerBlock sl lines tail).length < 2 ^ 31) :
    v.length + 8 < 2 ^ 31 := by
  obtain ⟨l, hl, _, e⟩ := mapFind_mem lines k v h
  have h1 := renderLines_length_ge lines l hl
  rw [e] at h1
  unfold headerBlock at hs
  simp only [List.length_append, List.length_cons] at hs
  omega

theorem parsedHead_find (url : Str) (segment : List Str) (sl : Str) (code : Nat)
    (lines : List (Str × Str)) (tail : Str) (now : Int) (name : Str) (hn : name ≠ []) :
    mapFind (Parser.extractAttri (parsedHead url segment sl code lines tail now)).kv name =
      mapFind lines name := by
  rw [(extractAttri_fields _).1]
  exact mapFind_blockMap lines name hn

theorem cacheControl_ne_nil : "Cache-Control".toList ≠ [] := by
  decide

/-- On a clean block without `max-age` in the first `Cache-Control` value the parse
succeeds and adds nothing to `cur_time`. -/
theorem clean_parse_plain (mktimeOf : Str → Int) (url : Str) (segment : List Str)
    (sl : Str) (code : Nat) (lines : List (Str × Str)) (tail : Str) (now : Int)
    (hb : CleanBlock sl code lines tail)
    (h : mapFind lines "Cache-Control".toList = none ∨
      ∃ v, mapFind lines "Cache-Control".toList = some v ∧ strFind v "max-age".toList = none) :
    Parser.parseResponse mktimeOf (Response.new url segment (headerBlock sl lines tail) now) =
      some (Parser.extractLastModified mktimeOf
        { Parser.extractAttri (parsedHead url segment sl code lines tail now) with
          expiration_time :=
            (Parser.extractAttri (parsedHead url segment sl code lines tail now)).cur_time + 0 }) := by
  rw [parseResponse_clean mktimeOf url segment sl code lines tail now hb]
  have hf := parsedHead_find url segment sl code lines tail now _ cacheControl_ne_nil
  rcases h with h | ⟨v, h, hm⟩
  · rw [calcExpiration_no_cache_control _ (hf.trans h)]
  · rw [calcExpiration_no_max_age _ v (hf.trans h) hm]

/-- On a clean block with `max-age` at index `idx` of the first `Cache-Control` value the
parse depends on what `std::stoi` reads from index `idx + 8` on. -/
theorem clean_parse_max_age (mktimeOf : Str → Int) (url : Str) (segment : List Str)
    (sl : Str) (code : Nat) (lines : List (Str × Str)) (tail : Str) (now : Int)
    (hb : CleanBlock sl code lines tail) (v : Str) (idx : Nat)
    (h : mapFind lines "Cache-Control".toList = some v)
    (hm : strFind v "max-age".toList = some idx) :
    Parser.parseResponse mktimeOf (Response.new url segment (headerBlock sl lines tail) now) =
      (match stoi (v.drop (idx + 8)) with
       | none => none
       | some n => some (Parser.extractLastModified mktimeOf
          { Parser.extractAttri (parsedHead url segment sl code lines tail now) with
            expiration_time :=
              (Parser.extractAttri (parsedHead url segment sl code lines tail now)).cur_time + n })) := by
  rw [parseResponse_clean mktimeOf url segment sl code lines tail now hb]
  have hf := parsedHead_find url segment sl code lines tail now _ cacheControl_ne_nil
  rw [calcExpiration_max_age _ v idx (hf.trans h) hm (value_fits sl lines tail _ v h hb.short)]
  cases stoi (v.drop (idx + 8)) with
  | none => rfl
  | some n => rfl

/-- The fields of the response that a successful parse of a clean block returns. -/
theorem clean_final_fields (mktimeOf : Str → Int) (url : Str) (segment : List Str)
    (sl : Str) (code : Nat) (lines : List (Str × Str)) (tail : Str) (now : Int) (x : Int)
    (r : Response)
    (hr : r = Parser.extractLastModified mktimeOf
      { Parser.extractAttri (parsedHead url segment sl code lines tail now) with
        expiration_time := x }) :
    r.kv = blockMap lines ∧ r.cur_time = now ∧ r.expiration_time = x ∧
      r.status_code = (code : Int) ∧
      (r.no_store = true ↔
        ∃ v, mapFind lines "Cache-Control".toList = some v ∧ Contains v "no-store".toList) ∧
      (r.no_cache = true ↔
        ∃ v, mapFind lines "Cache-Control".toList = some v ∧ Contains v "no-cache".toList) := by
  have f4 := extractLastModified_fields mktimeOf
    { Parser.extractAttri (parsedHead url segment sl code lines tail now) with
      expiration_time := x }
  have fa := extractAttri_fields (parsedHead url segment sl code lines tail now)
  have fl := extractAttri_flags (parsedHead url segment sl code lines tail now) rfl rfl
  have hk : mapFind (parsedHead url segment sl code lines tail now).kv "Cache-Control".toList =
      mapFind lines "Cache-Control".toList := mapFind_blockMap lines _ cacheControl_ne_nil
  rw [hk] at fl
  rw [hr]
  refine ⟨?_, ?_, ?_, ?_, ?_, ?_⟩
  · rw [f4.1]; exact fa.1
  · rw [f4.2.1]; exact fa.2.1
  · rw [f4.2.2.1]
  · rw [f4.2.2.2.1]; exact fa.2.2
  · rw [f4.2.2.2.2.1]; exact fl.1
  · rw [f4.2.2.2.2.2]; exact fl.2

theorem parsedHead_cur_time (url : Str) (segment : List Str) (sl : Str) (code : Nat)
    (lines : List (Str × Str)) (tail : Str) (now : Int) :
    (Parser.extractAttri (parsedHead url segment sl code lines tail now)).cur_time = now :=
  (extractAttri_fields _).2.1

/-! ## Sample blocks -/

theorem statusOk_line : StatusLine statusOk 200 :=
  ⟨"HTTP/1.1".toList, "200".toList, "OK".toList, by decide, by decide, by decide, by decide,
    by decide, by decide, by decide⟩

theorem headerMaxAge60_block : headerMaxAge60 = headerBlock statusOk linesMaxAge60 [] := by
  decide

theorem headerPlain_block : headerPlain = headerBlock statusOk linesPlain [] := by
  decide

theorem headerNoStore_block : headerNoStore = headerBlock statusOk linesNoStore [] := by
  decide

theorem headerTwoETags_block : headerTwoETags = headerBlock statusOk linesTwoETags [] := by
  decide

theorem headerBadMaxAge_block : headerBadMaxAge = headerBlock statusOk linesBadMaxAge [] := by
  decide

theorem linesMaxAge60_clean : CleanBlock statusOk 200 linesMaxAge60 [] :=
  ⟨statusOk_line, by decide, by decide, by decide, by decide⟩

theorem linesPlain_clean : CleanBlock statusOk 200 linesPlain [] :=
  ⟨statusOk_line, by decide, by decide, by decide, by decide⟩

theorem linesNoStore_clean : CleanBlock statusOk 200 linesNoStore [] :=
  ⟨statusOk_line, by decide, by decide, by decide, by decide⟩

theorem linesTwoETags_clean : CleanBlock statusOk 200 linesTwoETags [] :=
  ⟨statusOk_line, by decide, by decide, by decide, by decide⟩

theorem linesBadMaxAge_clean : CleanBlock statusOk 200 linesBadMaxAge [] :=
  ⟨statusOk_line, by decide, by decide, by decide, by decide⟩

theorem drop_max_age (pre rest : Str) :
    (pre ++ ("max-age=".toList ++ rest)).drop (pre.length + 8) = rest := by
  rw [List.drop_append]
  rfl

/-- Every response that a parse of a clean block returns is the parsed head with its
attributes, an expiration time and a modification time. -/
theorem clean_parse_some (mktimeOf : Str → Int) (url : Str) (segment : List Str)
    (sl : Str) (code : Nat) (lines : List (Str × Str)) (tail : Str) (now : Int)
    (hb : CleanBlock sl code lines tail) (r : Response)
    (hr : Parser.parseResponse mktimeOf
      (Response.new url segment (headerBlock sl lines tail) now) = some r) :
    ∃ x, r = Parser.extractLastModified mktimeOf
      { Parser.extractAttri (parsedHead url segment sl code lines tail now) with
        expiration_time := x } := by
  cases hcc : mapFind lines "Cache-Control".toList with
  | none =>
    rw [clean_parse_plain mktimeOf url segment sl code lines tail now hb (Or.inl hcc)] at hr
    exact ⟨_, (Option.some.inj hr).symm⟩
  | some v =>
    cases hm : strFind v "max-age".toList with
    | none =>
      rw [clean_parse_plain mktimeOf url segment sl code lines tail now hb
        (Or.inr ⟨v, hcc, hm⟩)] at hr
      exact ⟨_, (Option.some.inj hr).symm⟩
    | some idx =>
      rw [clean_parse_max_age mktimeOf url segment sl code lines tail now hb v idx hcc hm]
        at hr
      cases hn : stoi (v.drop (idx + 8)) with
      | none => rw [hn] at hr; cases hr
      | some n =>
        rw [hn] at hr
        exact ⟨_, (Option.some.inj hr).symm⟩

/-! ## C13: max-age and the expiration time -/

/-- C13 as stated fails: the block has two `Cache-Control` lines and the second one carries
`max-age=60`; the header map keeps the value of the first line only, so the response parsed
at time 1000 expires at time 1000, not at 1060. -/
theorem max_age_of_second_line_is_not_read :
    (Parser.parseResponse mktimeZero (arrived headerMaxAgeSecond)).map
        (fun r => (r.cur_time, r.expiration_time, mapFind r.kv "Cache-Control".toList)) =
      some (1000, 1000, some "public".toList) := by
  decide

/-- C13, as the code has it: on a clean header block (a status line with a decimal code,
names and values without line end or colon-space, fewer than `2^31` characters), when the
value of the first `Cache-Control` line is `pre ++ "max-age=" ++ digits ++ post`, this being
the first place of `max-age` in it, with `digits` a non-empty run of decimal digits of value
below `2^31` that `post` does not continue, `parseResponse` succeeds with
`expiration_time = cur_time + N`; when there is no `Cache-Control` line, or the value of the
first one does not contain `max-age`, it succeeds with `expiration_time = cur_time`. -/
theorem first_cache_control_max_age_sets_expiration (mktimeOf : Str → Int) (url : Str)
    (segment : List Str) (sl : Str) (code : Nat) (lines : List (Str × Str)) (tail : Str)
    (now : Int) (hb : CleanBlock sl code lines tail) :
    (∀ pre digits post : Str,
        mapFind lines "Cache-Control".toList =
          some (pre ++ ("max-age=".toList ++ (digits ++ post))) →
        strFind (pre ++ ("max-age=".toList ++ (digits ++ post))) "max-age".toList =
          some pre.length →
        digits ≠ [] → (∀ c ∈ digits, isdigit c = true) →
        (post = [] ∨ ∃ c r, post = c :: r ∧ isdigit c = false) →
        digitsValue digits 0 < 2 ^ 31 →
        ∃ r, Parser.parseResponse mktimeOf
              (Response.new url segment (headerBlock sl lines tail) now) = some r ∧
          r.cur_time = now ∧ r.expiration_time = now + (digitsValue digits 0 : Nat)) ∧
      ((mapFind lines "Cache-Control".toList = none ∨
          ∃ v, mapFind lines "Cache-Control".toList = some v ∧ ¬ Contains v "max-age".toList) →
        ∃ r, Parser.parseResponse mktimeOf
              (Response.new url segment (headerBlock sl lines tail) now) = some r ∧
          r.cur_time = now ∧ r.expiration_time = now) := by
  constructor
  · intro pre digits post hcc hfind hne hd hpost hr
    have hp := clean_parse_max_age mktimeOf url segment sl code lines tail now hb _ _ hcc hfind
    rw [drop_max_age, stoi_digits digits post hne hd hpost hr] at hp
    have hf := clean_final_fields mktimeOf url segment sl code lines tail now
      ((Parser.extractAttri (parsedHead url segment sl code lines tail now)).cur_time +
        ((digitsValue digits 0 : Nat) : Int)) _ rfl
    refine ⟨_, hp, hf.2.1, ?_⟩
    rw [hf.2.2.1, parsedHead_cur_time]
  · intro h
    have h' : mapFind lines "Cache-Control".toList = none ∨
        ∃ v, mapFind lines "Cache-Control".toList = some v ∧
          strFind v "max-age".toList = none := by
      rcases h with h | ⟨v, h, hm⟩
      · exact Or.inl h
      · exact Or.inr ⟨v, h, (strFind_eq_none_iff _ _).2 hm⟩
    have hp := clean_parse_plain mktimeOf url segment sl code lines tail now hb h'
    have hf := clean_final_fields mktimeOf url segment sl code lines tail now
      ((Parser.extractAttri (parsedHead url segment sl code lines tail now)).cur_time + 0) _ rfl
    refine ⟨_, hp, hf.2.1, ?_⟩
    rw [hf.2.2.1, parsedHead_cur_time, Int.add_zero]

/-- Witness of C13 as the code has it: the block with `Cache-Control: public, max-age=60`
parsed at time 1000 expires at 1060, and the block without `Cache-Control` at 1000. -/
theorem first_cache_control_max_age_sets_expiration_witness :
    (CleanBlock statusOk 200 linesMaxAge60 [] ∧
      ∃ r, Parser.parseResponse mktimeZero
          (Response.new urlA [] (headerBlock statusOk linesMaxAge60 []) 1000) = some r ∧
        r.cur_time = 1000 ∧ r.expiration_time = 1000 + (digitsValue "60".toList 0 : Nat)) ∧
    (CleanBlock statusOk 200 linesPlain [] ∧
      ∃ r, Parser.parseResponse mktimeZero
          (Response.new urlA [] (headerBlock statusOk linesPlain []) 1000) = some r ∧
        r.cur_time = 1000 ∧ r.expiration_time = 1000) :=
  ⟨⟨linesMaxAge60_clean,
      (first_cache_control_max_age_sets_expiration mktimeZero urlA [] statusOk 200
        linesMaxAge60 [] 1000 linesMaxAge60_clean).1 "public, ".toList "60".toList []
        (by decide) (by decide) (by decide) (by decide) (Or.inl rfl) (by decide)⟩,
    ⟨linesPlain_clean,
      (first_cache_control_max_age_sets_expiration mktimeZero urlA [] statusOk 200
        linesPlain [] 1000 linesPlain_clean).2 (Or.inl (by decide))⟩⟩

/-! ## C14: no-store and no-cache -/

/-- C14 as stated fails: the block has two `Cache-Control` lines and the second one carries
`no-store, no-cache`; the header map keeps the value of the first line only, and both flags
stay false. -/
theorem flags_of_second_line_are_not_read :
    (Parser.parseResponse mktimeZero (arrived headerNoStoreSecond)).map
        (fun r => (r.no_store, r.no_cache, mapFind r.kv "Cache-Control".toList)) =
      some (false, false, some "public".toList) := by
  decide

/-- C14, as the code has it: on a clean header block (a status line with a decimal code,
names and values without line end or colon-space, no colon-space after the blank line,
fewer than `2^31` characters), every response that `parseResponse` returns has `no_store`
true exactly when the value of the first `Cache-Control` line contains `no-store`, and
`no_cache` true exactly when that value contains `no-cache`; both are false when the block
has no `Cache-Control` line; and `parseResponse` does return a response when that value
does not contain `max-age`. -/
theorem flags_follow_first_cache_control (mktimeOf : Str → Int) (url : Str)
    (segment : List Str) (sl : Str) (code : Nat) (lines : List (Str × Str)) (tail : Str)
    (now : Int) (hb : CleanBlock sl code lines tail) :
    (∀ r, Parser.parseResponse mktimeOf
          (Response.new url segment (headerBlock sl lines tail) now) = some r →
        (r.no_store = true ↔
          ∃ v, mapFind lines "Cache-Control".toList = some v ∧ Contains v "no-store".toList) ∧
        (r.no_cache = true ↔
          ∃ v, mapFind lines "Cache-Control".toList = some v ∧ Contains v "no-cache".toList) ∧
        (mapFind lines "Cache-Control".toList = none →
          r.no_store = false ∧ r.no_cache = false)) ∧
      ((∀ v, mapFind lines "Cache-Control".toList = some v → ¬ Contains v "max-age".toList) →
        ∃ r, Parser.parseResponse mktimeOf
          (Response.new url segment (headerBlock sl lines tail) now) = some r) := by
  constructor
  · intro r hr
    obtain ⟨x, hx⟩ := clean_parse_some mktimeOf url segment sl code lines tail now hb r hr
    have hf := clean_final_fields mktimeOf url segment sl code lines tail now x r hx
    refine ⟨hf.2.2.2.2.1, hf.2.2.2.2.2, ?_⟩
    intro hnone
    constructor
    · cases hs : r.no_store with
      | false => rfl
      | true =>
        obtain ⟨v, hv, _⟩ := hf.2.2.2.2.1.1 hs
        rw [hnone] at hv
        cases hv
    · cases hs : r.no_cache with
      | false => rfl
      | true =>
        obtain ⟨v, hv, _⟩ := hf.2.2.2.2.2.1 hs
        rw [hnone] at hv
        cases hv
  · intro h
    have h' : mapFind lines "Cache-Control".toList = none ∨
        ∃ v, mapFind lines "Cache-Control".toList = some v ∧
          strFind v "max-age".toList = none := by
      cases hcc : mapFind lines "Cache-Control".toList with
      | none => exact Or.inl rfl
      | some v => exact Or.inr ⟨v, rfl, (strFind_eq_none_iff _ _).2 (h v hcc)⟩
    exact ⟨_, clean_parse_plain mktimeOf url segment sl code lines tail now hb h'⟩

/-- Witness of C14 as the code has it: the block with `Cache-Control: no-store` is parsed,
and the response has `no_store` true because the value contains `no-store`. -/
theorem flags_follow_first_cache_control_witness :
    CleanBlock statusOk 200 linesNoStore [] ∧
      Parser.parseResponse mktimeZero
          (Response.new urlA [] (headerBlock statusOk linesNoStore []) 1000) =
        some (arrivedNoStore) ∧
      (arrivedNoStore.no_store = true ↔
        ∃ v, mapFind linesNoStore "Cache-Control".toList = some v ∧
          Contains v "no-store".toList) :=
  ⟨linesNoStore_clean, by decide,
    ((flags_follow_first_cache_control mktimeZero urlA [] statusOk 200 linesNoStore [] 1000
      linesNoStore_clean).1 arrivedNoStore (by decide)).1⟩

/-! ## C15: two header lines with one name -/

theorem mapFind_first {ν : Type} (before after : List (Str × ν)) (name : Str) (value : ν)
    (hfirst : ∀ l ∈ before, l.1 ≠ name) :
    mapFind (before ++ (name, value) :: after) name = some value := by
  induction before with
  | nil =>
    rw [List.nil_append, mapFind_cons, if_pos rfl]
  | cons p rest ih =>
    rw [List.cons_append, mapFind_cons, if_neg (hfirst p (List.mem_cons_self _ _))]
    exact ih (fun l hl => hfirst l (List.mem_cons_of_mem _ hl))

/-- C15 as stated fails: the block has the lines `ETag: v1` and `ETag: v2`, in this order;
the header map holds `v1` under `ETag`, the value of the earlier line, and `v1` is the entity
tag of the parsed response. -/
theorem later_duplicate_is_dropped :
    (Parser.parseResponse mktimeZero (arrived headerTwoETags)).map
        (fun r => (r.kv, mapFind r.kv "ETag".toList, r.etag)) =
      some ([("ETag".toList, "v1".toList), ([], [])], some "v1".toList, "v1".toList) := by
  decide

/-- C15, as the code has it: on a clean header block whose lines are
`before ++ (name, value) :: after`, with a non-empty `name` that no line of `before` has,
the header map that `extractKV` builds inside `parseResponse` holds `value` under `name`,
whatever lines follow (a later line with the same name does not replace it), and every
response that `parseResponse` returns carries that map. -/
theorem first_line_of_a_name_wins (mktimeOf : Str → Int) (url : Str) (segment : List Str)
    (sl : Str) (code : Nat) (before after : List (Str × Str)) (name value tail : Str)
    (now : Int) (hb : CleanBlock sl code (before ++ (name, value) :: after) tail)
    (hname : name ≠ []) (hfirst : ∀ l ∈ before, l.1 ≠ name) :
    ∃ r1 r2,
      Parser.extractFirstLine
          (Response.new url segment
            (headerBlock sl (before ++ (name, value) :: after) tail) now) = some r1 ∧
        Parser.extractKV r1 = some r2 ∧ mapFind r2.kv name = some value ∧
        ∀ r, Parser.parseResponse mktimeOf
            (Response.new url segment
              (headerBlock sl (before ++ (name, value) :: after) tail) now) = some r →
          r.kv = r2.kv := by
  have hcr : ∀ c ∈ sl, c ≠ '\r' ∧ c ≠ '\n' := by
    obtain ⟨_, _, _, _, _, _, _, _, _, h⟩ := hb.status
    exact h
  have hshort := hb.short
  have hsl : sl.length < 2 ^ 64 := by
    unfold headerBlock at hshort
    simp only [List.length_append, List.length_cons] at hshort
    omega
  have h1 := extractFirstLine_status
    (Response.new url segment (headerBlock sl (before ++ (name, value) :: after) tail) now) sl
    ('\n' :: (renderLines (before ++ (name, value) :: after) ++ '\r' :: '\n' :: tail)) code
    hb.status rfl rfl hsl
  have h2 := extractKV_block
    { Response.new url segment (headerBlock sl (before ++ (name, value) :: after) tail) now with
      first_line := sl, status_code := (code : Int) }
    sl (before ++ (name, value) :: after) tail rfl rfl hcr hb.names hb.values hb.rest
    (Nat.lt_trans hb.short (by decide))
  refine ⟨_, _, h1, h2, ?_, ?_⟩
  · show mapFind (blockMap (before ++ (name, value) :: after)) name = some value
    rw [mapFind_blockMap _ name hname]
    exact mapFind_first before after name value hfirst
  · intro r hr
    obtain ⟨x, hx⟩ := clean_parse_some mktimeOf url segment sl code _ tail now hb r hr
    exact (clean_final_fields mktimeOf url segment sl code _ tail now x r hx).1

/-- Witness of C15 as the code has it: in the block with `ETag: v1` and `ETag: v2` the map
holds `v1` under `ETag`. -/
theorem first_line_of_a_name_wins_witness :
    CleanBlock statusOk 200 ([] ++ ("ETag".toList, "v1".toList) ::
        [("ETag".toList, "v2".toList)]) [] ∧
      ∃ r1 r2,
        Parser.extractFirstLine
            (Response.new urlA []
              (headerBlock statusOk ([] ++ ("ETag".toList, "v1".toList) ::
                [("ETag".toList, "v2".toList)]) []) 1000) = some r1 ∧
          Parser.extractKV r1 = some r2 ∧ mapFind r2.kv "ETag".toList = some "v1".toList ∧
          ∀ r, Parser.parseResponse mktimeZero
              (Response.new urlA []
                (headerBlock statusOk ([] ++ ("ETag".toList, "v1".toList) ::
                  [("ETag".toList, "v2".toList)]) []) 1000) = some r →
            r.kv = r2.kv :=
  ⟨linesTwoETags_clean,
    first_line_of_a_name_wins mktimeZero urlA [] statusOk 200 [] [("ETag".toList, "v2".toList)]
      "ETag".toList "v1".toList [] 1000 linesTwoETags_clean (by decide)
      (fun l hl => (by cases hl))⟩

/-! ## C16: a colon-space inside a header value -/

/-- C16 fails on the code: the line `X-Note: retry: later` has its first colon-space after
`X-Note`, yet the map gets the pair `retry` ↦ `later`: the second colon-space makes the loop
of `extractKV` take the text since the first one as the name, and nothing is stored under
`X-Note`. -/
theorem later_colon_space_replaces_name :
    (Parser.parseResponse mktimeZero (arrived headerColonInValue)).map
        (fun r => (r.kv, mapFind r.kv "X-Note".toList)) =
      some ([("retry".toList, "later".toList), ([], [])], none) := by
  decide

/-! ## C17: the expiration time and the time of arrival -/

/-- C17 as stated fails: the block carries `Cache-Control: max-age=-5`; `std::stoi` reads
`-5`, and the response parsed at time 1000 expires at time 995, before it arrived. -/
theorem negative_max_age_expires_before_arrival :
    (Parser.parseResponse mktimeZero (arrived headerNegativeMaxAge)).map
        (fun r => (r.cur_time, r.expiration_time,
          decide (r.cur_time ≤ r.expiration_time))) =
      some (1000, 995, false) := by
  decide

/-- C17, as the code has it: for every response that `parseResponse` returns, with a
`Cache-Control` value of fewer than `2^31 - 8` characters in its header map,
`expiration_time` is `cur_time` when the map has no `Cache-Control` entry or its value does
not contain `max-age`, and otherwise `cur_time + n` for the integer `n` that `std::stoi`
reads from the value eight characters after the first `max-age`; so
`expiration_time ≥ cur_time` exactly when `n` is not negative. -/
theorem expiration_is_cur_time_plus_read_max_age (mktimeOf : Str → Int) (r r4 : Response)
    (h : Parser.parseResponse mktimeOf r = some r4)
    (hlen : ∀ v, mapFind r4.kv "Cache-Control".toList = some v → v.length + 8 < 2 ^ 31) :
    (mapFind r4.kv "Cache-Control".toList = none → r4.expiration_time = r4.cur_time) ∧
      (∀ v, mapFind r4.kv "Cache-Control".toList = some v →
        strFind v "max-age".toList = none → r4.expiration_time = r4.cur_time) ∧
      (∀ v idx, mapFind r4.kv "Cache-Control".toList = some v →
        strFind v "max-age".toList = some idx →
        ∃ n : Int, stoi (v.drop (idx + 8)) = some n ∧
          r4.expiration_time = r4.cur_time + n ∧
          (r4.cur_time ≤ r4.expiration_time ↔ 0 ≤ n)) := by
  obtain ⟨r2, r3, hc, e, hkv, hct⟩ := parseResponse_some mktimeOf r r4 h
  have f4 := extractLastModified_fields mktimeOf r3
  have hexp : r4.expiration_time = r3.expiration_time := by rw [e]; exact f4.2.2.1
  refine ⟨?_, ?_, ?_⟩
  · intro hnone
    rw [← hkv] at hnone
    rw [calcExpiration_no_cache_control r2 hnone] at hc
    rw [hexp, ← Option.some.inj hc, ← hct]
    exact Int.add_zero _
  · intro v hv hm
    rw [← hkv] at hv
    rw [calcExpiration_no_max_age r2 v hv hm] at hc
    rw [hexp, ← Option.some.inj hc, ← hct]
    exact Int.add_zero _
  · intro v idx hv hm
    have hl := hlen v hv
    rw [← hkv] at hv
    rw [calcExpiration_max_age r2 v idx hv hm hl] at hc
    cases hn : stoi (v.drop (idx + 8)) with
    | none => rw [hn] at hc; cases hc
    | some n =>
      rw [hn] at hc
      have he : r4.expiration_time = r4.cur_time + n := by
        rw [hexp, ← Option.some.inj hc, ← hct]
      refine ⟨n, rfl, he, ?_⟩
      rw [he]
      omega

/-- Witness of C17 as the code has it: the block with `max-age=-5` parsed at time 1000;
`std::stoi` reads `-5` and the response expires at `1000 + (-5)`. -/
theorem expiration_is_cur_time_plus_read_max_age_witness :
    Parser.parseResponse mktimeZero (arrived headerNegativeMaxAge) = some arrivedNegative ∧
      ∃ n : Int, stoi ("max-age=-5".toList.drop (0 + 8)) = some n ∧
        arrivedNegative.expiration_time = arrivedNegative.cur_time + n ∧
        (arrivedNegative.cur_time ≤ arrivedNegative.expiration_time ↔ 0 ≤ n) :=
  ⟨by decide,
    (expiration_is_cur_time_plus_read_max_age mktimeZero (arrived headerNegativeMaxAge)
      arrivedNegative (by decide)
      (fun v hv => by
        have e : mapFind arrivedNegative.kv "Cache-Control".toList =
            some "max-age=-5".toList := by decide
        rw [e] at hv
        cases hv
        decide)).2.2 "max-age=-5".toList 0 (by decide) (by decide)⟩

/-! ## C18: a max-age without an integer -/

/-- C18 as stated fails: the status line is well formed and the block carries
`Cache-Control: max-age=abc`; `std::stoi` throws on `abc`, nothing catches it inside the
parser, and `parseResponse` fails. -/
theorem malformed_max_age_fails_the_parse :
    Parser.parseResponse mktimeZero (arrived headerBadMaxAge) = none := by
  decide

/-- C18, as the code has it: on a clean header block, whose status line is well formed,
`parseResponse` fails exactly when the value of the first `Cache-Control` line contains
`max-age` and `std::stoi` reads no integer from the value eight characters after its first
place; when there is no `Cache-Control` line, or the value of the first one does not contain
`max-age`, it succeeds with the status code of the status line and
`expiration_time = cur_time`. -/
theorem parse_fails_only_on_malformed_max_age (mktimeOf : Str → Int) (url : Str)
    (segment : List Str) (sl : Str) (code : Nat) (lines : List (Str × Str)) (tail : Str)
    (now : Int) (hb : CleanBlock sl code lines tail) :
    (Parser.parseResponse mktimeOf
          (Response.new url segment (headerBlock sl lines tail) now) = none ↔
        ∃ v idx, mapFind lines "Cache-Control".toList = some v ∧
          strFind v "max-age".toList = some idx ∧ stoi (v.drop (idx + 8)) = none) ∧
      ((mapFind lines "Cache-Control".toList = none ∨
          ∃ v, mapFind lines "Cache-Control".toList = some v ∧ ¬ Contains v "max-age".toList) →
        ∃ r, Parser.parseResponse mktimeOf
              (Response.new url segment (headerBlock sl lines tail) now) = some r ∧
          r.status_code = (code : Int) ∧ r.cur_time = now ∧ r.expiration_time = now) := by
  constructor
  · constructor
    · intro hnone
      cases hcc : mapFind lines "Cache-Control".toList with
      | none =>
        rw [clean_parse_plain mktimeOf url segment sl code lines tail now hb (Or.inl hcc)]
          at hnone
        cases hnone
      | some v =>
        cases hm : strFind v "max-age".toList with
        | none =>
          rw [clean_parse_plain mktimeOf url segment sl code lines tail now hb
            (Or.inr ⟨v, hcc, hm⟩)] at hnone
          cases hnone
        | some idx =>
          rw [clean_parse_max_age mktimeOf url segment sl code lines tail now hb v idx hcc hm]
            at hnone
          cases hn : stoi (v.drop (idx + 8)) with
          | none => exact ⟨v, idx, rfl, hm, hn⟩
          | some n => rw [hn] at hnone; cases hnone
    · rintro ⟨v, idx, hcc, hm, hn⟩
      rw [clean_parse_max_age mktimeOf url segment sl code lines tail now hb v idx hcc hm, hn]
  · intro h
    have h' : mapFind lines "Cache-Control".toList = none ∨
        ∃ v, mapFind lines "Cache-Control".toList = some v ∧
          strFind v "max-age".toList = none := by
      rcases h with h | ⟨v, h, hm⟩
      · exact Or.inl h
      · exact Or.inr ⟨v, h, (strFind_eq_none_iff _ _).2 hm⟩
    have hp := clean_parse_plain mktimeOf url segment sl code lines tail now hb h'
    have hf := clean_final_fields mktimeOf url segment sl code lines tail now
      ((Parser.extractAttri (parsedHead url segment sl code lines tail now)).cur_time + 0) _ rfl
    refine ⟨_, hp, hf.2.2.2.1, hf.2.1, ?_⟩
    rw [hf.2.2.1, parsedHead_cur_time, Int.add_zero]

/-- Witness of C18 as the code has it: the block with `max-age=abc` fails to parse, and the
block without `Cache-Control` is parsed with status 200 and expires when it arrived. -/
theorem parse_fails_only_on_malformed_max_age_witness :
    (CleanBlock statusOk 200 linesBadMaxAge [] ∧
      Parser.parseResponse mktimeZero
        (Response.new urlA [] (headerBlock statusOk linesBadMaxAge []) 1000) = none) ∧
    (CleanBlock statusOk 200 linesPlain [] ∧
      ∃ r, Parser.parseResponse mktimeZero
            (Response.new urlA [] (headerBlock statusOk linesPlain []) 1000) = some r ∧
        r.status_code = ((200 : Nat) : Int) ∧ r.cur_time = 1000 ∧ r.expiration_time = 1000) :=
  ⟨⟨linesBadMaxAge_clean,
      (parse_fails_only_on_malformed_max_age mktimeZero urlA [] statusOk 200 linesBadMaxAge []
        1000 linesBadMaxAge_clean).1.2
        ⟨"max-age=abc".toList, 0, by decide, by decide, by decide⟩⟩,
    ⟨linesPlain_clean,
      (parse_fails_only_on_malformed_max_age mktimeZero urlA [] statusOk 200 linesPlain []
        1000 linesPlain_clean).2 (Or.inl (by decide))⟩⟩

/-! ## C19: put after a remove has freed a slot -/

/-- C19 fails on the code: with capacity 2, after `put(A)`, `put(B)` and `remove(A)` the
cache holds B alone, one entry fewer than its capacity, but `sz` is still 2 because `remove`
does not count down.  `put(C)` for the absent URL C therefore enters the eviction branch,
which takes B, stored before the put, off the recency list (and then reads the destroyed
list element, so that the call is undefined); with the counter at 1, as a `remove` that
counts down would leave it, the same `put` keeps B. -/
theorem put_after_remove_evicts_below_capacity :
    (LRUCache.new 2).run [.put urlA sampleResponse, .put urlB sampleResponse, .remove urlA] =
        some { sz := 2, capacity := 2, cache := [urlB], kv := [(urlB, sampleResponse)] } ∧
      ([(urlB, sampleResponse)] : List (Str × Response)).length = 1 ∧
      LRUCache.existsUrl
          { sz := 2, capacity := 2, cache := [urlB], kv := [(urlB, sampleResponse)] } urlC =
        false ∧
      LRUCache.evicted
          { sz := 2, capacity := 2, cache := [urlB], kv := [(urlB, sampleResponse)] } urlC =
        some urlB ∧
      LRUCache.put
          { sz := 2, capacity := 2, cache := [urlB], kv := [(urlB, sampleResponse)] }
          urlC sampleResponse = none ∧
      (LRUCache.put
          { sz := 1, capacity := 2, cache := [urlB], kv := [(urlB, sampleResponse)] }
          urlC sampleResponse).map
          (fun s => (s.existsUrl urlB, s.existsUrl urlC, s.cache, s.kv.length)) =
        some (true, true, [urlB, urlC], 2) := by
  decide

/-! ## C20: the key set and the recency list -/

/-- C20 fails on the code: with capacity 1, after `put(A)` the key set of the map and the
recency list both hold A.  `put(B)` for the absent URL B enters the eviction branch:
`pop_front()` takes the record of A off the recency list, and `kv.erase(url)`, which is to
remove the key A, reads the list element that `pop_front()` destroyed.  The call is
undefined, so nothing keeps the key set and the recency list in step. -/
theorem evicted_key_is_read_after_pop_front :
    (LRUCache.new 1).run [.put pageA sampleResponse] =
        some { sz := 1, capacity := 1, cache := [pageA], kv := [(pageA, sampleResponse)] } ∧
      LRUCache.keys
          { sz := 1, capacity := 1, cache := [pageA], kv := [(pageA, sampleResponse)] } =
        [pageA] ∧
      LRUCache.existsUrl
          { sz := 1, capacity := 1, cache := [pageA], kv := [(pageA, sampleResponse)] } pageB =
        false ∧
      LRUCache.evicted
          { sz := 1, capacity := 1, cache := [pageA], kv := [(pageA, sampleResponse)] } pageB =
        some pageA ∧
      LRUCache.put
          { sz := 1, capacity := 1, cache := [pageA], kv := [(pageA, sampleResponse)] }
          pageB sampleResponse = none ∧
      (LRUCache.new 1).run [.put pageA sampleResponse, .put pageB sampleResponse] = none := by
  decide

/-! ## C21: the terminator after a read -/

theorem terminate_full (buffer : Str) (len : Nat) (h : BUFFER_SIZE ≤ len) :
    Proxy.terminate buffer len = none := by
  unfold Proxy.terminate
  rw [if_neg (Nat.not_lt.2 h)]

/-- A read of fewer than `BUFFER_SIZE` bytes, as the loops that ask `recv` for
`BUFFER_SIZE - 1` bytes get, leaves room for the terminator. -/
theorem terminate_inside (buffer : Str) (len : Nat) (h : len < BUFFER_SIZE) :
    Proxy.terminate buffer len = some (buffer.set len '\x00') := by
  unfold Proxy.terminate
  rw [if_pos h]

theorem fullRead_length : fullRead.length = BUFFER_SIZE :=
  List.length_replicate _ _

/-- The vector still has `BUFFER_SIZE` elements after `recv` has stored its bytes. -/
theorem length_after_recv (data : Str) (h : data.length ≤ BUFFER_SIZE) :
    (data ++ Proxy.newBuffer.drop data.length).length = BUFFER_SIZE := by
  unfold Proxy.newBuffer
  rw [List.length_append, List.length_drop, List.length_replicate]
  omega

theorem nextRecv_data (data : Str) (rest : List (Option Str)) (n : Nat)
    (h : data.length ≤ n) :
    Proxy.nextRecv (some data :: rest) n = some (some data, rest) := by
  show (if data.length ≤ n then some (some data, rest) else none) = _
  rw [if_pos h]

/-- When the client's `recv` returns `BUFFER_SIZE` bytes, `acceptRequest` has no defined
result. -/
theorem acceptRequest_full (w : World) (data : Str) (rest : List (Option Str))
    (hin : w.clientIn = some data :: rest) (hlen : data.length = BUFFER_SIZE) :
    Proxy.acceptRequest w = .stuck := by
  unfold Proxy.acceptRequest
  rw [hin, nextRecv_data data rest _ (Nat.le_of_eq hlen)]
  simp only
  rw [terminate_full _ _ (Nat.le_of_eq hlen.symm)]

/-- When the origin's `recv` returns `BUFFER_SIZE` bytes, `getResponseHeader` has no defined
result. -/
theorem getResponseHeader_full (buffer : Str) (w : World) (data : Str)
    (rest : List (Option Str)) (hin : w.serverIn = some data :: rest)
    (hlen : data.length = BUFFER_SIZE) :
    Proxy.getResponseHeader buffer w = .stuck := by
  unfold Proxy.getResponseHeader
  rw [hin, nextRecv_data data rest _ (Nat.le_of_eq hlen)]
  simp only
  rw [terminate_full _ _ (Nat.le_of_eq hlen.symm)]

/-- When the conditional request has been sent and the origin's `recv` returns `BUFFER_SIZE`
bytes, `resendCheckStatus` has no defined result. -/
theorem resendCheckStatus_full (mktimeOf : Str → Int) (content url : Str) (w w1 : World)
    (data : Str) (rest : List (Option Str)) (hs : Proxy.sendServer content w = .ok () w1)
    (hin : w1.serverIn = some data :: rest) (hlen : data.length = BUFFER_SIZE) :
    Proxy.resendCheckStatus mktimeOf content url w = .stuck := by
  unfold Proxy.resendCheckStatus
  rw [hs]
  simp only
  rw [hin, nextRecv_data data rest _ (Nat.le_of_eq hlen)]
  simp only
  rw [terminate_full _ _ (Nat.le_of_eq hlen.symm)]

theorem sendServer_worldFullReply :
    Proxy.sendServer requestBytesA worldFullReply =
      .ok () { worldFullReply with sends := [], toServer := requestBytesA } := by
  unfold Proxy.sendServer
  have h : Proxy.sendAll requestBytesA worldFullReply.sends 0 =
      some (true, requestBytesA, []) :=
    sendAll_complete requestBytesA BUFFER_SIZE [] (by decide) (by decide)
  rw [h]
  rfl

/-- C21 fails on the code: `recv` asked for `BUFFER_SIZE` bytes may return `BUFFER_SIZE`
(65536), the vector has `BUFFER_SIZE` elements before and after the read, and the index
`len = 65536` of the terminator write is not below that number: `buffer[len]` is one past
the last element.  So `acceptRequest`, `getResponseHeader` and `resendCheckStatus` have no
defined result on such a read. -/
theorem terminator_write_past_full_buffer :
    fullRead.length = 65536 ∧
      Proxy.nextRecv [some fullRead] BUFFER_SIZE = some (some fullRead, []) ∧
      Proxy.newBuffer.length = 65536 ∧
      (fullRead ++ Proxy.newBuffer.drop fullRead.length).length = 65536 ∧
      ¬ fullRead.length < (fullRead ++ Proxy.newBuffer.drop fullRead.length).length ∧
      Proxy.terminate (fullRead ++ Proxy.newBuffer.drop fullRead.length) fullRead.length =
        none ∧
      Proxy.acceptRequest worldFullRequest = .stuck ∧
      Proxy.getResponseHeader Proxy.newBuffer worldFullReply = .stuck ∧
      Proxy.resendCheckStatus mktimeZero requestBytesA urlA worldFullReply = .stuck := by
  have hl : fullRead.length = BUFFER_SIZE := fullRead_length
  have hv := length_after_recv fullRead (Nat.le_of_eq hl)
  refine ⟨hl, nextRecv_data _ _ _ (Nat.le_of_eq hl), List.length_replicate _ _, hv, ?_,
    terminate_full _ _ (Nat.le_of_eq hl.symm), ?_, ?_, ?_⟩
  · rw [hv, hl]
    exact Nat.lt_irrefl _
  · exact acceptRequest_full worldFullRequest fullRead [] rfl hl
  · exact getResponseHeader_full _ worldFullReply fullRead [] rfl hl
  · exact resendCheckStatus_full mktimeZero requestBytesA urlA worldFullReply _ fullRead []
      sendServer_worldFullReply rfl hl

end HttpCacheProxy
